import Mathlib

/-!
# Library catalogue (`main.cpp`): shallow embedding and verified properties

The program keeps every `Publication`, `Customer` and `Shelf` behind a
`std::shared_ptr`; the same book object is reachable from the library's master
list, from a shelf, from customers' borrowed lists and from the return history,
and its counters are mutated in place.  The embedding keeps that sharing:

* objects live in a `Heap` (three typed stores), a `Ref` is the address of an
  object in its store, and every C++ container of `shared_ptr`s is a list of `Ref`s;
* a `Ref` outside its store stands for an empty `shared_ptr`.  Dereferencing it is
  undefined behaviour in C++; here a read through it yields nothing (it matches no
  search predicate) and a write through it does nothing;
* C++ `int` is modelled by `Int`.  Signed overflow is undefined behaviour in C++
  and lies outside the model;
* a `throw` does not undo what the operation did before it: every operation
  returns an `Outcome`, the state it leaves behind together with the error raised,
  if any.
-/

namespace Ueb03

/-! ## Errors and outcomes -/

/-- The kinds of `std::runtime_error` raised by the program, named after the
    condition that raises them. -/
inductive Error where
  /-- Message "Stack is empty" -/
  | emptyContainer
  /-- Message "Can only add books to BookShelf", "Can only return books to BookShelf" and
      the two magazine counterparts -/
  | typeMismatch
  /-- Message "Book not found or not available", "Magazine not found or not available" -/
  | notFoundOrUnavailable
  /-- Message "Book not found in shelf", "Magazine not found in shelf", "Book not found"
      and "Magazine not found" of `addExemplar`, "Publication not found in
      customer's borrowed list" -/
  | notFound
  /-- Message "Customer already has a publication with this title" -/
  | duplicateTitle
  /-- Message "Customer not found" -/
  | customerNotFound
  /-- Message "Book not found" of `Library::borrowBook` and `Library::returnBook` -/
  | bookNotFound
  /-- Message "No available copies of this book" -/
  | noCopiesAvailable
deriving DecidableEq, Repr

/-- What an operation leaves behind: the state after it, and the exception it
    raised, if any. -/
structure Outcome (σ : Type) where
  state : σ
  error : Option Error
deriving DecidableEq, Repr

/-! ## `std::find_if` -/

/-- Position of the first element satisfying `p`; the length of the list (the
    `end()` iterator) when there is none. -/
def find_if {α : Type} (p : α → Bool) : List α → Nat
  | [] => 0
  | x :: xs => if p x then 0 else find_if p xs + 1

/-! ## `Stack<T>` -/

/-- The generic stack: a vector whose back is the top. -/
structure Stack (α : Type) where
  data : List α
deriving DecidableEq, Repr

namespace Stack

variable {α : Type}

def isEmpty (s : Stack α) : Bool := s.data.isEmpty

def push (s : Stack α) (item : α) : Stack α := ⟨s.data ++ [item]⟩

def pop (s : Stack α) : Outcome (Stack α) :=
  if s.isEmpty then ⟨s, some Error.emptyContainer⟩
  else ⟨⟨s.data.dropLast⟩, none⟩

def top (s : Stack α) : Except Error α :=
  if s.isEmpty then Except.error Error.emptyContainer
  else
    match s.data.getLast? with
    | some x => Except.ok x
    | none => Except.error Error.emptyContainer

end Stack

/-! ## Authors and publications -/

structure Author where
  firstName : String
  lastName : String
deriving DecidableEq, Repr

def Author.getFullName (a : Author) : String := a.firstName ++ " " ++ a.lastName

structure Publication where
  id : Int
  title : String
  yearOfPublication : Int
  totalCopies : Int
  availableCopies : Int
deriving DecidableEq, Repr

structure Book extends Publication where
  author : Author
  pageCount : Int
deriving DecidableEq, Repr

structure Magazine extends Publication where
  issueNumber : Int
deriving DecidableEq, Repr

/-- A publication object on the heap, with its dynamic type. -/
inductive PubObj where
  | publication (p : Publication)
  | book (b : Book)
  | magazine (m : Magazine)
deriving DecidableEq, Repr

namespace PubObj

/-- The `Publication` base subobject. -/
def base : PubObj → Publication
  | publication p => p
  | book b => b.toPublication
  | magazine m => m.toPublication

/-- Assignment to the base subobject, keeping the dynamic type and the fields of
    the derived class. -/
def mapBase (f : Publication → Publication) : PubObj → PubObj
  | publication p => publication (f p)
  | book b => book { b with toPublication := f b.toPublication }
  | magazine m => magazine { m with toPublication := f m.toPublication }

/-- The statement `p->availableCopies--`. -/
def decAvailable (o : PubObj) : PubObj :=
  o.mapBase (fun p => { p with availableCopies := p.availableCopies - 1 })

/-- The statement `p->availableCopies++`. -/
def incAvailable (o : PubObj) : PubObj :=
  o.mapBase (fun p => { p with availableCopies := p.availableCopies + 1 })

/-- The statement `p->totalCopies++`. -/
def incTotal (o : PubObj) : PubObj :=
  o.mapBase (fun p => { p with totalCopies := p.totalCopies + 1 })

end PubObj

/-- Address of an object in its store: the value of a `std::shared_ptr`. -/
abbrev Ref := Nat

/-- The store of publication objects. -/
abbrev Pubs := List PubObj

/-- Reading `p->id`. -/
def idOf (pubs : Pubs) (p : Ref) : Option Int := (pubs[p]?).map (fun o => o.base.id)

/-- Reading `p->title`. -/
def titleOf (pubs : Pubs) (p : Ref) : Option String := (pubs[p]?).map (fun o => o.base.title)

/-- Reading `p->availableCopies`. -/
def availableOf (pubs : Pubs) (p : Ref) : Option Int :=
  (pubs[p]?).map (fun o => o.base.availableCopies)

/-- Reading `p->totalCopies`. -/
def totalOf (pubs : Pubs) (p : Ref) : Option Int :=
  (pubs[p]?).map (fun o => o.base.totalCopies)

/-! ## `Customer` -/

structure Customer where
  id : Int
  firstName : String
  lastName : String
  borrowedPublications : List Ref
deriving DecidableEq, Repr

namespace Customer

/-- The constructor: a customer starts with an empty borrowed list. -/
def new (id : Int) (first last : String) : Customer := ⟨id, first, last, []⟩

/-- Method `Customer::borrowPublication`: append unless an entry with the same title is
    already held. -/
def borrowPublication (pubs : Pubs) (c : Customer) (publication : Ref) : Outcome Customer :=
  if find_if (fun p => titleOf pubs p == titleOf pubs publication) c.borrowedPublications
      = c.borrowedPublications.length then
    ⟨{ c with borrowedPublications := c.borrowedPublications ++ [publication] }, none⟩
  else
    ⟨c, some Error.duplicateTitle⟩

/-- Method `Customer::returnPublication`: erase the first entry with the given id. -/
def returnPublication (pubs : Pubs) (c : Customer) (id : Int) : Outcome Customer :=
  let it := find_if (fun p => idOf pubs p == some id) c.borrowedPublications
  if it ≠ c.borrowedPublications.length then
    ⟨{ c with borrowedPublications := c.borrowedPublications.eraseIdx it }, none⟩
  else
    ⟨c, some Error.notFound⟩

end Customer

/-! ## Shelves -/

/-- The grouping index of a shelf, a `std::map` from a key to the entries filed
    under it: the groups in increasing key order, as the map iterates them. -/
abbrev GroupMap := List (String × List Ref)

/-- The access `m[key]` followed by an update of the group: the group is created empty, at
    its place in key order, when the key is new. -/
def GroupMap.update (key : String) (f : List Ref → List Ref) : GroupMap → GroupMap
  | [] => [(key, f [])]
  | (k, v) :: rest =>
    if key = k then (k, f v) :: rest
    else if key < k then (key, f []) :: (k, v) :: rest
    else (k, v) :: GroupMap.update key f rest

/-- The inner loop of a shelf scan: the first entry of a group whose object
    satisfies `pred`. -/
def scanGroup (pubs : Pubs) (pred : PubObj → Bool) : List Ref → Option Ref
  | [] => none
  | r :: rest =>
    match pubs[r]? with
    | some o => if pred o then some r else scanGroup pubs pred rest
    | none => scanGroup pubs pred rest

/-- The nested loops of a shelf scan: groups in key order, entries in list order,
    stopping at the first entry whose object satisfies `pred`. -/
def scanGroups (pubs : Pubs) (pred : PubObj → Bool) : GroupMap → Option Ref
  | [] => none
  | g :: rest =>
    match scanGroup pubs pred g.2 with
    | some r => some r
    | none => scanGroups pubs pred rest

structure Shelf where
  maxCapacity : Int
  floor : Int
deriving DecidableEq, Repr

structure BookShelf extends Shelf where
  books : GroupMap
deriving DecidableEq, Repr

structure MagazineShelf extends Shelf where
  magazines : GroupMap
deriving DecidableEq, Repr

/-- A shelf object on the heap, with its dynamic type (`Shelf` is abstract). -/
inductive ShelfObj where
  | bookShelf (s : BookShelf)
  | magazineShelf (s : MagazineShelf)
deriving DecidableEq, Repr

/-- The title read for sorting. -/
def titleStr (pubs : Pubs) (r : Ref) : String := (titleOf pubs r).getD ""

namespace BookShelf

/-- The constructor: an empty index. -/
def new (capacity floorNumber : Int) : BookShelf := ⟨⟨capacity, floorNumber⟩, []⟩

/-- Method `BookShelf::addPublication`: file the book under its author's full name and
    sort that group by title (`std::list::sort`, a stable sort, with the
    comparator `a->title < b->title`). -/
def addPublication (pubs : Pubs) (s : BookShelf) (publication : Ref) : Outcome BookShelf :=
  match pubs[publication]? with
  | some (PubObj.book book) =>
    let authorName := book.author.getFullName
    let byTitle : Ref → Ref → Bool := fun a b => !decide (titleStr pubs b < titleStr pubs a)
    let books := GroupMap.update authorName
      (fun authorBooks => (authorBooks ++ [publication]).mergeSort byTitle) s.books
    ⟨{ s with books := books }, none⟩
  | _ => ⟨s, some Error.typeMismatch⟩

/-- Method `BookShelf::addExemplar`: one more copy of the first entry with the given id. -/
def addExemplar (pubs : Pubs) (s : BookShelf) (id : Int) : Outcome (Pubs × BookShelf) :=
  match scanGroups pubs (fun o => o.base.id == id) s.books with
  | some book => ⟨(pubs.modify (fun o => o.incTotal.incAvailable) book, s), none⟩
  | none => ⟨(pubs, s), some Error.notFound⟩

end BookShelf

namespace MagazineShelf

/-- The constructor: an empty index. -/
def new (capacity floorNumber : Int) : MagazineShelf := ⟨⟨capacity, floorNumber⟩, []⟩

/-- Method `MagazineShelf::addExemplar`: one more copy of the first entry with the given id. -/
def addExemplar (pubs : Pubs) (s : MagazineShelf) (id : Int) : Outcome (Pubs × MagazineShelf) :=
  match scanGroups pubs (fun o => o.base.id == id) s.magazines with
  | some magazine => ⟨(pubs.modify (fun o => o.incTotal.incAvailable) magazine, s), none⟩
  | none => ⟨(pubs, s), some Error.notFound⟩

end MagazineShelf

/-! ## Shelves: removing, borrowing and returning -/

/-- The group filed under `key`; empty when the key is absent. -/
def GroupMap.lookup (key : String) : GroupMap → List Ref
  | [] => []
  | (k, v) :: rest => if key = k then v else GroupMap.lookup key rest

/-- The keys of a grouping index, in iteration order. -/
def GroupMap.keys (m : GroupMap) : List String := m.map Prod.fst

/-- The loop of `removePublication`: `remove_if` on every group, with the
    predicate `p->id == id`; the groups themselves stay, possibly empty. -/
def GroupMap.removeId (pubs : Pubs) (id : Int) (m : GroupMap) : GroupMap :=
  m.map (fun g => (g.1, g.2.filter (fun r => !(idOf pubs r == some id))))

/-- Dereference an entry and test it: an empty pointer satisfies nothing. -/
def holds (pubs : Pubs) (pred : PubObj → Bool) (r : Ref) : Bool :=
  match pubs[r]? with
  | some o => pred o
  | none => false

/-- The test of `borrowPublication`: `p->id == id && p->availableCopies > 0`. -/
def borrowable (id : Int) (o : PubObj) : Bool :=
  o.base.id == id && decide (0 < o.base.availableCopies)

namespace BookShelf

/-- Method `BookShelf::removePublication`: never throws. -/
def removePublication (pubs : Pubs) (s : BookShelf) (id : Int) : Outcome BookShelf :=
  ⟨{ s with books := GroupMap.removeId pubs id s.books }, none⟩

/-- Method `BookShelf::borrowPublication`: the first entry with the id and a copy
    left loses one copy and is returned. -/
def borrowPublication (pubs : Pubs) (s : BookShelf) (id : Int) :
    (Pubs × BookShelf) × Except Error Ref :=
  match scanGroups pubs (borrowable id) s.books with
  | some book => ((pubs.modify PubObj.decAvailable book, s), Except.ok book)
  | none => ((pubs, s), Except.error Error.notFoundOrUnavailable)

/-- Method `BookShelf::returnPublication`: after the type guard, the first entry of
    the whole index with the id of the publication gets one copy back. -/
def returnPublication (pubs : Pubs) (s : BookShelf) (publication : Ref) :
    Outcome (Pubs × BookShelf) :=
  match pubs[publication]? with
  | some (PubObj.book book) =>
    match scanGroups pubs (fun o => o.base.id == book.id) s.books with
    | some existingBook => ⟨(pubs.modify PubObj.incAvailable existingBook, s), none⟩
    | none => ⟨(pubs, s), some Error.notFound⟩
  | _ => ⟨(pubs, s), some Error.typeMismatch⟩

end BookShelf

/-- The sort key of a magazine entry: `(yearOfPublication, issueNumber)`. -/
def magazineKey (pubs : Pubs) (r : Ref) : Int × Int :=
  match pubs[r]? with
  | some (PubObj.magazine m) => (m.yearOfPublication, m.issueNumber)
  | _ => (0, 0)

/-- The comparator of `MagazineShelf::addPublication`:
    `std::tie(a->yearOfPublication, a->issueNumber) < std::tie(b->..., b->...)`. -/
def magazineBefore (pubs : Pubs) (a b : Ref) : Bool :=
  decide ((magazineKey pubs a).1 < (magazineKey pubs b).1) ||
    (!decide ((magazineKey pubs b).1 < (magazineKey pubs a).1) &&
      decide ((magazineKey pubs a).2 < (magazineKey pubs b).2))

/-- An implementation of `std::sort(first, last, comp)`, as a function of the
    comparator and the sequence.  The library algorithm is not part of the
    program and is not stable; a shelf operation takes it as an argument. -/
abbrev SortAlgorithm := (Ref → Ref → Bool) → List Ref → List Ref

/-- What the C++ standard guarantees of `std::sort` for the comparator `comp`: the
    result is a rearrangement of the input in which no element is followed by one
    that `comp` puts before it. -/
def SortsBy (stdSort : SortAlgorithm) (comp : Ref → Ref → Bool) : Prop :=
  ∀ l : List Ref, (stdSort comp l).Perm l ∧
    (stdSort comp l).Pairwise (fun a b => comp b a = false)

/-- One implementation of `std::sort`: merge sort. -/
def mergeSortBy : SortAlgorithm := fun comp l => l.mergeSort (fun a b => !comp b a)

namespace MagazineShelf

/-- Method `MagazineShelf::addPublication`: file the magazine under its title and
    sort that group with `std::sort` by `(yearOfPublication, issueNumber)`. -/
def addPublication (stdSort : SortAlgorithm) (pubs : Pubs) (s : MagazineShelf)
    (publication : Ref) : Outcome MagazineShelf :=
  match pubs[publication]? with
  | some (PubObj.magazine magazine) =>
    let magazines := GroupMap.update magazine.title
      (fun titleMagazines => stdSort (magazineBefore pubs) (titleMagazines ++ [publication]))
      s.magazines
    ⟨{ s with magazines := magazines }, none⟩
  | _ => ⟨s, some Error.typeMismatch⟩

/-- Method `MagazineShelf::removePublication`: never throws. -/
def removePublication (pubs : Pubs) (s : MagazineShelf) (id : Int) : Outcome MagazineShelf :=
  ⟨{ s with magazines := GroupMap.removeId pubs id s.magazines }, none⟩

/-- Method `MagazineShelf::borrowPublication`: the first entry with the id and a
    copy left loses one copy and is returned. -/
def borrowPublication (pubs : Pubs) (s : MagazineShelf) (id : Int) :
    (Pubs × MagazineShelf) × Except Error Ref :=
  match scanGroups pubs (borrowable id) s.magazines with
  | some magazine => ((pubs.modify PubObj.decAvailable magazine, s), Except.ok magazine)
  | none => ((pubs, s), Except.error Error.notFoundOrUnavailable)

/-- Method `MagazineShelf::returnPublication`: after the type guard,
    `magazines[magazine->title]` selects the group filed under the title of the
    publication (creating it, empty, when the title is new), and only that group
    is searched for the id. -/
def returnPublication (pubs : Pubs) (s : MagazineShelf) (publication : Ref) :
    Outcome (Pubs × MagazineShelf) :=
  match pubs[publication]? with
  | some (PubObj.magazine magazine) =>
    let magazines := GroupMap.update magazine.title (fun titleMagazines => titleMagazines)
      s.magazines
    let titleMagazines := GroupMap.lookup magazine.title magazines
    match scanGroup pubs (fun o => o.base.id == magazine.id) titleMagazines with
    | some existingMagazine =>
      ⟨(pubs.modify PubObj.incAvailable existingMagazine, { s with magazines := magazines }), none⟩
    | none => ⟨(pubs, { s with magazines := magazines }), some Error.notFound⟩
  | _ => ⟨(pubs, s), some Error.typeMismatch⟩

end MagazineShelf

/-! ## `Library` -/

/-- The objects the library's `shared_ptr`s point to. -/
structure Heap where
  pubs : Pubs
  customers : List Customer
  shelves : List ShelfObj
deriving DecidableEq, Repr

/-- The data members of `class Library`. -/
structure Library where
  customers : List Ref
  returnedPublications : Stack Ref
  books : List Ref
  shelves : List Ref
  magazines : List Ref
deriving DecidableEq, Repr

/-- A library state: the `Library` object and the objects it points to. -/
structure World where
  heap : Heap
  library : Library
deriving DecidableEq, Repr

/-- The state at the start of `main`: a default-constructed library, no objects. -/
def World.empty : World := ⟨⟨[], [], []⟩, ⟨[], ⟨[]⟩, [], [], []⟩⟩

/-- Reading `c->id` of a customer. -/
def customerIdOf (h : Heap) (c : Ref) : Option Int := (h.customers[c]?).map (fun o => o.id)

/-- The test `std::dynamic_pointer_cast<BookShelf>(shelf)`. -/
def isBookShelf (h : Heap) (shelf : Ref) : Bool :=
  match h.shelves[shelf]? with
  | some (ShelfObj.bookShelf _) => true
  | _ => false

namespace Library

/-- Method `Library::findCustomer`: the first customer with the id, or a null pointer. -/
def findCustomer (w : World) (customerId : Int) : Option Ref :=
  w.library.customers[find_if (fun c => customerIdOf w.heap c == some customerId)
    w.library.customers]?

/-- Method `Library::findBook`: the first book of the master list with the id, or a
    null pointer. -/
def findBook (w : World) (bookId : Int) : Option Ref :=
  w.library.books[find_if (fun b => idOf w.heap.pubs b == some bookId) w.library.books]?

/-- Method `Library::addCustomer`. -/
def addCustomer (w : World) (customer : Ref) : Outcome World :=
  ⟨{ w with library := { w.library with customers := w.library.customers ++ [customer] } }, none⟩

/-- Method `Library::addBook`: append to the master list, then register the book on the
    first shelf that is a `BookShelf`, if there is one. -/
def addBook (w : World) (book : Ref) : Outcome World :=
  let w1 : World := { w with library := { w.library with books := w.library.books ++ [book] } }
  match w1.library.shelves[find_if (isBookShelf w1.heap) w1.library.shelves]? with
  | some shelf =>
    match w1.heap.shelves[shelf]? with
    | some (ShelfObj.bookShelf bookShelf) =>
      let r := BookShelf.addPublication w1.heap.pubs bookShelf book
      ⟨{ w1 with heap := { w1.heap with
          shelves := w1.heap.shelves.set shelf (ShelfObj.bookShelf r.state) } }, r.error⟩
    | _ => ⟨w1, none⟩
  | none => ⟨w1, none⟩

/-- Method `Library::borrowBook`.  The decrement precedes the call of
    `Customer::borrowPublication`, whose exception leaves it in place.  The last
    branch is never taken: `findCustomer` only returns pointers it has
    dereferenced. -/
def borrowBook (w : World) (customerId bookId : Int) : Outcome World :=
  match findCustomer w customerId with
  | none => ⟨w, some Error.customerNotFound⟩
  | some customer =>
    match findBook w bookId with
    | none => ⟨w, some Error.bookNotFound⟩
    | some book =>
      if availableOf w.heap.pubs book = some 0 then ⟨w, some Error.noCopiesAvailable⟩
      else
        let pubs1 := w.heap.pubs.modify PubObj.decAvailable book
        match w.heap.customers[customer]? with
        | some c =>
          let r := Customer.borrowPublication pubs1 c book
          ⟨{ w with heap := { w.heap with
              pubs := pubs1, customers := w.heap.customers.set customer r.state } }, r.error⟩
        | none => ⟨{ w with heap := { w.heap with pubs := pubs1 } }, none⟩

/-- Method `Library::returnBook`.  An exception of `Customer::returnPublication` skips
    the push.  The last branch is never taken: `findCustomer` only returns
    pointers it has dereferenced. -/
def returnBook (w : World) (customerId bookId : Int) : Outcome World :=
  match findCustomer w customerId with
  | none => ⟨w, some Error.customerNotFound⟩
  | some customer =>
    match findBook w bookId with
    | none => ⟨w, some Error.bookNotFound⟩
    | some book =>
      match w.heap.customers[customer]? with
      | some c =>
        let r := Customer.returnPublication w.heap.pubs c bookId
        let w1 : World := { w with heap := { w.heap with
          customers := w.heap.customers.set customer r.state } }
        match r.error with
        | some e => ⟨w1, some e⟩
        | none => ⟨{ w1 with library := { w1.library with
            returnedPublications := w1.library.returnedPublications.push book } }, none⟩
      | none => ⟨{ w with library := { w.library with
          returnedPublications := w.library.returnedPublications.push book } }, none⟩

/-- The loop of `Library::getReturnedBooks`: move the top of the temporary stack
    to the back of the result until the stack is empty. -/
def drain (tempStack : Stack Ref) (returnedBooks : List Ref) : Except Error (List Ref) :=
  if h : tempStack.isEmpty = true then Except.ok returnedBooks
  else
    match tempStack.top with
    | Except.error e => Except.error e
    | Except.ok t =>
      match tempStack.pop.error with
      | some e => Except.error e
      | none => drain tempStack.pop.state (returnedBooks ++ [t])
termination_by tempStack.data.length
decreasing_by
  have hne : tempStack.data ≠ [] := by
    intro hnil
    exact h (by simp [Stack.isEmpty, hnil])
  have hpos : 0 < tempStack.data.length := List.length_pos.mpr hne
  unfold Stack.pop
  rw [if_neg h]
  simp only [List.length_dropLast]
  omega

/-- Method `Library::getReturnedBooks`, a `const` member: it works on a copy of the
    history and returns the state as it found it. -/
def getReturnedBooks (w : World) : World × Except Error (List Ref) :=
  (w, drain w.library.returnedPublications [])

end Library

/-- The state `w` with the return history replaced by the one obtained by pushing
    `ps`, in that order, on an empty stack. -/
def World.withHistory (w : World) (ps : List Ref) : World :=
  { w with library := { w.library with returnedPublications := ps.foldl Stack.push ⟨[]⟩ } }

/-! ## Object creation (`std::make_shared`) -/

/-- The call `std::make_shared<Customer>(id, first, last)`: a fresh customer object; the
    result is the state and the new pointer. -/
def makeCustomer (w : World) (id : Int) (first last : String) : World × Ref :=
  ({ w with heap := { w.heap with customers := w.heap.customers ++ [Customer.new id first last] } },
    w.heap.customers.length)

/-- The call `std::make_shared<Book>(id, title, author, year, pages, total, available)`:
    a fresh book object. -/
def makeBook (w : World) (id : Int) (title : String) (author : Author)
    (year pages total available : Int) : World × Ref :=
  ({ w with heap := { w.heap with
      pubs := w.heap.pubs ++ [PubObj.book ⟨⟨id, title, year, total, available⟩, author, pages⟩] } },
    w.heap.pubs.length)

/-! ## Predicates used in the statements -/

/-- The copy-count bound of one publication. -/
def Publication.CountsOk (p : Publication) : Prop :=
  0 ≤ p.availableCopies ∧ p.availableCopies ≤ p.totalCopies

instance Publication.decCountsOk (p : Publication) : Decidable p.CountsOk := by
  unfold Publication.CountsOk
  exact inferInstance

/-- Every publication object of the store satisfies the copy-count bound. -/
def AllCountsOk (pubs : Pubs) : Prop := ∀ o ∈ pubs, o.base.CountsOk

instance decAllCountsOk (pubs : Pubs) : Decidable (AllCountsOk pubs) := by
  unfold AllCountsOk
  exact inferInstance

/-- No two entries of the borrowed list have the same title. -/
def Customer.TitlesDistinct (pubs : Pubs) (c : Customer) : Prop :=
  (c.borrowedPublications.map (titleOf pubs)).Nodup

instance Customer.decTitlesDistinct (pubs : Pubs) (c : Customer) :
    Decidable (c.TitlesDistinct pubs) := by
  unfold Customer.TitlesDistinct
  exact inferInstance

/-- All entries of a grouping index in scan order: groups in key order, the
    entries of a group in list order. -/
def GroupMap.entries (m : GroupMap) : List Ref := (m.map Prod.snd).flatten

/-! ## Reachable states -/

/-- Library states reachable from the empty library by creating customers,
    creating books whose counters satisfy `0 ≤ available ≤ total`, and calling
    `addCustomer`, `addBook`, `borrowBook` and `returnBook` with any arguments
    (pointers passed to `addCustomer` and `addBook` point to a customer, resp. a
    book); a call that throws still leaves its state behind. -/
inductive Reachable : World → Prop where
  | empty : Reachable World.empty
  | makeCustomer {w : World} (id : Int) (first last : String) :
      Reachable w → Reachable (makeCustomer w id first last).1
  | makeBook {w : World} (id : Int) (title : String) (author : Author)
      (year pages total available : Int) :
      0 ≤ available → available ≤ total →
      Reachable w → Reachable (makeBook w id title author year pages total available).1
  | addCustomer {w : World} (customer : Ref) :
      customer < w.heap.customers.length →
      Reachable w → Reachable (Library.addCustomer w customer).state
  | addBook {w : World} (book : Ref) (b : Book) :
      w.heap.pubs[book]? = some (PubObj.book b) →
      Reachable w → Reachable (Library.addBook w book).state
  | borrowBook {w : World} (customerId bookId : Int) :
      Reachable w → Reachable (Library.borrowBook w customerId bookId).state
  | returnBook {w : World} (customerId bookId : Int) :
      Reachable w → Reachable (Library.returnBook w customerId bookId).state

/-- How the publication store may change between two calls on a customer: objects
    are created and counters are updated, but no object is destroyed and no title
    is ever reassigned. -/
def TitlesKept (pubs pubs' : Pubs) : Prop :=
  ∀ r : Ref, r < pubs.length → r < pubs'.length ∧ titleOf pubs' r = titleOf pubs r

/-- Customer states reachable from a newly constructed customer by
    `borrowPublication` (of a pointer to an existing publication) and
    `returnPublication` calls, successful or failing, while the rest of the program
    may create publications and update counters in between. -/
inductive CustomerReachable : Pubs → Customer → Prop where
  | new (pubs : Pubs) (id : Int) (first last : String) :
      CustomerReachable pubs (Customer.new id first last)
  | borrow {pubs : Pubs} {c : Customer} (publication : Ref) :
      publication < pubs.length →
      CustomerReachable pubs c →
      CustomerReachable pubs (Customer.borrowPublication pubs c publication).state
  | giveBack {pubs : Pubs} {c : Customer} (id : Int) :
      CustomerReachable pubs c →
      CustomerReachable pubs (Customer.returnPublication pubs c id).state
  | heapStep {pubs pubs' : Pubs} {c : Customer} :
      TitlesKept pubs pubs' →
      CustomerReachable pubs c → CustomerReachable pubs' c

/-! ## The scenario of the specification -/

/-- The book object of the scenario as created: "Go" by Rob Pike, id 1,
    total = available = 2. -/
def scenarioBook : PubObj := PubObj.book ⟨⟨1, "Go", 2020, 2, 2⟩, ⟨"Rob", "Pike"⟩, 300⟩

/-- A second book, with another title. -/
def scenarioBook2 : PubObj := PubObj.book ⟨⟨2, "C", 1978, 1, 1⟩, ⟨"Dennis", "Ritchie"⟩, 228⟩

/-- Customers 1 ("Ann Lee") and 2, and the book 1 "Go" with total = available = 2,
    created and added as `main` does. -/
def scenarioStart : World :=
  let w0 := World.empty
  let (w1, ann) := makeCustomer w0 1 "Ann" "Lee"
  let w2 := (Library.addCustomer w1 ann).state
  let (w3, bob) := makeCustomer w2 2 "Bob" "Ray"
  let w4 := (Library.addCustomer w3 bob).state
  let (w5, go) := makeBook w4 1 "Go" ⟨"Rob", "Pike"⟩ 2020 300 2 2
  (Library.addBook w5 go).state

/-- The scenario after customer 1 has borrowed "Go". -/
def scenarioBorrowed : World := (Library.borrowBook scenarioStart 1 1).state

/-- The scenario after customer 1 was then refused a second copy of "Go". -/
def scenarioRefused : World := (Library.borrowBook scenarioBorrowed 1 1).state

/-- A state in which both copies of "Go" are lent, to customers 1 and 2. -/
def scenarioSoldOut : World := (Library.borrowBook scenarioBorrowed 2 1).state

/-- A customer who borrowed "Go", then "C", and was then refused "Go" again. -/
def scenarioCustomer : Customer :=
  (Customer.borrowPublication [scenarioBook, scenarioBook2]
    (Customer.borrowPublication [scenarioBook, scenarioBook2]
      (Customer.borrowPublication [scenarioBook, scenarioBook2]
        (Customer.new 1 "Ann" "Lee") 0).state 1).state 0).state

/-! ## Predicates on shelves -/

/-- Keys strictly increasing, hence pairwise distinct: what every `std::map`
    satisfies. -/
def GroupMap.WF (m : GroupMap) : Prop := m.keys.Pairwise (fun a b => a < b)

instance GroupMap.decWF (m : GroupMap) : Decidable m.WF := by
  unfold GroupMap.WF
  exact inferInstance

/-- Every entry of a grouping index points to an object within the copy-count
    bound. -/
def EntriesOk (pubs : Pubs) (m : GroupMap) : Prop :=
  ∀ r ∈ m.entries, ∀ o, pubs[r]? = some o → o.base.CountsOk

/-- An entry that `borrowPublication(id)` accepts: it points to a publication
    with the id and with `availableCopies > 0`. -/
def Borrowable (pubs : Pubs) (id : Int) (r : Ref) : Prop :=
  ∃ o, pubs[r]? = some o ∧ o.base.id = id ∧ 0 < o.base.availableCopies

/-! ## Example shelves -/

/-- Two magazine objects with the same id 1: "Time" 2020/5, of which the single
    copy is on the shelf, and "Times" 2021/1. -/
def exampleMagazines : Pubs :=
  [PubObj.magazine ⟨⟨1, "Time", 2020, 1, 1⟩, 5⟩, PubObj.magazine ⟨⟨1, "Times", 2021, 1, 1⟩, 1⟩]

/-- A magazine shelf on which only the first of `exampleMagazines` is filed. -/
def exampleMagazineShelf : MagazineShelf := ⟨⟨100, 1⟩, [("Time", [0])]⟩

/-- A book shelf on which `scenarioBook` (object 0 of the store
    `[scenarioBook, scenarioBook2]`, both copies available) is filed. -/
def exampleBookShelf : BookShelf := ⟨⟨100, 1⟩, [("Rob Pike", [0])]⟩

/-- A library with a magazine shelf and an empty book shelf, in that order, and
    the book object `scenarioBook` created but not yet added. -/
def exampleShelved : World :=
  ⟨⟨[scenarioBook], [],
      [ShelfObj.magazineShelf (MagazineShelf.new 100 1), ShelfObj.bookShelf (BookShelf.new 100 1)]⟩,
    ⟨[], ⟨[]⟩, [], [0, 1], []⟩⟩

/-! ## The menu loop of `main` -/

/-- The call `std::make_shared<BookShelf>(capacity, floorNumber)`: a fresh, empty
    book shelf object. -/
def makeBookShelf (w : World) (capacity floorNumber : Int) : World × Ref :=
  ({ w with heap := { w.heap with
      shelves := w.heap.shelves ++ [ShelfObj.bookShelf (BookShelf.new capacity floorNumber)] } },
    w.heap.shelves.length)

/-- The loop `for (int i = first; i <= last; i++) body`. -/
def forLoop {σ : Type} (i last : Int) (body : Int → σ → σ) (s : σ) : σ :=
  if i ≤ last then forLoop (i + 1) last body (body i s) else s
termination_by (last + 1 - i).toNat
decreasing_by omega

/-- The local variables of `main` that outlive one pass of the menu loop: the
    library and the two id counters. -/
structure Session where
  library : World
  nextCustomerId : Int
  nextBookId : Int

/-- The state of `main` before the first menu choice. -/
def Session.initial : Session := ⟨World.empty, 1, 1⟩

/-- Menu choice 1, create a customer: the customer gets the id `nextCustomerId`,
    which is then incremented. -/
def createCustomer (s : Session) (firstName lastName : String) : Session :=
  let made := makeCustomer s.library s.nextCustomerId firstName lastName
  ⟨(Library.addCustomer made.1 made.2).state, s.nextCustomerId + 1, s.nextBookId⟩

/-- Menu choice 3, create a book: the book gets the id `nextBookId`, which is then
    incremented.  `addBook` of a book object does not throw. -/
def createBook (s : Session) (title authorFirstName authorLastName : String)
    (year pages total available : Int) : Session :=
  let made := makeBook s.library s.nextBookId title ⟨authorFirstName, authorLastName⟩
    year pages total available
  ⟨(Library.addBook made.1 made.2).state, s.nextCustomerId, s.nextBookId + 1⟩

/-- The first step of menu choice 9: a `BookShelf(100, 1)` is appended to the
    shelves when `find_if` finds no shelf that is a `BookShelf`. -/
def ensureBookShelf (w : World) : World :=
  if find_if (isBookShelf w.heap) w.library.shelves = w.library.shelves.length then
    let made := makeBookShelf w 100 1
    { made.1 with library := { made.1.library with
        shelves := made.1.library.shelves ++ [made.2] } }
  else w

/-- The body of the customer loop of menu choice 9. -/
def generateCustomer (i : Int) (w : World) : World :=
  let made := makeCustomer w i ("Customer" ++ toString i) ("LastName" ++ toString i)
  (Library.addCustomer made.1 made.2).state

/-- The book object created by the book loop of menu choice 9 for the id `i`. -/
def generatedBook (i : Int) : Book :=
  ⟨⟨i, "Book" ++ toString i, 2000 + i, 5, 5⟩, ⟨"Author", toString i⟩, 200 + i⟩

/-- The body of the book loop of menu choice 9. -/
def generateBook (i : Int) (w : World) : World :=
  let made := makeBook w i ("Book" ++ toString i) ⟨"Author", toString i⟩ (2000 + i) (200 + i) 5 5
  (Library.addBook made.1 made.2).state

/-- Menu choice 9, create customers and books automatically: both loops run from
    the counter to `numberOfObject + counter - 1`, and both counters are then
    advanced by `numberOfObject`, whatever its sign. -/
def bulkGenerate (s : Session) (numberOfObject : Int) : Session :=
  let w1 := ensureBookShelf s.library
  let w2 := forLoop s.nextCustomerId (numberOfObject + s.nextCustomerId - 1) generateCustomer w1
  let w3 := forLoop s.nextBookId (numberOfObject + s.nextBookId - 1) generateBook w2
  ⟨w3, s.nextCustomerId + numberOfObject, s.nextBookId + numberOfObject⟩

/-- The ids of the customers of the library, in sequence order. -/
def customerIds (w : World) : List (Option Int) :=
  w.library.customers.map (customerIdOf w.heap)

/-- The ids of the books of the master list, in sequence order. -/
def bookIds (w : World) : List (Option Int) :=
  w.library.books.map (idOf w.heap.pubs)

/-- The menu choices that create objects. -/
inductive CreateAction where
  | customer (firstName lastName : String)
  | book (title authorFirstName authorLastName : String) (year pages total available : Int)
  | bulk (numberOfObject : Int)

/-- One pass of the menu loop for a creating choice. -/
def CreateAction.run (s : Session) : CreateAction → Session
  | customer f l => createCustomer s f l
  | book t af al y p tot av => createBook s t af al y p tot av
  | bulk n => bulkGenerate s n

/-- The session after a sequence of creating choices, from the initial state. -/
def runCreates (actions : List CreateAction) : Session :=
  actions.foldl CreateAction.run Session.initial

/-! ## Histories of library operations -/

/-- Every publication object of `pubs` is still there in `pubs'`, with the same id
    and `totalCopies` and with `availableCopies` not higher than before. -/
def NoRecovery (pubs pubs' : Pubs) : Prop :=
  ∀ (r : Ref) (o : PubObj), pubs[r]? = some o →
    ∃ o', pubs'[r]? = some o' ∧ o'.base.availableCopies ≤ o.base.availableCopies ∧
      o'.base.totalCopies = o.base.totalCopies ∧ o'.base.id = o.base.id

/-- The shelf `sh`, holding the book shelf object `bs`, is the first shelf of the
    sequence that is a `BookShelf`. -/
def FirstBookShelf (w : World) (sh : Ref) (bs : BookShelf) : Prop :=
  ∃ pre post, w.library.shelves = pre ++ sh :: post ∧
    (∀ q ∈ pre, isBookShelf w.heap q = false) ∧
    w.heap.shelves[sh]? = some (ShelfObj.bookShelf bs)

/-- The ids of a sequence are all present, pairwise distinct and below the
    counter `next`. -/
def IdsBelow (ids : List (Option Int)) (next : Int) : Prop :=
  ids.Nodup ∧ ∀ x ∈ ids, ∃ i, x = some i ∧ i < next

/-! ## Copy accounting -/

/-- Number of entries of one customer's borrowed list whose publication has the id `id`. -/
def Customer.borrowedWithId (pubs : Pubs) (id : Int) (c : Customer) : Nat :=
  c.borrowedPublications.countP (fun p => idOf pubs p == some id)

/-- Number of entries with the id `id` across the borrowed lists of all customers
    (every customer object is counted once). -/
def borrowedCount (h : Heap) (id : Int) : Nat :=
  (h.customers.map (Customer.borrowedWithId h.pubs id)).sum

/-- Number of occurrences of the publication `b` in the return history. -/
def historyCount (w : World) (b : Ref) : Nat :=
  w.library.returnedPublications.data.count b

/-- What an observer of the calls records about each book: its `availableCopies` when
    `addBook` was called on it, and how many `borrowBook` calls on it were rejected
    with the duplicate-title error. -/
structure Ledger where
  added : Ref → Int
  rejected : Ref → Nat

/-- Nothing recorded. -/
def Ledger.empty : Ledger := ⟨fun _ => 0, fun _ => 0⟩

/-- Record the call `addBook(book)` of a book with the given `availableCopies`. -/
def Ledger.afterAdd (L : Ledger) (book : Ref) (availableCopies : Int) : Ledger :=
  ⟨Function.update L.added book availableCopies, L.rejected⟩

/-- Record the call `borrowBook(customerId, bookId)` made in the state `w`: a
    rejection is counted for the book that `findBook` selected when the call ended
    with the duplicate-title error. -/
def Ledger.afterBorrow (L : Ledger) (w : World) (customerId bookId : Int) : Ledger :=
  if (Library.borrowBook w customerId bookId).error = some Error.duplicateTitle then
    match Library.findBook w bookId with
    | some b => ⟨L.added, Function.update L.rejected b (L.rejected b + 1)⟩
    | none => L
  else L

/-- Library states reachable from the empty library by creating customers, creating
    books with `0 ≤ available ≤ total`, and calling `addCustomer`, `addBook` (of a
    book whose id differs from the ids in the master list), `borrowBook` and
    `returnBook` with any arguments, together with the ledger of these calls. -/
inductive Audited : World → Ledger → Prop where
  | empty : Audited World.empty Ledger.empty
  | makeCustomer {w : World} {L : Ledger} (id : Int) (first last : String) :
      Audited w L → Audited (makeCustomer w id first last).1 L
  | makeBook {w : World} {L : Ledger} (id : Int) (title : String) (author : Author)
      (year pages total available : Int) :
      0 ≤ available → available ≤ total →
      Audited w L → Audited (makeBook w id title author year pages total available).1 L
  | addCustomer {w : World} {L : Ledger} (customer : Ref) :
      customer < w.heap.customers.length →
      Audited w L → Audited (Library.addCustomer w customer).state L
  | addBook {w : World} {L : Ledger} (book : Ref) (b : Book) :
      w.heap.pubs[book]? = some (PubObj.book b) →
      (∀ r ∈ w.library.books, idOf w.heap.pubs r ≠ some b.id) →
      Audited w L → Audited (Library.addBook w book).state (L.afterAdd book b.availableCopies)
  | borrowBook {w : World} {L : Ledger} (customerId bookId : Int) :
      Audited w L →
      Audited (Library.borrowBook w customerId bookId).state (L.afterBorrow w customerId bookId)
  | returnBook {w : World} {L : Ledger} (customerId bookId : Int) :
      Audited w L → Audited (Library.returnBook w customerId bookId).state L

/-- The invariant behind the copy accounting: no shelf exists, the ids of the master
    list are pairwise distinct, no object has more available than total copies, every
    borrowed entry and every entry of the return history is in the master list, and
    for every book of the master list the available copies, the borrowed entries, the
    returned entries and the rejected borrows add up to the available copies it was
    added with. -/
structure Balanced (w : World) (L : Ledger) : Prop where
  noShelves : w.library.shelves = []
  idsNodup : (w.library.books.map (idOf w.heap.pubs)).Nodup
  counts : ∀ o ∈ w.heap.pubs, o.base.availableCopies ≤ o.base.totalCopies
  borrowedIn : ∀ c ∈ w.heap.customers, ∀ p ∈ c.borrowedPublications, p ∈ w.library.books
  historyIn : ∀ p ∈ w.library.returnedPublications.data, p ∈ w.library.books
  rejectedIn : ∀ r, L.rejected r ≠ 0 → r ∈ w.library.books
  balance : ∀ b ∈ w.library.books, ∃ o, w.heap.pubs[b]? = some o ∧
    o.base.availableCopies + borrowedCount w.heap o.base.id + historyCount w b
        + L.rejected b = L.added b ∧
    L.added b ≤ o.base.totalCopies

/-- The state and ledger after: customers 1 and 2 and the book 1 "Go" (two copies)
    are created, customer 1 borrows it, is refused a second copy, and returns it. -/
def auditedWorld : World := (Library.returnBook scenarioRefused 1 1).state

/-- The ledger of the calls that lead to `auditedWorld`. -/
def auditedLedger : Ledger :=
  ((Ledger.empty.afterAdd 0 2).afterBorrow scenarioStart 1 1).afterBorrow scenarioBorrowed 1 1

/-! ## States in which two books have the same id -/

/-- The library after the menu choices: create the customer "Ann Lee", create the
    book "Go" with 1 copy of which 0 are available, generate with the count -1,
    create the book "C" with 1 copy of which 1 is available.  Both books have the
    id 1; "Go" is the first of them in the master list. -/
def repeatedIdFirstSoldOut : World :=
  (runCreates [CreateAction.customer "Ann" "Lee",
    CreateAction.book "Go" "Rob" "Pike" 2020 300 1 0, CreateAction.bulk (-1),
    CreateAction.book "C" "Dennis" "Ritchie" 1978 228 1 1]).library

/-- The library after the same menu choices with the available copies exchanged:
    "Go", the first book with the id 1, has 1 available copy and "C", the second
    book with the id 1, has none. -/
def repeatedIdSecondSoldOut : World :=
  (runCreates [CreateAction.customer "Ann" "Lee",
    CreateAction.book "Go" "Rob" "Pike" 2020 300 1 1, CreateAction.bulk (-1),
    CreateAction.book "C" "Dennis" "Ritchie" 1978 228 1 0]).library

/-! ## Example shelves with groups of several entries -/

/-- Four book objects: "Go" and "Unix" by Ken Thompson, "C" by Rob Pike, and
    "Awk" by Ken Thompson. -/
def sortingBooks : Pubs :=
  [PubObj.book ⟨⟨1, "Go", 2020, 1, 1⟩, ⟨"Ken", "Thompson"⟩, 300⟩,
   PubObj.book ⟨⟨2, "Unix", 1984, 1, 1⟩, ⟨"Ken", "Thompson"⟩, 400⟩,
   PubObj.book ⟨⟨3, "C", 1978, 1, 1⟩, ⟨"Rob", "Pike"⟩, 228⟩,
   PubObj.book ⟨⟨4, "Awk", 1988, 1, 1⟩, ⟨"Ken", "Thompson"⟩, 210⟩]

/-- A book shelf on which the first three of `sortingBooks` are filed: "Go" and
    "Unix" in one group, "C" in another. -/
def sortingBookShelf : BookShelf :=
  ⟨⟨100, 1⟩, [("Ken Thompson", [0, 1]), ("Rob Pike", [2])]⟩

/-- Four magazine objects: three issues of "Time", 2021/3, 2020/7 and 2021/1, and
    one of "Zeit". -/
def sortingMagazines : Pubs :=
  [PubObj.magazine ⟨⟨1, "Time", 2021, 1, 1⟩, 3⟩,
   PubObj.magazine ⟨⟨2, "Time", 2020, 1, 1⟩, 7⟩,
   PubObj.magazine ⟨⟨3, "Zeit", 2019, 1, 1⟩, 2⟩,
   PubObj.magazine ⟨⟨4, "Time", 2021, 1, 1⟩, 1⟩]

/-- A magazine shelf on which the first three of `sortingMagazines` are filed: the
    issues 2020/7 and 2021/3 of "Time" in one group, "Zeit" in another. -/
def sortingMagazineShelf : MagazineShelf :=
  ⟨⟨100, 1⟩, [("Time", [1, 0]), ("Zeit", [2])]⟩

/-! ## Auxiliary lemmas -/

section Lemmas

variable {α : Type}

theorem find_if_le_length (p : α → Bool) (l : List α) : find_if p l ≤ l.length := by
  induction l with
  | nil => simp [find_if]
  | cons x xs ih =>
    simp only [find_if, List.length_cons]
    split <;> omega

theorem find_if_eq_length_iff (p : α → Bool) (l : List α) :
    find_if p l = l.length ↔ ∀ x ∈ l, p x = false := by
  induction l with
  | nil => simp [find_if]
  | cons x xs ih =>
    simp only [find_if, List.length_cons, List.mem_cons, forall_eq_or_imp]
    by_cases hx : p x = true
    · simp [hx]
    · have hx' : p x = false := by simpa using hx
      simp [hx', ih]

theorem find_if_lt_length_iff (p : α → Bool) (l : List α) :
    find_if p l < l.length ↔ ∃ x ∈ l, p x = true := by
  have h1 := find_if_le_length p l
  have h2 := find_if_eq_length_iff p l
  constructor
  · intro h
    by_contra hne
    have : find_if p l = l.length := h2.mpr (by
      intro x hx
      by_contra hp
      exact hne ⟨x, hx, by simpa using hp⟩)
    omega
  · rintro ⟨x, hx, hp⟩
    by_contra hlt
    have : find_if p l = l.length := by omega
    have := h2.mp this x hx
    simp [hp] at this

/-- The iterator returned by `find_if` points at the first element satisfying the
    predicate: everything before it fails the predicate. -/
theorem find_if_split (p : α → Bool) (l : List α) (h : find_if p l ≠ l.length) :
    ∃ pre x post, l = pre ++ x :: post ∧ (∀ y ∈ pre, p y = false) ∧ p x = true ∧
      find_if p l = pre.length ∧ l[find_if p l]? = some x ∧
      l.eraseIdx (find_if p l) = pre ++ post := by
  induction l with
  | nil => simp [find_if] at h
  | cons a as ih =>
    by_cases ha : p a = true
    · exact ⟨[], a, as, by simp [find_if, ha]⟩
    · have ha' : p a = false := by simpa using ha
      have h' : find_if p as ≠ as.length := by
        intro hc
        apply h
        simp [find_if, ha', hc]
      obtain ⟨pre, x, post, hl, hpre, hx, hidx, hget, herase⟩ := ih h'
      refine ⟨a :: pre, x, post, by simp [hl], ?_, hx, ?_, ?_, ?_⟩
      · intro y hy
        rcases List.mem_cons.mp hy with rfl | hy
        · exact ha'
        · exact hpre y hy
      · simp [find_if, ha', hidx]
      · simpa [find_if, ha'] using hget
      · simp [find_if, ha', herase]

theorem find_if_getElem?_none (p : α → Bool) (l : List α) (h : find_if p l = l.length) :
    l[find_if p l]? = none := by
  rw [h]; simp

end Lemmas

section PubLemmas

@[simp] theorem PubObj.base_mapBase (f : Publication → Publication) (o : PubObj) :
    (o.mapBase f).base = f o.base := by
  cases o <;> rfl

theorem PubObj.base_decAvailable (o : PubObj) :
    o.decAvailable.base = { o.base with availableCopies := o.base.availableCopies - 1 } := by
  simp [PubObj.decAvailable]

theorem PubObj.base_addExemplar (o : PubObj) :
    o.incTotal.incAvailable.base =
      { o.base with totalCopies := o.base.totalCopies + 1,
                    availableCopies := o.base.availableCopies + 1 } := by
  simp [PubObj.incTotal, PubObj.incAvailable]

theorem modify_eq_set_of_getElem? {α : Type} (f : α → α) (l : List α) (i : Nat) (a : α)
    (h : l[i]? = some a) : l.modify f i = l.set i (f a) := by
  apply List.ext_getElem?
  intro j
  by_cases hij : i = j
  · subst hij
    have hlt : i < l.length := by
      by_contra hc
      rw [List.getElem?_eq_none (by omega)] at h
      cases h
    have hget : l[i] = a := by
      have := List.getElem?_eq_getElem hlt
      rw [h] at this
      exact (Option.some.inj this).symm
    simp [List.getElem?_modify, List.getElem?_set, h, hlt, hget]
  · simp [List.getElem?_modify, List.getElem?_set, hij]

theorem set_getElem?_self {α : Type} (l : List α) (i : Nat) (a : α) (h : l[i]? = some a) :
    l.set i a = l := by
  apply List.ext_getElem?
  intro j
  by_cases hij : i = j
  · subst hij
    have hlt : i < l.length := by
      by_contra hc
      rw [List.getElem?_eq_none (by omega)] at h
      cases h
    simp [List.getElem?_set, h, hlt]
  · simp [List.getElem?_set, hij]

theorem titleOf_modify (pubs : Pubs) (f : Publication → Publication)
    (hf : ∀ p, (f p).title = p.title) (b r : Ref) :
    titleOf (pubs.modify (PubObj.mapBase f) b) r = titleOf pubs r := by
  unfold titleOf
  by_cases hbr : b = r
  · subst hbr
    rw [List.getElem?_modify_eq]
    cases pubs[b]? <;> simp [hf]
  · rw [List.getElem?_modify_ne _ _ hbr]

theorem idOf_modify (pubs : Pubs) (f : Publication → Publication)
    (hf : ∀ p, (f p).id = p.id) (b r : Ref) :
    idOf (pubs.modify (PubObj.mapBase f) b) r = idOf pubs r := by
  unfold idOf
  by_cases hbr : b = r
  · subst hbr
    rw [List.getElem?_modify_eq]
    cases pubs[b]? <;> simp [hf]
  · rw [List.getElem?_modify_ne _ _ hbr]

theorem titleOf_decAvailable (pubs : Pubs) (b r : Ref) :
    titleOf (pubs.modify PubObj.decAvailable b) r = titleOf pubs r :=
  titleOf_modify pubs (fun p => { p with availableCopies := p.availableCopies - 1 })
    (fun _ => rfl) b r

end PubLemmas

section LibraryLemmas

open Library

/-- The result of `findCustomer` is a null pointer exactly when no customer has the id. -/
theorem findCustomer_eq_none_iff (w : World) (customerId : Int) :
    findCustomer w customerId = none ↔
      ∀ c ∈ w.library.customers, customerIdOf w.heap c ≠ some customerId := by
  unfold findCustomer
  constructor
  · intro h
    have hlen : find_if (fun c => customerIdOf w.heap c == some customerId) w.library.customers
        = w.library.customers.length := by
      by_contra hne
      obtain ⟨pre, x, post, _, _, _, _, hget, _⟩ := find_if_split _ _ hne
      rw [hget] at h
      cases h
    intro c hc
    have := (find_if_eq_length_iff _ _).mp hlen c hc
    simpa using this
  · intro h
    apply find_if_getElem?_none
    apply (find_if_eq_length_iff _ _).mpr
    intro c hc
    simpa using h c hc

/-- A customer returned by `findCustomer` is the first of the sequence with the
    id, and the pointer is not null. -/
theorem findCustomer_eq_some (w : World) (customerId : Int) (c : Ref)
    (h : findCustomer w customerId = some c) :
    ∃ pre post cobj, w.library.customers = pre ++ c :: post ∧
      (∀ y ∈ pre, customerIdOf w.heap y ≠ some customerId) ∧
      w.heap.customers[c]? = some cobj ∧ cobj.id = customerId := by
  unfold findCustomer at h
  have hne : find_if (fun c => customerIdOf w.heap c == some customerId) w.library.customers
      ≠ w.library.customers.length := by
    intro hlen
    rw [find_if_getElem?_none _ _ hlen] at h
    cases h
  obtain ⟨pre, x, post, hl, hpre, hx, _, hget, _⟩ := find_if_split _ _ hne
  rw [hget] at h
  cases h
  have hx' : customerIdOf w.heap c = some customerId := by simpa using hx
  unfold customerIdOf at hx'
  cases hobj : w.heap.customers[c]? with
  | none => simp [hobj] at hx'
  | some cobj =>
    refine ⟨pre, post, cobj, hl, ?_, rfl, ?_⟩
    · intro y hy
      simpa using hpre y hy
    · simpa [hobj] using hx'

/-- The result of `findBook` is a null pointer exactly when no book of the master list has the id. -/
theorem findBook_eq_none_iff (w : World) (bookId : Int) :
    findBook w bookId = none ↔ ∀ b ∈ w.library.books, idOf w.heap.pubs b ≠ some bookId := by
  unfold findBook
  constructor
  · intro h
    have hlen : find_if (fun b => idOf w.heap.pubs b == some bookId) w.library.books
        = w.library.books.length := by
      by_contra hne
      obtain ⟨pre, x, post, _, _, _, _, hget, _⟩ := find_if_split _ _ hne
      rw [hget] at h
      cases h
    intro b hb
    have := (find_if_eq_length_iff _ _).mp hlen b hb
    simpa using this
  · intro h
    apply find_if_getElem?_none
    apply (find_if_eq_length_iff _ _).mpr
    intro b hb
    simpa using h b hb

/-- A book returned by `findBook` is the first of the master list with the id,
    and the pointer is not null. -/
theorem findBook_eq_some (w : World) (bookId : Int) (b : Ref)
    (h : findBook w bookId = some b) :
    ∃ pre post bobj, w.library.books = pre ++ b :: post ∧
      (∀ y ∈ pre, idOf w.heap.pubs y ≠ some bookId) ∧
      w.heap.pubs[b]? = some bobj ∧ bobj.base.id = bookId := by
  unfold findBook at h
  have hne : find_if (fun b => idOf w.heap.pubs b == some bookId) w.library.books
      ≠ w.library.books.length := by
    intro hlen
    rw [find_if_getElem?_none _ _ hlen] at h
    cases h
  obtain ⟨pre, x, post, hl, hpre, hx, _, hget, _⟩ := find_if_split _ _ hne
  rw [hget] at h
  cases h
  have hx' : idOf w.heap.pubs b = some bookId := by simpa using hx
  unfold idOf at hx'
  cases hobj : w.heap.pubs[b]? with
  | none => simp [hobj] at hx'
  | some bobj =>
    refine ⟨pre, post, bobj, hl, ?_, rfl, ?_⟩
    · intro y hy
      simpa using hpre y hy
    · simpa [hobj] using hx'

end LibraryLemmas

/-! ## Borrowing (`Library::borrowBook`) -/

section Borrow

open Library

theorem borrowPublication_fresh (pubs : Pubs) (c : Customer) (publication : Ref)
    (h : ∀ p ∈ c.borrowedPublications, titleOf pubs p ≠ titleOf pubs publication) :
    Customer.borrowPublication pubs c publication =
      ⟨{ c with borrowedPublications := c.borrowedPublications ++ [publication] }, none⟩ := by
  unfold Customer.borrowPublication
  rw [if_pos]
  apply (find_if_eq_length_iff _ _).mpr
  intro p hp
  simpa using h p hp

theorem borrowPublication_duplicate (pubs : Pubs) (c : Customer) (publication : Ref)
    (h : ∃ p ∈ c.borrowedPublications, titleOf pubs p = titleOf pubs publication) :
    Customer.borrowPublication pubs c publication = ⟨c, some Error.duplicateTitle⟩ := by
  unfold Customer.borrowPublication
  rw [if_neg]
  intro hlen
  obtain ⟨p, hp, htitle⟩ := h
  have := (find_if_eq_length_iff _ _).mp hlen p hp
  simp [htitle] at this

theorem borrowBook_eq_success (w : World) (customerId bookId : Int) (c b : Ref)
    (cobj : Customer) (bobj : PubObj)
    (hc : findCustomer w customerId = some c)
    (hcobj : w.heap.customers[c]? = some cobj)
    (hb : findBook w bookId = some b)
    (hbobj : w.heap.pubs[b]? = some bobj)
    (havail : bobj.base.availableCopies ≠ 0)
    (htitle : ∀ p ∈ cobj.borrowedPublications, titleOf w.heap.pubs p ≠ some bobj.base.title) :
    borrowBook w customerId bookId =
        ⟨{ heap :=
            { pubs := w.heap.pubs.set b bobj.decAvailable,
              customers := w.heap.customers.set c
                { cobj with borrowedPublications := cobj.borrowedPublications ++ [b] },
              shelves := w.heap.shelves },
           library := w.library }, none⟩ := by
  have hav : availableOf w.heap.pubs b ≠ some 0 := by
    simpa [availableOf, hbobj] using havail
  have hfresh : ∀ p ∈ cobj.borrowedPublications,
      titleOf (w.heap.pubs.modify PubObj.decAvailable b) p
        ≠ titleOf (w.heap.pubs.modify PubObj.decAvailable b) b := by
    intro p hp
    rw [titleOf_decAvailable, titleOf_decAvailable]
    have hbt : titleOf w.heap.pubs b = some bobj.base.title := by simp [titleOf, hbobj]
    rw [hbt]
    exact htitle p hp
  unfold borrowBook
  simp only [hc, hb, if_neg hav, hcobj]
  rw [borrowPublication_fresh _ _ _ hfresh, modify_eq_set_of_getElem? _ _ _ _ hbobj]

/-- A borrow rejected for a duplicate title has already taken a copy: the state
    left behind is the state before with the book's `availableCopies` one lower. -/
theorem borrowBook_eq_duplicate (w : World) (customerId bookId : Int) (c b : Ref)
    (cobj : Customer) (bobj : PubObj)
    (hc : findCustomer w customerId = some c)
    (hcobj : w.heap.customers[c]? = some cobj)
    (hb : findBook w bookId = some b)
    (hbobj : w.heap.pubs[b]? = some bobj)
    (havail : bobj.base.availableCopies ≠ 0)
    (htitle : ∃ p ∈ cobj.borrowedPublications, titleOf w.heap.pubs p = some bobj.base.title) :
    borrowBook w customerId bookId =
        ⟨{ heap :=
            { pubs := w.heap.pubs.set b bobj.decAvailable,
              customers := w.heap.customers,
              shelves := w.heap.shelves },
           library := w.library }, some Error.duplicateTitle⟩ := by
  have hav : availableOf w.heap.pubs b ≠ some 0 := by
    simpa [availableOf, hbobj] using havail
  have hdup : ∃ p ∈ cobj.borrowedPublications,
      titleOf (w.heap.pubs.modify PubObj.decAvailable b) p
        = titleOf (w.heap.pubs.modify PubObj.decAvailable b) b := by
    obtain ⟨p, hp, ht⟩ := htitle
    refine ⟨p, hp, ?_⟩
    rw [titleOf_decAvailable, titleOf_decAvailable, ht]
    simp [titleOf, hbobj]
  unfold borrowBook
  simp only [hc, hb, if_neg hav, hcobj]
  rw [borrowPublication_duplicate _ _ _ hdup, modify_eq_set_of_getElem? _ _ _ _ hbobj,
    set_getElem?_self _ _ _ hcobj]

theorem borrowBook_eq_noCustomer (w : World) (customerId bookId : Int)
    (hc : findCustomer w customerId = none) :
    borrowBook w customerId bookId = ⟨w, some Error.customerNotFound⟩ := by
  unfold borrowBook
  simp only [hc]

theorem borrowBook_eq_noBook (w : World) (customerId bookId : Int) (c : Ref)
    (hc : findCustomer w customerId = some c) (hb : findBook w bookId = none) :
    borrowBook w customerId bookId = ⟨w, some Error.bookNotFound⟩ := by
  unfold borrowBook
  simp only [hc, hb]

theorem borrowBook_eq_noCopies (w : World) (customerId bookId : Int) (c b : Ref)
    (hc : findCustomer w customerId = some c) (hb : findBook w bookId = some b)
    (h0 : availableOf w.heap.pubs b = some 0) :
    borrowBook w customerId bookId = ⟨w, some Error.noCopiesAvailable⟩ := by
  unfold borrowBook
  simp only [hc, hb, if_pos h0]

/-- C1. When the customer found for `customerId` and the book found for `bookId`
    both exist, the book has `availableCopies > 0` and the customer holds no
    publication with the book's title, `borrowBook` succeeds; the only changes are
    that the book object has `availableCopies` one lower (all its other fields,
    `totalCopies` included, as before) and that the customer object has the book
    appended at the end of `borrowedPublications`.  All other publication and
    customer objects, the shelves, the master lists and the return history are as
    before. -/
theorem borrowBook_success (w : World) (customerId bookId : Int) (c b : Ref)
    (cobj : Customer) (bobj : PubObj)
    (hc : findCustomer w customerId = some c)
    (hcobj : w.heap.customers[c]? = some cobj)
    (hb : findBook w bookId = some b)
    (hbobj : w.heap.pubs[b]? = some bobj)
    (havail : 0 < bobj.base.availableCopies)
    (htitle : ∀ p ∈ cobj.borrowedPublications, titleOf w.heap.pubs p ≠ some bobj.base.title) :
    borrowBook w customerId bookId =
        ⟨{ heap :=
            { pubs := w.heap.pubs.set b bobj.decAvailable,
              customers := w.heap.customers.set c
                { cobj with borrowedPublications := cobj.borrowedPublications ++ [b] },
              shelves := w.heap.shelves },
           library := w.library }, none⟩ ∧
      bobj.decAvailable.base =
        { bobj.base with availableCopies := bobj.base.availableCopies - 1 } := by
  exact ⟨borrowBook_eq_success w customerId bookId c b cobj bobj hc hcobj hb hbobj
    (by omega) htitle, PubObj.base_decAvailable bobj⟩

theorem borrowBook_success_witness :
    findCustomer scenarioStart 1 = some 0 ∧
    scenarioStart.heap.customers[0]? = some (Customer.new 1 "Ann" "Lee") ∧
    findBook scenarioStart 1 = some 0 ∧
    scenarioStart.heap.pubs[0]? = some scenarioBook ∧
    (borrowBook scenarioStart 1 1).error = none ∧
    availableOf (borrowBook scenarioStart 1 1).state.heap.pubs 0 = some 1 := by
  have h := borrowBook_success scenarioStart 1 1 0 0 (Customer.new 1 "Ann" "Lee") scenarioBook
    (by decide) (by decide) (by decide) (by decide) (by decide)
    (by intro p hp; cases hp)
  refine ⟨by decide, by decide, by decide, by decide, ?_, ?_⟩
  · rw [h.1]
  · rw [h.1]; decide

/-- C2 (the code does not do this).  The scenario of the specification, run on
    the code: after customer 1 has borrowed "Go" (one copy left), the second
    borrow by customer 1 is rejected with DuplicateTitle but leaves a changed
    state behind, with `availableCopies = 0`; the borrow by customer 2 that
    follows then fails with NoCopiesAvailable. -/
theorem borrowBook_duplicateTitle_takes_copy :
    availableOf scenarioBorrowed.heap.pubs 0 = some 1 ∧
    (borrowBook scenarioBorrowed 1 1).error = some Error.duplicateTitle ∧
    (borrowBook scenarioBorrowed 1 1).state ≠ scenarioBorrowed ∧
    availableOf (borrowBook scenarioBorrowed 1 1).state.heap.pubs 0 = some 0 ∧
    (borrowBook (borrowBook scenarioBorrowed 1 1).state 2 1).error
      = some Error.noCopiesAvailable := by
  decide

/-- C3. When the customer exists and the book found for `bookId` has
    `availableCopies = 0`, `borrowBook` fails with NoCopiesAvailable and the whole
    state (heap objects, master lists, shelves, return history) is as before. -/
theorem borrowBook_noCopies (w : World) (customerId bookId : Int) (c b : Ref)
    (hc : findCustomer w customerId = some c) (hb : findBook w bookId = some b)
    (h0 : availableOf w.heap.pubs b = some 0) :
    borrowBook w customerId bookId = ⟨w, some Error.noCopiesAvailable⟩ :=
  borrowBook_eq_noCopies w customerId bookId c b hc hb h0

theorem borrowBook_noCopies_witness :
    findCustomer scenarioSoldOut 1 = some 0 ∧ findBook scenarioSoldOut 1 = some 0 ∧
    availableOf scenarioSoldOut.heap.pubs 0 = some 0 ∧
    borrowBook scenarioSoldOut 1 1 = ⟨scenarioSoldOut, some Error.noCopiesAvailable⟩ :=
  ⟨by decide, by decide, by decide,
    borrowBook_noCopies scenarioSoldOut 1 1 0 0 (by decide) (by decide) (by decide)⟩

/-- C4. `borrowBook` reports the first failure that applies, in this order: no
    customer has the id (CustomerNotFound); no book of the master list has the id
    (BookNotFound); the book found has `availableCopies = 0` (NoCopiesAvailable);
    the customer found already holds a publication with the book's title
    (DuplicateTitle).  It succeeds when none applies, so it fails if and only if
    one of the four conditions holds. -/
theorem borrowBook_error (w : World) (customerId bookId : Int) :
    ((∀ c ∈ w.library.customers, customerIdOf w.heap c ≠ some customerId) →
      (borrowBook w customerId bookId).error = some Error.customerNotFound) ∧
    (∀ c cobj, findCustomer w customerId = some c → w.heap.customers[c]? = some cobj →
      ((∀ b ∈ w.library.books, idOf w.heap.pubs b ≠ some bookId) →
        (borrowBook w customerId bookId).error = some Error.bookNotFound) ∧
      (∀ b bobj, findBook w bookId = some b → w.heap.pubs[b]? = some bobj →
        (bobj.base.availableCopies = 0 →
          (borrowBook w customerId bookId).error = some Error.noCopiesAvailable) ∧
        (bobj.base.availableCopies ≠ 0 →
          (∃ p ∈ cobj.borrowedPublications, titleOf w.heap.pubs p = some bobj.base.title) →
          (borrowBook w customerId bookId).error = some Error.duplicateTitle) ∧
        (bobj.base.availableCopies ≠ 0 →
          (∀ p ∈ cobj.borrowedPublications, titleOf w.heap.pubs p ≠ some bobj.base.title) →
          (borrowBook w customerId bookId).error = none))) ∧
    ((borrowBook w customerId bookId).error ≠ none ↔
      (∀ c ∈ w.library.customers, customerIdOf w.heap c ≠ some customerId) ∨
      (∀ b ∈ w.library.books, idOf w.heap.pubs b ≠ some bookId) ∨
      (∃ b bobj, findBook w bookId = some b ∧ w.heap.pubs[b]? = some bobj ∧
        bobj.base.availableCopies = 0) ∨
      (∃ c cobj b bobj, findCustomer w customerId = some c ∧
        w.heap.customers[c]? = some cobj ∧ findBook w bookId = some b ∧
        w.heap.pubs[b]? = some bobj ∧
        ∃ p ∈ cobj.borrowedPublications, titleOf w.heap.pubs p = some bobj.base.title)) := by
  have h1 : (∀ c ∈ w.library.customers, customerIdOf w.heap c ≠ some customerId) →
      (borrowBook w customerId bookId).error = some Error.customerNotFound := by
    intro h
    rw [borrowBook_eq_noCustomer w customerId bookId ((findCustomer_eq_none_iff _ _).mpr h)]
  have h2 : ∀ c, findCustomer w customerId = some c →
      (∀ b ∈ w.library.books, idOf w.heap.pubs b ≠ some bookId) →
      (borrowBook w customerId bookId).error = some Error.bookNotFound := by
    intro c hc h
    rw [borrowBook_eq_noBook w customerId bookId c hc ((findBook_eq_none_iff _ _).mpr h)]
  have h3 : ∀ c b bobj, findCustomer w customerId = some c → findBook w bookId = some b →
      w.heap.pubs[b]? = some bobj → bobj.base.availableCopies = 0 →
      (borrowBook w customerId bookId).error = some Error.noCopiesAvailable := by
    intro c b bobj hc hb hbobj h0
    rw [borrowBook_eq_noCopies w customerId bookId c b hc hb (by simp [availableOf, hbobj, h0])]
  refine ⟨h1, ?_, ?_⟩
  · intro c cobj hc hcobj
    refine ⟨h2 c hc, ?_⟩
    intro b bobj hb hbobj
    refine ⟨h3 c b bobj hc hb hbobj, ?_, ?_⟩
    · intro hne hdup
      rw [borrowBook_eq_duplicate w customerId bookId c b cobj bobj hc hcobj hb hbobj hne hdup]
    · intro hne hfresh
      rw [borrowBook_eq_success w customerId bookId c b cobj bobj hc hcobj hb hbobj hne hfresh]
  · cases hc : findCustomer w customerId with
    | none =>
      have hno := (findCustomer_eq_none_iff _ _).mp hc
      simp only [h1 hno, ne_eq, reduceCtorEq, not_false_eq_true, true_iff]
      exact Or.inl hno
    | some c =>
      obtain ⟨_, _, cobj, _, _, hcobj, _⟩ := findCustomer_eq_some w customerId c hc
      have hyes : ¬ ∀ c ∈ w.library.customers, customerIdOf w.heap c ≠ some customerId := by
        intro hno
        rw [(findCustomer_eq_none_iff _ _).mpr hno] at hc
        cases hc
      cases hb : findBook w bookId with
      | none =>
        have hno := (findBook_eq_none_iff _ _).mp hb
        simp only [h2 c hc hno, ne_eq, reduceCtorEq, not_false_eq_true, true_iff]
        exact Or.inr (Or.inl hno)
      | some b =>
        obtain ⟨_, _, bobj, _, _, hbobj, _⟩ := findBook_eq_some w bookId b hb
        have hbyes : ¬ ∀ b ∈ w.library.books, idOf w.heap.pubs b ≠ some bookId := by
          intro hno
          rw [(findBook_eq_none_iff _ _).mpr hno] at hb
          cases hb
        by_cases h0 : bobj.base.availableCopies = 0
        · simp only [h3 c b bobj hc hb hbobj h0, ne_eq, reduceCtorEq, not_false_eq_true,
            true_iff]
          exact Or.inr (Or.inr (Or.inl ⟨b, bobj, rfl, hbobj, h0⟩))
        · by_cases hdup : ∃ p ∈ cobj.borrowedPublications,
              titleOf w.heap.pubs p = some bobj.base.title
          · rw [borrowBook_eq_duplicate w customerId bookId c b cobj bobj hc hcobj hb hbobj
              h0 hdup]
            simp only [ne_eq, reduceCtorEq, not_false_eq_true, true_iff]
            exact Or.inr (Or.inr (Or.inr ⟨c, cobj, b, bobj, rfl, hcobj, rfl, hbobj, hdup⟩))
          · have hfresh : ∀ p ∈ cobj.borrowedPublications,
                titleOf w.heap.pubs p ≠ some bobj.base.title := by
              intro p hp ht
              exact hdup ⟨p, hp, ht⟩
            rw [borrowBook_eq_success w customerId bookId c b cobj bobj hc hcobj hb hbobj
              h0 hfresh]
            simp only [ne_eq, not_true_eq_false, false_iff, not_or]
            refine ⟨hyes, hbyes, ?_, ?_⟩
            · rintro ⟨b2, bobj2, hb2, hbobj2, hz⟩
              cases hb2
              rw [hbobj] at hbobj2
              cases hbobj2
              exact h0 hz
            · rintro ⟨c2, cobj2, b2, bobj2, hc2, hcobj2, hb2, hbobj2, hd⟩
              cases hc2
              cases hb2
              rw [hcobj] at hcobj2
              rw [hbobj] at hbobj2
              cases hcobj2
              cases hbobj2
              exact hdup hd

end Borrow

/-! ## The customer's borrowed list -/

section CustomerInvariant

theorem eraseIdx_sublist {α : Type} (l : List α) (i : Nat) : (l.eraseIdx i).Sublist l := by
  induction l generalizing i with
  | nil => simp
  | cons a as ih =>
    cases i with
    | zero => simp
    | succ n => simpa using ih n

theorem borrowPublication_state_cases (pubs : Pubs) (c : Customer) (publication : Ref) :
    ((Customer.borrowPublication pubs c publication).state = c) ∨
    ((∀ p ∈ c.borrowedPublications, titleOf pubs p ≠ titleOf pubs publication) ∧
      (Customer.borrowPublication pubs c publication).state =
        { c with borrowedPublications := c.borrowedPublications ++ [publication] }) := by
  by_cases h : ∃ p ∈ c.borrowedPublications, titleOf pubs p = titleOf pubs publication
  · left
    rw [borrowPublication_duplicate pubs c publication h]
  · right
    have h' : ∀ p ∈ c.borrowedPublications, titleOf pubs p ≠ titleOf pubs publication := by
      intro p hp ht
      exact h ⟨p, hp, ht⟩
    exact ⟨h', by rw [borrowPublication_fresh pubs c publication h']⟩

theorem returnPublication_borrowed_sublist (pubs : Pubs) (c : Customer) (id : Int) :
    (Customer.returnPublication pubs c id).state.borrowedPublications.Sublist
      c.borrowedPublications := by
  unfold Customer.returnPublication
  simp only
  split
  · exact eraseIdx_sublist _ _
  · exact List.Sublist.refl _

theorem customerReachable_invariant (pubs : Pubs) (c : Customer)
    (h : CustomerReachable pubs c) :
    (∀ p ∈ c.borrowedPublications, p < pubs.length) ∧
      (c.borrowedPublications.map (titleOf pubs)).Nodup := by
  induction h with
  | new pubs id first last => simp [Customer.new]
  | @borrow pubs c publication hvalid _ ih =>
    rcases borrowPublication_state_cases pubs c publication with hsame | ⟨hfresh, hnew⟩
    · rw [hsame]; exact ih
    · rw [hnew]
      refine ⟨?_, ?_⟩
      · intro p hp
        rcases List.mem_append.mp hp with hp | hp
        · exact ih.1 p hp
        · simp only [List.mem_singleton] at hp
          rw [hp]; exact hvalid
      · simp only [List.map_append, List.map_cons, List.map_nil]
        apply List.Nodup.append ih.2 (List.nodup_singleton _)
        intro t ht1 ht2
        obtain ⟨p, hp, rfl⟩ := List.mem_map.mp ht1
        simp only [List.mem_singleton] at ht2
        exact hfresh p hp ht2
  | @giveBack pubs c id _ ih =>
    have hsub := returnPublication_borrowed_sublist pubs c id
    refine ⟨fun p hp => ih.1 p (hsub.subset hp), ?_⟩
    exact List.Nodup.sublist (hsub.map _) ih.2
  | @heapStep pubs pubs' c hkept _ ih =>
    refine ⟨fun p hp => (hkept p (ih.1 p hp)).1, ?_⟩
    have hmap : c.borrowedPublications.map (titleOf pubs')
        = c.borrowedPublications.map (titleOf pubs) := by
      apply List.map_congr_left
      intro p hp
      exact (hkept p (ih.1 p hp)).2
    rw [hmap]
    exact ih.2

/-- C5. In every customer state reachable from a newly constructed customer by
    `borrowPublication` and `returnPublication` calls, successful or failing, no two
    entries of `borrowedPublications` have the same title: two positions of the
    list holding the same title are the same position. -/
theorem customer_titles_distinct (pubs : Pubs) (c : Customer)
    (h : CustomerReachable pubs c) :
    c.TitlesDistinct pubs ∧
    ∀ (i j : Nat) (p q : Ref), c.borrowedPublications[i]? = some p → c.borrowedPublications[j]? = some q →
      titleOf pubs p = titleOf pubs q → i = j := by
  have hinv := (customerReachable_invariant pubs c h).2
  refine ⟨hinv, ?_⟩
  intro i j p q hi hj ht
  have hi' : (c.borrowedPublications.map (titleOf pubs))[i]? = some (titleOf pubs p) := by
    simp [hi]
  have hj' : (c.borrowedPublications.map (titleOf pubs))[j]? = some (titleOf pubs p) := by
    simp [hj, ht]
  have hilt : i < (c.borrowedPublications.map (titleOf pubs)).length := by
    by_contra hc
    rw [List.getElem?_eq_none (by omega)] at hi'
    cases hi'
  have hjlt : j < (c.borrowedPublications.map (titleOf pubs)).length := by
    by_contra hc
    rw [List.getElem?_eq_none (by omega)] at hj'
    cases hj'
  have hne := List.nodup_iff_getElem?_ne_getElem?.mp hinv
  rcases Nat.lt_trichotomy i j with hlt | heq | hgt
  · exact absurd (hi'.trans hj'.symm) (hne i j hlt hjlt)
  · exact heq
  · exact absurd (hj'.trans hi'.symm) (hne j i hgt hilt)

end CustomerInvariant

section CustomerWitness

theorem customer_titles_distinct_witness :
    CustomerReachable [scenarioBook, scenarioBook2] scenarioCustomer ∧
    scenarioCustomer.borrowedPublications = [0, 1] ∧
    scenarioCustomer.TitlesDistinct [scenarioBook, scenarioBook2] :=
  have hreach : CustomerReachable [scenarioBook, scenarioBook2] scenarioCustomer :=
    CustomerReachable.borrow 0 (by decide)
      (CustomerReachable.borrow 1 (by decide)
        (CustomerReachable.borrow 0 (by decide)
          (CustomerReachable.new _ 1 "Ann" "Lee")))
  ⟨hreach, by decide,
    (customer_titles_distinct [scenarioBook, scenarioBook2] scenarioCustomer hreach).1⟩

end CustomerWitness

/-! ## The copy-count bound under the library's operations -/

section CopyCount

open Library

theorem addBook_pubs (w : World) (book : Ref) :
    (addBook w book).state.heap.pubs = w.heap.pubs := by
  unfold addBook
  simp only
  split
  · split <;> rfl
  · rfl

theorem returnBook_pubs (w : World) (customerId bookId : Int) :
    (returnBook w customerId bookId).state.heap.pubs = w.heap.pubs := by
  unfold returnBook
  split
  · rfl
  · split
    · rfl
    · split
      · simp only
        split <;> rfl
      · rfl

/-- What `borrowBook` does to the publication store: nothing, or one decrement of
    a counter that was not zero. -/
theorem borrowBook_pubs (w : World) (customerId bookId : Int) :
    (borrowBook w customerId bookId).state.heap.pubs = w.heap.pubs ∨
    ∃ b bobj, findBook w bookId = some b ∧ w.heap.pubs[b]? = some bobj ∧
      bobj.base.availableCopies ≠ 0 ∧
      (borrowBook w customerId bookId).state.heap.pubs = w.heap.pubs.set b bobj.decAvailable := by
  cases hc : findCustomer w customerId with
  | none => left; rw [borrowBook_eq_noCustomer w customerId bookId hc]
  | some c =>
    obtain ⟨_, _, cobj, _, _, hcobj, _⟩ := findCustomer_eq_some w customerId c hc
    cases hb : findBook w bookId with
    | none => left; rw [borrowBook_eq_noBook w customerId bookId c hc hb]
    | some b =>
      obtain ⟨_, _, bobj, _, _, hbobj, _⟩ := findBook_eq_some w bookId b hb
      by_cases h0 : bobj.base.availableCopies = 0
      · left
        rw [borrowBook_eq_noCopies w customerId bookId c b hc hb
          (by simp [availableOf, hbobj, h0])]
      · right
        refine ⟨b, bobj, rfl, hbobj, h0, ?_⟩
        by_cases hdup : ∃ p ∈ cobj.borrowedPublications,
            titleOf w.heap.pubs p = some bobj.base.title
        · rw [borrowBook_eq_duplicate w customerId bookId c b cobj bobj hc hcobj hb hbobj
            h0 hdup]
        · have hfresh : ∀ p ∈ cobj.borrowedPublications,
              titleOf w.heap.pubs p ≠ some bobj.base.title := by
            intro p hp ht
            exact hdup ⟨p, hp, ht⟩
          rw [borrowBook_eq_success w customerId bookId c b cobj bobj hc hcobj hb hbobj
            h0 hfresh]

theorem allCountsOk_set_decAvailable (pubs : Pubs) (b : Ref) (bobj : PubObj)
    (hall : AllCountsOk pubs) (hbobj : pubs[b]? = some bobj)
    (hne : bobj.base.availableCopies ≠ 0) :
    AllCountsOk (pubs.set b bobj.decAvailable) := by
  intro o ho
  rcases List.mem_or_eq_of_mem_set ho with hmem | heq
  · exact hall o hmem
  · have hok := hall bobj (List.getElem?_mem hbobj)
    rw [heq]
    unfold Publication.CountsOk at *
    rw [PubObj.base_decAvailable]
    simp only
    omega

theorem reachable_allCountsOk (w : World) (h : Reachable w) : AllCountsOk w.heap.pubs := by
  induction h with
  | empty => intro o ho; cases ho
  | makeCustomer id first last _ ih => exact ih
  | makeBook id title author year pages total available h0 h1 _ ih =>
    intro o ho
    simp only [makeBook, List.mem_append, List.mem_singleton] at ho
    rcases ho with ho | ho
    · exact ih o ho
    · rw [ho]; exact ⟨h0, h1⟩
  | addCustomer customer _ _ ih => exact ih
  | @addBook w book b _ _ ih => rw [addBook_pubs]; exact ih
  | @borrowBook w customerId bookId _ ih =>
    rcases borrowBook_pubs w customerId bookId with hsame | ⟨b, bobj, _, hbobj, hne, hset⟩
    · rw [hsame]; exact ih
    · rw [hset]; exact allCountsOk_set_decAvailable _ b bobj ih hbobj hne
  | @returnBook w customerId bookId _ ih => rw [returnBook_pubs]; exact ih

/-- C6. In every library state reachable from the empty library by creating
    customers and books (with `0 ≤ availableCopies ≤ totalCopies`) and calling
    `addCustomer`, `addBook`, `borrowBook` and `returnBook`, successful or failing,
    every book of the master list satisfies `0 ≤ availableCopies ≤ totalCopies`. -/
theorem reachable_books_counts (w : World) (h : Reachable w) :
    ∀ b ∈ w.library.books, ∀ o, w.heap.pubs[b]? = some o →
      0 ≤ o.base.availableCopies ∧ o.base.availableCopies ≤ o.base.totalCopies := by
  intro b _ o ho
  exact reachable_allCountsOk w h o (List.getElem?_mem ho)

end CopyCount

section CopyCountWitness

open Library

theorem reachable_books_counts_witness :
    Reachable scenarioRefused ∧
    (∀ b ∈ scenarioRefused.library.books, ∀ o, scenarioRefused.heap.pubs[b]? = some o →
      0 ≤ o.base.availableCopies ∧ o.base.availableCopies ≤ o.base.totalCopies) :=
  have h1 := Reachable.makeCustomer 1 "Ann" "Lee" Reachable.empty
  have h2 := Reachable.addCustomer 0 (by decide) h1
  have h3 := Reachable.makeCustomer 2 "Bob" "Ray" h2
  have h4 := Reachable.addCustomer 1 (by decide) h3
  have h5 := Reachable.makeBook 1 "Go" ⟨"Rob", "Pike"⟩ 2020 300 2 2 (by decide) (by decide) h4
  have h6 := Reachable.addBook 0 ⟨⟨1, "Go", 2020, 2, 2⟩, ⟨"Rob", "Pike"⟩, 300⟩ (by decide) h5
  have h7 := Reachable.borrowBook 1 1 h6
  have h8 : Reachable scenarioRefused := Reachable.borrowBook 1 1 h7
  ⟨h8, reachable_books_counts scenarioRefused h8⟩

end CopyCountWitness

/-! ## Returning (`Library::returnBook`) -/

section Return

open Library

theorem returnPublication_found (pubs : Pubs) (c : Customer) (id : Int)
    (h : ∃ p ∈ c.borrowedPublications, idOf pubs p = some id) :
    ∃ pre p post, c.borrowedPublications = pre ++ p :: post ∧
      (∀ q ∈ pre, idOf pubs q ≠ some id) ∧ idOf pubs p = some id ∧
      Customer.returnPublication pubs c id =
        ⟨{ c with borrowedPublications := pre ++ post }, none⟩ := by
  have hne : find_if (fun p => idOf pubs p == some id) c.borrowedPublications
      ≠ c.borrowedPublications.length := by
    obtain ⟨p, hp, hid⟩ := h
    have := (find_if_lt_length_iff (fun p => idOf pubs p == some id) c.borrowedPublications).mpr
      ⟨p, hp, by simp [hid]⟩
    omega
  obtain ⟨pre, p, post, hl, hpre, hp, _, _, herase⟩ := find_if_split _ _ hne
  refine ⟨pre, p, post, hl, ?_, by simpa using hp, ?_⟩
  · intro q hq
    simpa using hpre q hq
  · unfold Customer.returnPublication
    simp only [if_pos hne, herase]

theorem returnPublication_missing (pubs : Pubs) (c : Customer) (id : Int)
    (h : ∀ p ∈ c.borrowedPublications, idOf pubs p ≠ some id) :
    Customer.returnPublication pubs c id = ⟨c, some Error.notFound⟩ := by
  have heq : find_if (fun p => idOf pubs p == some id) c.borrowedPublications
      = c.borrowedPublications.length := by
    apply (find_if_eq_length_iff _ _).mpr
    intro p hp
    simpa using h p hp
  unfold Customer.returnPublication
  simp only [heq, ne_eq, not_true_eq_false, if_false]

theorem returnBook_eq_noCustomer (w : World) (customerId bookId : Int)
    (hc : findCustomer w customerId = none) :
    returnBook w customerId bookId = ⟨w, some Error.customerNotFound⟩ := by
  unfold returnBook
  simp only [hc]

theorem returnBook_eq_noBook (w : World) (customerId bookId : Int) (c : Ref)
    (hc : findCustomer w customerId = some c) (hb : findBook w bookId = none) :
    returnBook w customerId bookId = ⟨w, some Error.bookNotFound⟩ := by
  unfold returnBook
  simp only [hc, hb]

theorem returnBook_eq_notBorrowed (w : World) (customerId bookId : Int) (c b : Ref)
    (cobj : Customer)
    (hc : findCustomer w customerId = some c) (hcobj : w.heap.customers[c]? = some cobj)
    (hb : findBook w bookId = some b)
    (h : ∀ p ∈ cobj.borrowedPublications, idOf w.heap.pubs p ≠ some bookId) :
    returnBook w customerId bookId = ⟨w, some Error.notFound⟩ := by
  unfold returnBook
  simp only [hc, hb, hcobj, returnPublication_missing _ _ _ h, set_getElem?_self _ _ _ hcobj]

theorem returnBook_eq_success (w : World) (customerId bookId : Int) (c b : Ref)
    (cobj : Customer)
    (hc : findCustomer w customerId = some c) (hcobj : w.heap.customers[c]? = some cobj)
    (hb : findBook w bookId = some b)
    (h : ∃ p ∈ cobj.borrowedPublications, idOf w.heap.pubs p = some bookId) :
    ∃ pre p post, cobj.borrowedPublications = pre ++ p :: post ∧
      (∀ q ∈ pre, idOf w.heap.pubs q ≠ some bookId) ∧ idOf w.heap.pubs p = some bookId ∧
      returnBook w customerId bookId =
        ⟨{ heap :=
            { pubs := w.heap.pubs,
              customers := w.heap.customers.set c { cobj with borrowedPublications := pre ++ post },
              shelves := w.heap.shelves },
           library := { w.library with
              returnedPublications := w.library.returnedPublications.push b } }, none⟩ := by
  obtain ⟨pre, p, post, hl, hpre, hp, hret⟩ := returnPublication_found w.heap.pubs cobj bookId h
  refine ⟨pre, p, post, hl, hpre, hp, ?_⟩
  unfold returnBook
  simp only [hc, hb, hcobj, hret]

theorem Stack.top_push {α : Type} (s : Stack α) (x : α) : (s.push x).top = Except.ok x := by
  simp [Stack.top, Stack.push, Stack.isEmpty]

/-- C7. When the customer found for `customerId` exists, a book with id `bookId`
    is found in the master list and the customer's borrowed list has an entry with
    id `bookId`, `returnBook` succeeds: it removes the first such entry from the
    customer's list (the entries before and after it stay, in order), pushes the
    book found on top of the return history, and leaves every publication object,
    hence `availableCopies` and `totalCopies` of every book, as it was. -/
theorem returnBook_success (w : World) (customerId bookId : Int) (c b : Ref)
    (cobj : Customer)
    (hc : findCustomer w customerId = some c) (hcobj : w.heap.customers[c]? = some cobj)
    (hb : findBook w bookId = some b)
    (h : ∃ p ∈ cobj.borrowedPublications, idOf w.heap.pubs p = some bookId) :
    (∃ pre p post, cobj.borrowedPublications = pre ++ p :: post ∧
      (∀ q ∈ pre, idOf w.heap.pubs q ≠ some bookId) ∧ idOf w.heap.pubs p = some bookId ∧
      returnBook w customerId bookId =
        ⟨{ heap :=
            { pubs := w.heap.pubs,
              customers := w.heap.customers.set c { cobj with borrowedPublications := pre ++ post },
              shelves := w.heap.shelves },
           library := { w.library with
              returnedPublications := w.library.returnedPublications.push b } }, none⟩) ∧
    (returnBook w customerId bookId).state.heap.pubs = w.heap.pubs ∧
    (returnBook w customerId bookId).state.library.returnedPublications.top = Except.ok b := by
  have hmain := returnBook_eq_success w customerId bookId c b cobj hc hcobj hb h
  refine ⟨hmain, returnBook_pubs w customerId bookId, ?_⟩
  obtain ⟨pre, p, post, _, _, _, heq⟩ := hmain
  rw [heq]
  exact Stack.top_push _ _

theorem returnBook_success_witness :
    findCustomer scenarioSoldOut 1 = some 0 ∧
    scenarioSoldOut.heap.customers[0]? = some ⟨1, "Ann", "Lee", [0]⟩ ∧
    findBook scenarioSoldOut 1 = some 0 ∧
    (returnBook scenarioSoldOut 1 1).state.heap.pubs = scenarioSoldOut.heap.pubs ∧
    (returnBook scenarioSoldOut 1 1).state.library.returnedPublications.top = Except.ok 0 :=
  ⟨by decide, by decide, by decide,
    (returnBook_success scenarioSoldOut 1 1 0 0 ⟨1, "Ann", "Lee", [0]⟩ (by decide) (by decide)
      (by decide) ⟨0, by decide, by decide⟩).2⟩

/-- C8. `returnBook` fails if and only if no customer has the id, or no book of
    the master list has the id, or the borrowed list of the customer found has no
    entry with the id; and whenever it fails the state is as before. -/
theorem returnBook_failure (w : World) (customerId bookId : Int) :
    ((returnBook w customerId bookId).error ≠ none ↔
      (∀ c ∈ w.library.customers, customerIdOf w.heap c ≠ some customerId) ∨
      (∀ b ∈ w.library.books, idOf w.heap.pubs b ≠ some bookId) ∨
      (∃ c cobj, findCustomer w customerId = some c ∧ w.heap.customers[c]? = some cobj ∧
        ∀ p ∈ cobj.borrowedPublications, idOf w.heap.pubs p ≠ some bookId)) ∧
    ((returnBook w customerId bookId).error ≠ none →
      (returnBook w customerId bookId).state = w) := by
  cases hc : findCustomer w customerId with
  | none =>
    have hno := (findCustomer_eq_none_iff _ _).mp hc
    rw [returnBook_eq_noCustomer w customerId bookId hc]
    exact ⟨⟨fun _ => Or.inl hno, fun _ => by simp⟩, fun _ => rfl⟩
  | some c =>
    obtain ⟨_, _, cobj, _, _, hcobj, _⟩ := findCustomer_eq_some w customerId c hc
    have hyes : ¬ ∀ c ∈ w.library.customers, customerIdOf w.heap c ≠ some customerId := by
      intro hno
      rw [(findCustomer_eq_none_iff _ _).mpr hno] at hc
      cases hc
    cases hb : findBook w bookId with
    | none =>
      have hno := (findBook_eq_none_iff _ _).mp hb
      rw [returnBook_eq_noBook w customerId bookId c hc hb]
      exact ⟨⟨fun _ => Or.inr (Or.inl hno), fun _ => by simp⟩, fun _ => rfl⟩
    | some b =>
      have hbyes : ¬ ∀ b ∈ w.library.books, idOf w.heap.pubs b ≠ some bookId := by
        intro hno
        rw [(findBook_eq_none_iff _ _).mpr hno] at hb
        cases hb
      by_cases hheld : ∃ p ∈ cobj.borrowedPublications, idOf w.heap.pubs p = some bookId
      · obtain ⟨pre, p, post, _, _, _, heq⟩ :=
          returnBook_eq_success w customerId bookId c b cobj hc hcobj hb hheld
        rw [heq]
        refine ⟨⟨fun hcontra => absurd rfl hcontra, ?_⟩, fun hcontra => absurd rfl hcontra⟩
        rintro (hno | hno | ⟨c2, cobj2, hc2, hcobj2, hnone⟩)
        · exact absurd hno hyes
        · exact absurd hno hbyes
        · cases hc2
          rw [hcobj] at hcobj2
          cases hcobj2
          obtain ⟨q, hq, hid⟩ := hheld
          exact absurd hid (hnone q hq)
      · have hnone : ∀ p ∈ cobj.borrowedPublications, idOf w.heap.pubs p ≠ some bookId := by
          intro p hp hid
          exact hheld ⟨p, hp, hid⟩
        rw [returnBook_eq_notBorrowed w customerId bookId c b cobj hc hcobj hb hnone]
        exact ⟨⟨fun _ => Or.inr (Or.inr ⟨c, cobj, rfl, hcobj, hnone⟩), fun _ => by simp⟩,
          fun _ => rfl⟩

end Return

/-! ## The return history (`Library::getReturnedBooks`) -/

section History

open Library

theorem foldl_push_data {α : Type} (ps : List α) (s : Stack α) :
    (ps.foldl Stack.push s).data = s.data ++ ps := by
  induction ps generalizing s with
  | nil => simp
  | cons p ps ih => simp [ih, Stack.push]

/-- The drain loop terminates without an error and appends the stack from top to
    bottom. -/
theorem drain_eq (l : List Ref) (acc : List Ref) :
    drain ⟨l⟩ acc = Except.ok (acc ++ l.reverse) := by
  induction l using List.reverseRecOn generalizing acc with
  | nil =>
    rw [drain]
    simp [Stack.isEmpty]
  | append_singleton xs x ih =>
    rw [drain]
    simp [Stack.isEmpty, Stack.top, Stack.pop, ih]

/-- C9. For a return history built by pushing `p1, ..., pk` in that order on an
    empty stack (any `k ≥ 0`), `getReturnedBooks` returns without error exactly
    `[pk, ..., p1]`, of length `k`, and leaves the state, the history included, as
    it found it; a second call gives the same result. -/
theorem getReturnedBooks_spec (w : World) (ps : List Ref) :
    getReturnedBooks (w.withHistory ps) = (w.withHistory ps, Except.ok ps.reverse) ∧
    (∀ books, (getReturnedBooks (w.withHistory ps)).2 = Except.ok books →
      books.length = ps.length) ∧
    getReturnedBooks (getReturnedBooks (w.withHistory ps)).1
      = getReturnedBooks (w.withHistory ps) := by
  have hdata : (w.withHistory ps).library.returnedPublications = ⟨ps⟩ := by
    have h := foldl_push_data ps ⟨[]⟩
    simp only [List.nil_append] at h
    show List.foldl Stack.push ⟨[]⟩ ps = ⟨ps⟩
    cases hh : List.foldl Stack.push ⟨[]⟩ ps with
    | mk d =>
      rw [hh] at h
      simp only at h
      rw [h]
  have hget : getReturnedBooks (w.withHistory ps)
      = (w.withHistory ps, Except.ok ps.reverse) := by
    show (w.withHistory ps, drain (w.withHistory ps).library.returnedPublications [])
      = (w.withHistory ps, Except.ok ps.reverse)
    rw [hdata, drain_eq]
    simp
  refine ⟨hget, ?_, ?_⟩
  · intro books hbooks
    rw [hget] at hbooks
    simp only [Except.ok.injEq] at hbooks
    rw [← hbooks, List.length_reverse]
  · rw [hget]
    exact hget

end History

/-! ## Adding an exemplar on a shelf -/

section Exemplar

theorem scanGroup_none (pubs : Pubs) (id : Int) (l : List Ref)
    (h : ∀ q ∈ l, idOf pubs q ≠ some id) :
    scanGroup pubs (fun o => o.base.id == id) l = none := by
  induction l with
  | nil => rfl
  | cons a as ih =>
    have ha : idOf pubs a ≠ some id := h a (List.mem_cons_self _ _)
    have has : ∀ q ∈ as, idOf pubs q ≠ some id := fun q hq => h q (List.mem_cons_of_mem _ hq)
    unfold scanGroup
    cases hobj : pubs[a]? with
    | none => simpa using ih has
    | some o =>
      have : ¬ o.base.id = id := by
        intro hid
        apply ha
        simp [idOf, hobj, hid]
      simpa [this] using ih has

theorem scanGroup_append_first (pubs : Pubs) (id : Int) (pre post : List Ref) (r : Ref)
    (hpre : ∀ q ∈ pre, idOf pubs q ≠ some id) (hr : idOf pubs r = some id) :
    scanGroup pubs (fun o => o.base.id == id) (pre ++ r :: post) = some r := by
  induction pre with
  | nil =>
    simp only [List.nil_append]
    unfold scanGroup
    cases hobj : pubs[r]? with
    | none => simp [idOf, hobj] at hr
    | some o =>
      have : o.base.id = id := by simpa [idOf, hobj] using hr
      simp [this]
  | cons a as ih =>
    have ha : idOf pubs a ≠ some id := hpre a (List.mem_cons_self _ _)
    have has : ∀ q ∈ as, idOf pubs q ≠ some id := fun q hq => hpre q (List.mem_cons_of_mem _ hq)
    simp only [List.cons_append]
    unfold scanGroup
    cases hobj : pubs[a]? with
    | none => simpa using ih has
    | some o =>
      have : ¬ o.base.id = id := by
        intro hid
        apply ha
        simp [idOf, hobj, hid]
      simpa [this] using ih has

theorem scanGroups_none (pubs : Pubs) (id : Int) (m : GroupMap)
    (h : ∀ q ∈ m.entries, idOf pubs q ≠ some id) :
    scanGroups pubs (fun o => o.base.id == id) m = none := by
  induction m with
  | nil => rfl
  | cons g gs ih =>
    have hg : ∀ q ∈ g.2, idOf pubs q ≠ some id := by
      intro q hq
      apply h
      simp [GroupMap.entries, hq]
    have hgs : ∀ q ∈ GroupMap.entries gs, idOf pubs q ≠ some id := by
      intro q hq
      apply h
      simp only [GroupMap.entries, List.map_cons, List.flatten_cons, List.mem_append]
      exact Or.inr hq
    unfold scanGroups
    rw [scanGroup_none pubs id g.2 hg]
    exact ih hgs

/-- The nested scan stops at the first entry, in scan order, with the id. -/
theorem scanGroups_first (pubs : Pubs) (id : Int) (m : GroupMap) (pre post : List Ref)
    (r : Ref) (hm : m.entries = pre ++ r :: post)
    (hpre : ∀ q ∈ pre, idOf pubs q ≠ some id) (hr : idOf pubs r = some id) :
    scanGroups pubs (fun o => o.base.id == id) m = some r := by
  induction m generalizing pre with
  | nil => simp [GroupMap.entries] at hm
  | cons g gs ih =>
    have hent : g.2 ++ GroupMap.entries gs = pre ++ r :: post := by
      simpa [GroupMap.entries] using hm
    unfold scanGroups
    rcases List.append_eq_append_iff.mp hent with ⟨a', hpre', hgs⟩ | ⟨c', hg, hrest⟩
    · -- the group ends inside `pre`
      have hg : ∀ q ∈ g.2, idOf pubs q ≠ some id := by
        intro q hq
        apply hpre
        rw [hpre']
        exact List.mem_append_left _ hq
      rw [scanGroup_none pubs id g.2 hg]
      apply ih a' hgs
      intro q hq
      apply hpre
      rw [hpre']
      exact List.mem_append_right _ hq
    · cases c' with
      | nil =>
        have hg' : ∀ q ∈ g.2, idOf pubs q ≠ some id := by
          intro q hq
          apply hpre
          rw [hg] at hq
          simpa using hq
        rw [scanGroup_none pubs id g.2 hg']
        simp only [List.nil_append] at hrest
        exact ih [] (by simpa using hrest.symm) (by simp)
      | cons x xs =>
        simp only [List.cons_append, List.cons.injEq] at hrest
        obtain ⟨hx, _⟩ := hrest
        subst hx
        rw [hg, scanGroup_append_first pubs id pre xs r hpre hr]

theorem addExemplar_store (pubs : Pubs) (r : Ref) (o : PubObj) (h : pubs[r]? = some o) :
    pubs.modify (fun o => o.incTotal.incAvailable) r = pubs.set r o.incTotal.incAvailable :=
  modify_eq_set_of_getElem? _ pubs r o h

/-- C10. On a `BookShelf` and on a `MagazineShelf` alike: when `r` is the first
    entry in scan order whose id is `id`, `addExemplar` succeeds, the object `r`
    points to gets `totalCopies` and `availableCopies` one higher and keeps its
    other fields, every other publication object is as before, and the shelf
    (its grouping index included) is as before; when no entry has the id it fails
    with NotFound and leaves store and shelf as before. -/
theorem addExemplar_spec (pubs : Pubs) (id : Int) :
    (∀ s : BookShelf,
      (∀ pre r post, s.books.entries = pre ++ r :: post →
        (∀ q ∈ pre, idOf pubs q ≠ some id) → idOf pubs r = some id →
        ∃ o, pubs[r]? = some o ∧
          BookShelf.addExemplar pubs s id = ⟨(pubs.set r o.incTotal.incAvailable, s), none⟩ ∧
          o.incTotal.incAvailable.base =
            { o.base with totalCopies := o.base.totalCopies + 1,
                          availableCopies := o.base.availableCopies + 1 } ∧
          ∀ q : Ref, q ≠ r → (pubs.set r o.incTotal.incAvailable)[q]? = pubs[q]?) ∧
      ((∀ q ∈ s.books.entries, idOf pubs q ≠ some id) →
        BookShelf.addExemplar pubs s id = ⟨(pubs, s), some Error.notFound⟩)) ∧
    (∀ s : MagazineShelf,
      (∀ pre r post, s.magazines.entries = pre ++ r :: post →
        (∀ q ∈ pre, idOf pubs q ≠ some id) → idOf pubs r = some id →
        ∃ o, pubs[r]? = some o ∧
          MagazineShelf.addExemplar pubs s id = ⟨(pubs.set r o.incTotal.incAvailable, s), none⟩ ∧
          o.incTotal.incAvailable.base =
            { o.base with totalCopies := o.base.totalCopies + 1,
                          availableCopies := o.base.availableCopies + 1 } ∧
          ∀ q : Ref, q ≠ r → (pubs.set r o.incTotal.incAvailable)[q]? = pubs[q]?) ∧
      ((∀ q ∈ s.magazines.entries, idOf pubs q ≠ some id) →
        MagazineShelf.addExemplar pubs s id = ⟨(pubs, s), some Error.notFound⟩)) := by
  have hobj : ∀ r, idOf pubs r = some id → ∃ o, pubs[r]? = some o := by
    intro r hr
    cases h : pubs[r]? with
    | none => simp [idOf, h] at hr
    | some o => exact ⟨o, rfl⟩
  refine ⟨fun s => ⟨?_, ?_⟩, fun s => ⟨?_, ?_⟩⟩
  · intro pre r post hm hpre hr
    obtain ⟨o, ho⟩ := hobj r hr
    refine ⟨o, ho, ?_, PubObj.base_addExemplar o, ?_⟩
    · unfold BookShelf.addExemplar
      rw [scanGroups_first pubs id s.books pre post r hm hpre hr]
      simp only [addExemplar_store pubs r o ho]
    · intro q hq
      exact List.getElem?_set_ne (Ne.symm hq)
  · intro hnone
    unfold BookShelf.addExemplar
    rw [scanGroups_none pubs id s.books hnone]
  · intro pre r post hm hpre hr
    obtain ⟨o, ho⟩ := hobj r hr
    refine ⟨o, ho, ?_, PubObj.base_addExemplar o, ?_⟩
    · unfold MagazineShelf.addExemplar
      rw [scanGroups_first pubs id s.magazines pre post r hm hpre hr]
      simp only [addExemplar_store pubs r o ho]
    · intro q hq
      exact List.getElem?_set_ne (Ne.symm hq)
  · intro hnone
    unfold MagazineShelf.addExemplar
    rw [scanGroups_none pubs id s.magazines hnone]

end Exemplar


/-! ## Shelf scans -/

section Scans

theorem scanGroup_eq_find (pubs : Pubs) (pred : PubObj → Bool) (l : List Ref) :
    scanGroup pubs pred l = l.find? (holds pubs pred) := by
  induction l with
  | nil => rfl
  | cons a as ih =>
    unfold scanGroup
    cases hobj : pubs[a]? with
    | none => simp [List.find?, holds, hobj, ih]
    | some o =>
      by_cases hp : pred o = true
      · simp [List.find?, holds, hobj, hp]
      · have hp' : pred o = false := by simpa using hp
        simp [List.find?, holds, hobj, hp', ih]

theorem scanGroups_eq_find (pubs : Pubs) (pred : PubObj → Bool) (m : GroupMap) :
    scanGroups pubs pred m = m.entries.find? (holds pubs pred) := by
  induction m with
  | nil => rfl
  | cons g gs ih =>
    unfold scanGroups
    have hent : GroupMap.entries (g :: gs) = g.2 ++ GroupMap.entries gs := by
      simp [GroupMap.entries]
    rw [hent, List.find?_append, scanGroup_eq_find, ih]
    cases List.find? (holds pubs pred) g.2 <;> rfl

theorem find?_first {α : Type} (p : α → Bool) (pre post : List α) (x : α)
    (hpre : ∀ q ∈ pre, p q = false) (hx : p x = true) :
    (pre ++ x :: post).find? p = some x := by
  induction pre with
  | nil => simp [List.find?, hx]
  | cons a as ih =>
    have ha : p a = false := hpre a (List.mem_cons_self _ _)
    simp only [List.cons_append, List.find?, ha]
    exact ih (fun q hq => hpre q (List.mem_cons_of_mem _ hq))

theorem find?_none_of_forall {α : Type} (p : α → Bool) (l : List α)
    (h : ∀ q ∈ l, p q = false) : l.find? p = none := by
  rw [List.find?_eq_none]
  intro x hx
  simp [h x hx]

/-- A list with an element satisfying `p` splits at the first such element. -/
theorem exists_first {α : Type} (p : α → Bool) (l : List α) (h : ∃ x ∈ l, p x = true) :
    ∃ pre x post, l = pre ++ x :: post ∧ (∀ q ∈ pre, p q = false) ∧ p x = true := by
  induction l with
  | nil =>
    obtain ⟨x, hx, _⟩ := h
    cases hx
  | cons a as ih =>
    by_cases ha : p a = true
    · exact ⟨[], a, as, rfl, ⟨fun q hq => absurd hq (List.not_mem_nil q), ha⟩⟩
    · have ha' : p a = false := by simpa using ha
      obtain ⟨x, hx, hpx⟩ := h
      have hx' : x ∈ as := by
        rcases List.mem_cons.mp hx with rfl | hx
        · rw [hpx] at ha'; cases ha'
        · exact hx
      obtain ⟨pre, y, post, hl, hpre, hy⟩ := ih ⟨x, hx', hpx⟩
      refine ⟨a :: pre, y, post, by simp [hl], ?_, hy⟩
      intro q hq
      rcases List.mem_cons.mp hq with rfl | hq
      · exact ha'
      · exact hpre q hq

theorem holds_borrowable_iff (pubs : Pubs) (id : Int) (r : Ref) :
    holds pubs (borrowable id) r = true ↔ Borrowable pubs id r := by
  unfold holds Borrowable borrowable
  cases hobj : pubs[r]? with
  | none => simp
  | some o => simp

theorem holds_borrowable_false_iff (pubs : Pubs) (id : Int) (r : Ref) :
    holds pubs (borrowable id) r = false ↔ ¬ Borrowable pubs id r := by
  rw [← holds_borrowable_iff]
  simp

theorem holds_id_iff (pubs : Pubs) (id : Int) (r : Ref) :
    holds pubs (fun o => o.base.id == id) r = true ↔ idOf pubs r = some id := by
  unfold holds idOf
  cases hobj : pubs[r]? with
  | none => simp
  | some o => simp

theorem holds_id_false_iff (pubs : Pubs) (id : Int) (r : Ref) :
    holds pubs (fun o => o.base.id == id) r = false ↔ idOf pubs r ≠ some id := by
  rw [Ne, ← holds_id_iff]
  simp

theorem scanGroups_borrowable_first (pubs : Pubs) (id : Int) (m : GroupMap)
    (pre post : List Ref) (r : Ref) (hm : m.entries = pre ++ r :: post)
    (hpre : ∀ q ∈ pre, ¬ Borrowable pubs id q) (hr : Borrowable pubs id r) :
    scanGroups pubs (borrowable id) m = some r := by
  rw [scanGroups_eq_find, hm]
  apply find?_first
  · intro q hq
    exact (holds_borrowable_false_iff pubs id q).mpr (hpre q hq)
  · exact (holds_borrowable_iff pubs id r).mpr hr

theorem scanGroups_borrowable_none (pubs : Pubs) (id : Int) (m : GroupMap)
    (h : ∀ q ∈ m.entries, ¬ Borrowable pubs id q) :
    scanGroups pubs (borrowable id) m = none := by
  rw [scanGroups_eq_find]
  apply find?_none_of_forall
  intro q hq
  exact (holds_borrowable_false_iff pubs id q).mpr (h q hq)

theorem scanGroups_borrowable_isSome_iff (pubs : Pubs) (id : Int) (m : GroupMap) :
    (∃ r, scanGroups pubs (borrowable id) m = some r) ↔
      ∃ q ∈ m.entries, Borrowable pubs id q := by
  constructor
  · rintro ⟨r, hr⟩
    rw [scanGroups_eq_find] at hr
    exact ⟨r, List.mem_of_find?_eq_some hr,
      (holds_borrowable_iff pubs id r).mp (List.find?_some hr)⟩
  · rintro ⟨q, hq, hb⟩
    obtain ⟨pre, x, post, hl, hpre, hx⟩ := exists_first (holds pubs (borrowable id)) m.entries
      ⟨q, hq, (holds_borrowable_iff pubs id q).mpr hb⟩
    refine ⟨x, ?_⟩
    rw [scanGroups_eq_find, hl]
    exact find?_first _ _ _ _ hpre hx

end Scans

/-! ## Borrowing from a shelf -/

section ShelfBorrow

/-- What both `borrowPublication` methods do once the scan has an answer. -/
theorem borrow_store (pubs : Pubs) (r : Ref) (hr : ∃ o, pubs[r]? = some o) :
    ∃ o, pubs[r]? = some o ∧
      pubs.modify PubObj.decAvailable r = pubs.set r o.decAvailable ∧
      o.decAvailable.base = { o.base with availableCopies := o.base.availableCopies - 1 } ∧
      ∀ q : Ref, q ≠ r → (pubs.set r o.decAvailable)[q]? = pubs[q]? := by
  obtain ⟨o, ho⟩ := hr
  refine ⟨o, ho, modify_eq_set_of_getElem? _ pubs r o ho, PubObj.base_decAvailable o, ?_⟩
  intro q hq
  exact List.getElem?_set_ne (Ne.symm hq)

/-- C11. On a `BookShelf` and on a `MagazineShelf` alike, `borrowPublication(id)`
    succeeds if and only if some entry has the id and `availableCopies > 0`.  When
    `r` is the first such entry in scan order (groups in key order, entries in list
    order) it returns `r`, the object `r` points to has `availableCopies` one lower
    and its other fields as before, all other objects and the shelf are as before.
    When there is no such entry it fails with NotFoundOrUnavailable and leaves
    store and shelf as before. -/
theorem borrowPublication_spec (pubs : Pubs) (id : Int) :
    (∀ s : BookShelf,
      ((∃ r, (BookShelf.borrowPublication pubs s id).2 = Except.ok r) ↔
        ∃ q ∈ s.books.entries, Borrowable pubs id q) ∧
      (∀ pre r post, s.books.entries = pre ++ r :: post →
        (∀ q ∈ pre, ¬ Borrowable pubs id q) → Borrowable pubs id r →
        ∃ o, pubs[r]? = some o ∧
          BookShelf.borrowPublication pubs s id
            = ((pubs.set r o.decAvailable, s), Except.ok r) ∧
          o.decAvailable.base =
            { o.base with availableCopies := o.base.availableCopies - 1 } ∧
          ∀ q : Ref, q ≠ r → (pubs.set r o.decAvailable)[q]? = pubs[q]?) ∧
      ((∀ q ∈ s.books.entries, ¬ Borrowable pubs id q) →
        BookShelf.borrowPublication pubs s id
          = ((pubs, s), Except.error Error.notFoundOrUnavailable))) ∧
    (∀ s : MagazineShelf,
      ((∃ r, (MagazineShelf.borrowPublication pubs s id).2 = Except.ok r) ↔
        ∃ q ∈ s.magazines.entries, Borrowable pubs id q) ∧
      (∀ pre r post, s.magazines.entries = pre ++ r :: post →
        (∀ q ∈ pre, ¬ Borrowable pubs id q) → Borrowable pubs id r →
        ∃ o, pubs[r]? = some o ∧
          MagazineShelf.borrowPublication pubs s id
            = ((pubs.set r o.decAvailable, s), Except.ok r) ∧
          o.decAvailable.base =
            { o.base with availableCopies := o.base.availableCopies - 1 } ∧
          ∀ q : Ref, q ≠ r → (pubs.set r o.decAvailable)[q]? = pubs[q]?) ∧
      ((∀ q ∈ s.magazines.entries, ¬ Borrowable pubs id q) →
        MagazineShelf.borrowPublication pubs s id
          = ((pubs, s), Except.error Error.notFoundOrUnavailable))) := by
  refine ⟨fun s => ⟨?_, ?_, ?_⟩, fun s => ⟨?_, ?_, ?_⟩⟩
  · rw [← scanGroups_borrowable_isSome_iff]
    unfold BookShelf.borrowPublication
    cases scanGroups pubs (borrowable id) s.books <;> simp
  · intro pre r post hm hpre hr
    obtain ⟨o, ho, hmod, hbase, hrest⟩ := borrow_store pubs r (by
      obtain ⟨o, ho, _⟩ := hr
      exact ⟨o, ho⟩)
    refine ⟨o, ho, ?_, hbase, hrest⟩
    unfold BookShelf.borrowPublication
    rw [scanGroups_borrowable_first pubs id s.books pre post r hm hpre hr]
    simp only [hmod]
  · intro hnone
    unfold BookShelf.borrowPublication
    rw [scanGroups_borrowable_none pubs id s.books hnone]
  · rw [← scanGroups_borrowable_isSome_iff]
    unfold MagazineShelf.borrowPublication
    cases scanGroups pubs (borrowable id) s.magazines <;> simp
  · intro pre r post hm hpre hr
    obtain ⟨o, ho, hmod, hbase, hrest⟩ := borrow_store pubs r (by
      obtain ⟨o, ho, _⟩ := hr
      exact ⟨o, ho⟩)
    refine ⟨o, ho, ?_, hbase, hrest⟩
    unfold MagazineShelf.borrowPublication
    rw [scanGroups_borrowable_first pubs id s.magazines pre post r hm hpre hr]
    simp only [hmod]
  · intro hnone
    unfold MagazineShelf.borrowPublication
    rw [scanGroups_borrowable_none pubs id s.magazines hnone]

end ShelfBorrow

/-! ## The grouping index -/

section GroupMapLemmas

theorem GroupMap.lookup_eq_nil_of_not_mem (key : String) (m : GroupMap)
    (h : key ∉ m.keys) : GroupMap.lookup key m = [] := by
  induction m with
  | nil => rfl
  | cons g gs ih =>
    obtain ⟨k, v⟩ := g
    simp only [GroupMap.keys, List.map_cons, List.mem_cons, not_or] at h
    unfold GroupMap.lookup
    rw [if_neg h.1]
    exact ih h.2

theorem GroupMap.not_mem_keys_of_lt (key : String) (m : GroupMap)
    (h : ∀ k ∈ m.keys, key < k) : key ∉ m.keys := by
  intro hmem
  exact lt_irrefl key (h key hmem)

theorem GroupMap.lookup_update_other (key k : String) (f : List Ref → List Ref)
    (m : GroupMap) (hk : k ≠ key) :
    GroupMap.lookup k (GroupMap.update key f m) = GroupMap.lookup k m := by
  induction m with
  | nil => simp [GroupMap.update, GroupMap.lookup, hk]
  | cons g gs ih =>
    obtain ⟨k', v⟩ := g
    unfold GroupMap.update
    by_cases h1 : key = k'
    · subst h1
      simp [GroupMap.lookup, hk]
    · rw [if_neg h1]
      by_cases h2 : key < k'
      · rw [if_pos h2]
        conv => lhs; unfold GroupMap.lookup
        rw [if_neg hk]
      · rw [if_neg h2]
        unfold GroupMap.lookup
        by_cases h3 : k = k'
        · simp [h3]
        · simp [h3, ih]

theorem GroupMap.lookup_update_self (key : String) (f : List Ref → List Ref) (m : GroupMap)
    (hwf : m.WF) :
    GroupMap.lookup key (GroupMap.update key f m) = f (GroupMap.lookup key m) := by
  induction m with
  | nil => simp [GroupMap.update, GroupMap.lookup]
  | cons g gs ih =>
    obtain ⟨k', v⟩ := g
    have hwf' : GroupMap.WF gs := by
      unfold GroupMap.WF GroupMap.keys at hwf ⊢
      simp only [List.map_cons, List.pairwise_cons] at hwf
      exact hwf.2
    have hall : ∀ k ∈ GroupMap.keys gs, k' < k := by
      unfold GroupMap.WF GroupMap.keys at hwf
      simp only [List.map_cons, List.pairwise_cons] at hwf
      exact hwf.1
    unfold GroupMap.update
    by_cases h1 : key = k'
    · subst h1
      simp [GroupMap.lookup]
    · rw [if_neg h1]
      by_cases h2 : key < k'
      · rw [if_pos h2]
        have hnot : key ∉ GroupMap.keys gs :=
          GroupMap.not_mem_keys_of_lt key gs (fun k hk => lt_trans h2 (hall k hk))
        simp [GroupMap.lookup, h1, GroupMap.lookup_eq_nil_of_not_mem key gs hnot]
      · rw [if_neg h2]
        simp [GroupMap.lookup, h1, ih hwf']

theorem GroupMap.mem_keys_update (key k : String) (f : List Ref → List Ref) (m : GroupMap) :
    k ∈ (GroupMap.update key f m).keys ↔ k = key ∨ k ∈ m.keys := by
  induction m with
  | nil => simp [GroupMap.update, GroupMap.keys]
  | cons g gs ih =>
    obtain ⟨k', v⟩ := g
    unfold GroupMap.update
    by_cases h1 : key = k'
    · subst h1
      simp [GroupMap.keys]
    · rw [if_neg h1]
      by_cases h2 : key < k'
      · rw [if_pos h2]
        simp [GroupMap.keys]
      · rw [if_neg h2]
        have ih' : k ∈ List.map Prod.fst (GroupMap.update key f gs) ↔
            k = key ∨ k ∈ List.map Prod.fst gs := ih
        simp only [GroupMap.keys, List.map_cons, List.mem_cons, ih']
        tauto

theorem GroupMap.update_WF (key : String) (f : List Ref → List Ref) (m : GroupMap)
    (hwf : m.WF) : (GroupMap.update key f m).WF := by
  induction m with
  | nil => simp [GroupMap.update, GroupMap.WF, GroupMap.keys]
  | cons g gs ih =>
    obtain ⟨k', v⟩ := g
    have hwf' : GroupMap.WF gs := by
      unfold GroupMap.WF GroupMap.keys at hwf ⊢
      simp only [List.map_cons, List.pairwise_cons] at hwf
      exact hwf.2
    have hall : ∀ k ∈ GroupMap.keys gs, k' < k := by
      unfold GroupMap.WF GroupMap.keys at hwf
      simp only [List.map_cons, List.pairwise_cons] at hwf
      exact hwf.1
    unfold GroupMap.update
    by_cases h1 : key = k'
    · subst h1
      simpa [GroupMap.WF, GroupMap.keys] using hwf
    · rw [if_neg h1]
      by_cases h2 : key < k'
      · rw [if_pos h2]
        unfold GroupMap.WF GroupMap.keys
        simp only [List.map_cons, List.pairwise_cons, List.mem_cons, forall_eq_or_imp]
        refine ⟨⟨h2, fun k hk => lt_trans h2 (hall k hk)⟩, hall, hwf'⟩
      · rw [if_neg h2]
        have hlt : k' < key := by
          rcases lt_trichotomy key k' with h | h | h
          · exact absurd h h2
          · exact absurd h h1
          · exact h
        have ihwf := ih hwf'
        unfold GroupMap.WF GroupMap.keys at ihwf ⊢
        simp only [List.map_cons, List.pairwise_cons]
        refine ⟨?_, ihwf⟩
        intro k hk
        rcases (GroupMap.mem_keys_update key k f gs).mp hk with rfl | hk
        · exact hlt
        · exact hall k hk

/-- The access `m[key]` that does not change the group leaves all entries where
    they are; at most an empty group is added. -/
theorem GroupMap.entries_update_id (key : String) (m : GroupMap) :
    (GroupMap.update key (fun l => l) m).entries = m.entries := by
  induction m with
  | nil => simp [GroupMap.update, GroupMap.entries]
  | cons g gs ih =>
    obtain ⟨k', v⟩ := g
    unfold GroupMap.update
    by_cases h1 : key = k'
    · simp [h1]
    · rw [if_neg h1]
      by_cases h2 : key < k'
      · rw [if_pos h2]
        simp [GroupMap.entries]
      · rw [if_neg h2]
        have ih' : (List.map Prod.snd (GroupMap.update key (fun l => l) gs)).flatten
            = (List.map Prod.snd gs).flatten := ih
        simp [GroupMap.entries, ih']

theorem GroupMap.update_id_of_mem (key : String) (m : GroupMap) (hwf : m.WF)
    (hmem : key ∈ m.keys) : GroupMap.update key (fun l => l) m = m := by
  induction m with
  | nil => simp [GroupMap.keys] at hmem
  | cons g gs ih =>
    obtain ⟨k', v⟩ := g
    have hwf' : GroupMap.WF gs := by
      unfold GroupMap.WF GroupMap.keys at hwf ⊢
      simp only [List.map_cons, List.pairwise_cons] at hwf
      exact hwf.2
    have hall : ∀ k ∈ GroupMap.keys gs, k' < k := by
      unfold GroupMap.WF GroupMap.keys at hwf
      simp only [List.map_cons, List.pairwise_cons] at hwf
      exact hwf.1
    unfold GroupMap.update
    by_cases h1 : key = k'
    · simp [h1]
    · rw [if_neg h1]
      have hmem' : key ∈ GroupMap.keys gs := by
        simp only [GroupMap.keys, List.map_cons, List.mem_cons] at hmem
        rcases hmem with h | h
        · exact absurd h h1
        · exact h
      have h2 : ¬ key < k' := fun h => lt_asymm h (hall key hmem')
      rw [if_neg h2, ih hwf' hmem']

theorem GroupMap.lookup_subset_entries (key : String) (m : GroupMap) :
    ∀ r ∈ GroupMap.lookup key m, r ∈ m.entries := by
  induction m with
  | nil => intro r hr; simp [GroupMap.lookup] at hr
  | cons g gs ih =>
    obtain ⟨k', v⟩ := g
    intro r hr
    unfold GroupMap.lookup at hr
    have hent : GroupMap.entries ((k', v) :: gs) = v ++ GroupMap.entries gs := by
      simp [GroupMap.entries]
    rw [hent]
    by_cases h1 : key = k'
    · rw [if_pos h1] at hr
      exact List.mem_append_left _ hr
    · rw [if_neg h1] at hr
      exact List.mem_append_right _ (ih r hr)

theorem GroupMap.mem_keys_of_lookup_ne_nil (key : String) (m : GroupMap)
    (h : GroupMap.lookup key m ≠ []) : key ∈ m.keys := by
  by_contra hnot
  exact h (GroupMap.lookup_eq_nil_of_not_mem key m hnot)

end GroupMapLemmas

/-! ## Returning to a shelf -/

section ShelfReturn

theorem PubObj.base_incAvailable (o : PubObj) :
    o.incAvailable.base = { o.base with availableCopies := o.base.availableCopies + 1 } := by
  simp [PubObj.incAvailable]

theorem deref_of_idOf (pubs : Pubs) (r : Ref) (id : Int) (h : idOf pubs r = some id) :
    ∃ o, pubs[r]? = some o ∧ o.base.id = id := by
  unfold idOf at h
  cases hobj : pubs[r]? with
  | none => simp [hobj] at h
  | some o => exact ⟨o, rfl, by simpa [hobj] using h⟩

theorem scanGroup_id_isSome_iff (pubs : Pubs) (id : Int) (l : List Ref) :
    (∃ r, scanGroup pubs (fun o => o.base.id == id) l = some r) ↔
      ∃ q ∈ l, idOf pubs q = some id := by
  constructor
  · rintro ⟨r, hr⟩
    rw [scanGroup_eq_find] at hr
    exact ⟨r, List.mem_of_find?_eq_some hr, (holds_id_iff pubs id r).mp (List.find?_some hr)⟩
  · rintro ⟨q, hq, hid⟩
    obtain ⟨pre, x, post, hl, hpre, hx⟩ :=
      exists_first (holds pubs (fun o => o.base.id == id)) l
        ⟨q, hq, (holds_id_iff pubs id q).mpr hid⟩
    refine ⟨x, ?_⟩
    rw [scanGroup_eq_find, hl]
    exact find?_first _ _ _ _ hpre hx

theorem scanGroups_id_isSome_iff (pubs : Pubs) (id : Int) (m : GroupMap) :
    (∃ r, scanGroups pubs (fun o => o.base.id == id) m = some r) ↔
      ∃ q ∈ m.entries, idOf pubs q = some id := by
  constructor
  · rintro ⟨r, hr⟩
    rw [scanGroups_eq_find] at hr
    exact ⟨r, List.mem_of_find?_eq_some hr, (holds_id_iff pubs id r).mp (List.find?_some hr)⟩
  · rintro ⟨q, hq, hid⟩
    obtain ⟨pre, x, post, hl, hpre, hx⟩ :=
      exists_first (holds pubs (fun o => o.base.id == id)) m.entries
        ⟨q, hq, (holds_id_iff pubs id q).mpr hid⟩
    refine ⟨x, ?_⟩
    rw [scanGroups_eq_find, hl]
    exact find?_first _ _ _ _ hpre hx

/-- The book shelf searches its whole index for the id of the returned book. -/
theorem BookShelf.returnPublication_book (pubs : Pubs) (s : BookShelf) (p : Ref) (b : Book)
    (hp : pubs[p]? = some (PubObj.book b)) :
    ((BookShelf.returnPublication pubs s p).error = none ↔
      ∃ q ∈ s.books.entries, idOf pubs q = some b.id) ∧
    (∀ pre r post, s.books.entries = pre ++ r :: post →
      (∀ q ∈ pre, idOf pubs q ≠ some b.id) → idOf pubs r = some b.id →
      ∃ o, pubs[r]? = some o ∧
        BookShelf.returnPublication pubs s p = ⟨(pubs.set r o.incAvailable, s), none⟩ ∧
        o.incAvailable.base =
          { o.base with availableCopies := o.base.availableCopies + 1 }) ∧
    ((∀ q ∈ s.books.entries, idOf pubs q ≠ some b.id) →
      BookShelf.returnPublication pubs s p = ⟨(pubs, s), some Error.notFound⟩) := by
  refine ⟨?_, ?_, ?_⟩
  · rw [← scanGroups_id_isSome_iff]
    unfold BookShelf.returnPublication
    simp only [hp]
    cases scanGroups pubs (fun o => o.base.id == b.id) s.books <;> simp
  · intro pre r post hm hpre hr
    obtain ⟨o, ho, _⟩ := deref_of_idOf pubs r b.id hr
    refine ⟨o, ho, ?_, PubObj.base_incAvailable o⟩
    unfold BookShelf.returnPublication
    simp only [hp]
    rw [scanGroups_first pubs b.id s.books pre post r hm hpre hr]
    simp only [modify_eq_set_of_getElem? _ pubs r o ho]
  · intro hnone
    unfold BookShelf.returnPublication
    simp only [hp]
    rw [scanGroups_none pubs b.id s.books hnone]

/-- The magazine shelf searches only the group filed under the title of the
    returned magazine. -/
theorem MagazineShelf.returnPublication_magazine (pubs : Pubs) (s : MagazineShelf) (p : Ref)
    (m : Magazine) (hp : pubs[p]? = some (PubObj.magazine m)) (hwf : s.magazines.WF) :
    ((MagazineShelf.returnPublication pubs s p).error = none ↔
      ∃ q ∈ GroupMap.lookup m.title s.magazines, idOf pubs q = some m.id) ∧
    (∀ pre r post, GroupMap.lookup m.title s.magazines = pre ++ r :: post →
      (∀ q ∈ pre, idOf pubs q ≠ some m.id) → idOf pubs r = some m.id →
      ∃ o, pubs[r]? = some o ∧
        MagazineShelf.returnPublication pubs s p = ⟨(pubs.set r o.incAvailable, s), none⟩ ∧
        o.incAvailable.base =
          { o.base with availableCopies := o.base.availableCopies + 1 }) ∧
    ((∀ q ∈ GroupMap.lookup m.title s.magazines, idOf pubs q ≠ some m.id) →
      (MagazineShelf.returnPublication pubs s p).error = some Error.notFound ∧
      (MagazineShelf.returnPublication pubs s p).state.1 = pubs ∧
      (MagazineShelf.returnPublication pubs s p).state.2.magazines.entries
        = s.magazines.entries) := by
  have hlook : GroupMap.lookup m.title
      (GroupMap.update m.title (fun titleMagazines => titleMagazines) s.magazines)
      = GroupMap.lookup m.title s.magazines :=
    GroupMap.lookup_update_self m.title (fun l => l) s.magazines hwf
  refine ⟨?_, ?_, ?_⟩
  · rw [← scanGroup_id_isSome_iff]
    unfold MagazineShelf.returnPublication
    simp only [hp, hlook]
    cases scanGroup pubs (fun o => o.base.id == m.id) (GroupMap.lookup m.title s.magazines)
      <;> simp
  · intro pre r post hm hpre hr
    obtain ⟨o, ho, _⟩ := deref_of_idOf pubs r m.id hr
    refine ⟨o, ho, ?_, PubObj.base_incAvailable o⟩
    have hkey : m.title ∈ s.magazines.keys := by
      apply GroupMap.mem_keys_of_lookup_ne_nil
      rw [hm]
      simp
    have hsame : GroupMap.update m.title (fun titleMagazines => titleMagazines) s.magazines
        = s.magazines := GroupMap.update_id_of_mem m.title s.magazines hwf hkey
    unfold MagazineShelf.returnPublication
    simp only [hp, hsame, hm]
    rw [scanGroup_append_first pubs m.id pre post r hpre hr]
    simp only [modify_eq_set_of_getElem? _ pubs r o ho]
  · intro hnone
    unfold MagazineShelf.returnPublication
    simp only [hp, hlook]
    rw [scanGroup_none pubs m.id _ hnone]
    exact ⟨rfl, rfl, GroupMap.entries_update_id m.title s.magazines⟩

/-- C12 (as stated, false on the magazine shelf).  The shelf holds an entry with
    id 1, filed under "Time"; returning a magazine with id 1 and the title "Times"
    fails with NotFound. -/
theorem returnPublication_magazine_other_title :
    (∃ q ∈ exampleMagazineShelf.magazines.entries,
      idOf exampleMagazines q = idOf exampleMagazines 1) ∧
    exampleMagazines[1]? = some (PubObj.magazine ⟨⟨1, "Times", 2021, 1, 1⟩, 1⟩) ∧
    (MagazineShelf.returnPublication exampleMagazines exampleMagazineShelf 1).error
      = some Error.notFound := by
  have hlt : ¬ ("Times" < "Time") := by
    rw [String.lt_iff_toList_lt]
    decide
  refine ⟨⟨0, by decide, by decide⟩, by decide, ?_⟩
  simp [MagazineShelf.returnPublication, exampleMagazines, exampleMagazineShelf,
    GroupMap.update, GroupMap.lookup, scanGroup, hlt]

/-- C12 (amended).  On a `BookShelf`, `returnPublication(p)` of a book succeeds if
    and only if some entry of the index has the id of `p`, whatever the title or
    author of `p`, and it then gives one copy back to the first such entry; it
    fails with NotFound otherwise.  On a `MagazineShelf`, `returnPublication(p)` of
    a magazine succeeds if and only if the group filed under the title of `p` has
    an entry with the id of `p`, and it then gives one copy back to the first such
    entry of that group, leaving the shelf as it was; it fails with NotFound
    otherwise, leaving every publication object and the entries as they were. -/
theorem returnPublication_spec (pubs : Pubs) (p : Ref) :
    (∀ (s : BookShelf) (b : Book), pubs[p]? = some (PubObj.book b) →
      ((BookShelf.returnPublication pubs s p).error = none ↔
        ∃ q ∈ s.books.entries, idOf pubs q = some b.id) ∧
      (∀ pre r post, s.books.entries = pre ++ r :: post →
        (∀ q ∈ pre, idOf pubs q ≠ some b.id) → idOf pubs r = some b.id →
        ∃ o, pubs[r]? = some o ∧
          BookShelf.returnPublication pubs s p = ⟨(pubs.set r o.incAvailable, s), none⟩ ∧
          o.incAvailable.base =
            { o.base with availableCopies := o.base.availableCopies + 1 }) ∧
      ((∀ q ∈ s.books.entries, idOf pubs q ≠ some b.id) →
        BookShelf.returnPublication pubs s p = ⟨(pubs, s), some Error.notFound⟩)) ∧
    (∀ (s : MagazineShelf) (m : Magazine), pubs[p]? = some (PubObj.magazine m) →
      s.magazines.WF →
      ((MagazineShelf.returnPublication pubs s p).error = none ↔
        ∃ q ∈ GroupMap.lookup m.title s.magazines, idOf pubs q = some m.id) ∧
      (∀ pre r post, GroupMap.lookup m.title s.magazines = pre ++ r :: post →
        (∀ q ∈ pre, idOf pubs q ≠ some m.id) → idOf pubs r = some m.id →
        ∃ o, pubs[r]? = some o ∧
          MagazineShelf.returnPublication pubs s p
            = ⟨(pubs.set r o.incAvailable, s), none⟩ ∧
          o.incAvailable.base =
            { o.base with availableCopies := o.base.availableCopies + 1 }) ∧
      ((∀ q ∈ GroupMap.lookup m.title s.magazines, idOf pubs q ≠ some m.id) →
        (MagazineShelf.returnPublication pubs s p).error = some Error.notFound ∧
        (MagazineShelf.returnPublication pubs s p).state.1 = pubs ∧
        (MagazineShelf.returnPublication pubs s p).state.2.magazines.entries
          = s.magazines.entries)) :=
  ⟨fun s b hp => BookShelf.returnPublication_book pubs s p b hp,
    fun s m hp hwf => MagazineShelf.returnPublication_magazine pubs s p m hp hwf⟩

end ShelfReturn

/-! ## Adding to a shelf keeps the groups sorted -/

section ShelfAdd

theorem magazineBefore_false_iff (pubs : Pubs) (a b : Ref) :
    magazineBefore pubs b a = false ↔
      (magazineKey pubs a).1 < (magazineKey pubs b).1 ∨
      ((magazineKey pubs a).1 = (magazineKey pubs b).1 ∧
        (magazineKey pubs a).2 ≤ (magazineKey pubs b).2) := by
  unfold magazineBefore
  simp only [Bool.or_eq_false_iff, Bool.and_eq_false_iff, decide_eq_false_iff_not,
    Bool.not_eq_false', decide_eq_true_eq, not_lt]
  omega

/-- Merge sort meets the guarantee of `std::sort` for the magazine comparator. -/
theorem mergeSortBy_sortsBy (pubs : Pubs) : SortsBy mergeSortBy (magazineBefore pubs) := by
  intro l
  refine ⟨List.mergeSort_perm l _, ?_⟩
  have hsorted := @List.sorted_mergeSort Ref (fun a b => !magazineBefore pubs b a)
    (by
      intro a b c hab hbc
      simp only [Bool.not_eq_true', magazineBefore_false_iff] at hab hbc ⊢
      omega)
    (by
      intro a b
      simp only [Bool.or_eq_true, Bool.not_eq_true', magazineBefore_false_iff]
      omega) l
  simpa [mergeSortBy] using hsorted

theorem byTitle_sorted (pubs : Pubs) (l : List Ref) :
    (l.mergeSort (fun a b => !decide (titleStr pubs b < titleStr pubs a))).Pairwise
      (fun x y => titleStr pubs x ≤ titleStr pubs y) := by
  have hsorted := @List.sorted_mergeSort Ref
    (fun a b => !decide (titleStr pubs b < titleStr pubs a))
    (by
      intro a b c hab hbc
      simp only [Bool.not_eq_true', decide_eq_false_iff_not, not_lt] at hab hbc ⊢
      exact le_trans hab hbc)
    (by
      intro a b
      simp only [Bool.or_eq_true, Bool.not_eq_true', decide_eq_false_iff_not, not_lt]
      exact le_total _ _) l
  simpa using hsorted

/-- C13. Adding a book to a `BookShelf` succeeds, keeps the index a map (keys
    strictly increasing), makes the group filed under the author's full name a
    rearrangement of its previous contents plus the book, sorted in non-decreasing
    order of title, and leaves every other group as it was.  Adding a magazine to a
    `MagazineShelf` does the same with the group filed under the title, sorted in
    non-decreasing lexicographic order of `(yearOfPublication, issueNumber)`, for
    every implementation of `std::sort` that meets the guarantee of the standard. -/
theorem addPublication_sorted (pubs : Pubs) (p : Ref) :
    (∀ (s : BookShelf) (b : Book), pubs[p]? = some (PubObj.book b) → s.books.WF →
      (BookShelf.addPublication pubs s p).error = none ∧
      (BookShelf.addPublication pubs s p).state.books.WF ∧
      (GroupMap.lookup b.author.getFullName (BookShelf.addPublication pubs s p).state.books).Perm
        (GroupMap.lookup b.author.getFullName s.books ++ [p]) ∧
      (GroupMap.lookup b.author.getFullName
        (BookShelf.addPublication pubs s p).state.books).Pairwise
          (fun x y => titleStr pubs x ≤ titleStr pubs y) ∧
      (∀ k, k ≠ b.author.getFullName →
        GroupMap.lookup k (BookShelf.addPublication pubs s p).state.books
          = GroupMap.lookup k s.books) ∧
      (∀ k, k ∈ (BookShelf.addPublication pubs s p).state.books.keys ↔
        k = b.author.getFullName ∨ k ∈ s.books.keys)) ∧
    (∀ (stdSort : SortAlgorithm) (s : MagazineShelf) (m : Magazine),
      pubs[p]? = some (PubObj.magazine m) → s.magazines.WF →
      SortsBy stdSort (magazineBefore pubs) →
      (MagazineShelf.addPublication stdSort pubs s p).error = none ∧
      (MagazineShelf.addPublication stdSort pubs s p).state.magazines.WF ∧
      (GroupMap.lookup m.title (MagazineShelf.addPublication stdSort pubs s p).state.magazines).Perm
        (GroupMap.lookup m.title s.magazines ++ [p]) ∧
      (GroupMap.lookup m.title
        (MagazineShelf.addPublication stdSort pubs s p).state.magazines).Pairwise
          (fun x y => (magazineKey pubs x).1 < (magazineKey pubs y).1 ∨
            ((magazineKey pubs x).1 = (magazineKey pubs y).1 ∧
              (magazineKey pubs x).2 ≤ (magazineKey pubs y).2)) ∧
      (∀ k, k ≠ m.title →
        GroupMap.lookup k (MagazineShelf.addPublication stdSort pubs s p).state.magazines
          = GroupMap.lookup k s.magazines) ∧
      (∀ k, k ∈ (MagazineShelf.addPublication stdSort pubs s p).state.magazines.keys ↔
        k = m.title ∨ k ∈ s.magazines.keys)) := by
  constructor
  · intro s b hp hwf
    have herr : (BookShelf.addPublication pubs s p).error = none := by
      unfold BookShelf.addPublication
      simp only [hp]
    have hbooks : (BookShelf.addPublication pubs s p).state.books =
        GroupMap.update (Author.getFullName b.author)
          (fun authorBooks => (authorBooks ++ [p]).mergeSort
            (fun x y => !decide (titleStr pubs y < titleStr pubs x))) s.books := by
      unfold BookShelf.addPublication
      simp only [hp]
    rw [hbooks]
    refine ⟨herr, GroupMap.update_WF _ _ _ hwf, ?_, ?_, ?_, ?_⟩
    · simp only [GroupMap.lookup_update_self _ _ _ hwf]
      exact List.mergeSort_perm _ _
    · simp only [GroupMap.lookup_update_self _ _ _ hwf]
      exact byTitle_sorted pubs _
    · intro k hk
      exact GroupMap.lookup_update_other _ k _ _ hk
    · intro k
      exact GroupMap.mem_keys_update _ k _ _
  · intro stdSort s m hp hwf hsort
    have herr : (MagazineShelf.addPublication stdSort pubs s p).error = none := by
      unfold MagazineShelf.addPublication
      simp only [hp]
    have hmags : (MagazineShelf.addPublication stdSort pubs s p).state.magazines =
        GroupMap.update m.title
          (fun titleMagazines => stdSort (magazineBefore pubs) (titleMagazines ++ [p]))
          s.magazines := by
      unfold MagazineShelf.addPublication
      simp only [hp]
    rw [hmags]
    refine ⟨herr, GroupMap.update_WF _ _ _ hwf, ?_, ?_, ?_, ?_⟩
    · simp only [GroupMap.lookup_update_self _ _ _ hwf]
      exact (hsort _).1
    · simp only [GroupMap.lookup_update_self _ _ _ hwf]
      refine List.Pairwise.imp ?_ (hsort _).2
      intro x y hxy
      exact (magazineBefore_false_iff pubs x y).mp hxy
    · intro k hk
      exact GroupMap.lookup_update_other _ k _ _ hk
    · intro k
      exact GroupMap.mem_keys_update _ k _ _

end ShelfAdd

/-! ## The type guard of the shelves -/

section TypeGuard

/-- C14. `BookShelf::addPublication` and `BookShelf::returnPublication` fail with
    TypeMismatch if and only if the publication is not a `Book`;
    `MagazineShelf::addPublication` and `MagazineShelf::returnPublication` fail
    with TypeMismatch if and only if it is not a `Magazine`; a TypeMismatch failure
    leaves the shelf, and every publication object, as it was. -/
theorem typeGuard_spec (pubs : Pubs) (p : Ref) :
    (∀ s : BookShelf,
      ((BookShelf.addPublication pubs s p).error = some Error.typeMismatch ↔
        ∀ b, pubs[p]? ≠ some (PubObj.book b)) ∧
      ((BookShelf.returnPublication pubs s p).error = some Error.typeMismatch ↔
        ∀ b, pubs[p]? ≠ some (PubObj.book b)) ∧
      ((BookShelf.addPublication pubs s p).error = some Error.typeMismatch →
        (BookShelf.addPublication pubs s p).state = s) ∧
      ((BookShelf.returnPublication pubs s p).error = some Error.typeMismatch →
        (BookShelf.returnPublication pubs s p).state = (pubs, s))) ∧
    (∀ (stdSort : SortAlgorithm) (s : MagazineShelf),
      ((MagazineShelf.addPublication stdSort pubs s p).error = some Error.typeMismatch ↔
        ∀ m, pubs[p]? ≠ some (PubObj.magazine m)) ∧
      ((MagazineShelf.returnPublication pubs s p).error = some Error.typeMismatch ↔
        ∀ m, pubs[p]? ≠ some (PubObj.magazine m)) ∧
      ((MagazineShelf.addPublication stdSort pubs s p).error = some Error.typeMismatch →
        (MagazineShelf.addPublication stdSort pubs s p).state = s) ∧
      ((MagazineShelf.returnPublication pubs s p).error = some Error.typeMismatch →
        (MagazineShelf.returnPublication pubs s p).state = (pubs, s))) := by
  constructor
  · intro s
    unfold BookShelf.addPublication BookShelf.returnPublication
    cases hobj : pubs[p]? with
    | none => simp
    | some o =>
      cases o with
      | publication q => simp
      | magazine m => simp
      | book b =>
        simp only [Option.some.injEq, PubObj.book.injEq, ne_eq, forall_eq', not_true_eq_false,
          iff_false, reduceCtorEq, not_false_eq_true, false_implies, true_and]
        cases scanGroups pubs (fun o => o.base.id == b.id) s.books <;> simp
  · intro stdSort s
    unfold MagazineShelf.addPublication MagazineShelf.returnPublication
    cases hobj : pubs[p]? with
    | none => simp
    | some o =>
      cases o with
      | publication q => simp
      | book b => simp
      | magazine m =>
        simp only [Option.some.injEq, PubObj.magazine.injEq, ne_eq, forall_eq',
          not_true_eq_false, iff_false, reduceCtorEq, not_false_eq_true, false_implies,
          true_and]
        cases scanGroup pubs (fun o => o.base.id == m.id)
          (GroupMap.lookup m.title
            (GroupMap.update m.title (fun titleMagazines => titleMagazines) s.magazines))
          <;> simp

end TypeGuard

/-! ## Removing from a shelf -/

section ShelfRemove

theorem GroupMap.keys_removeId (pubs : Pubs) (id : Int) (m : GroupMap) :
    (GroupMap.removeId pubs id m).keys = m.keys := by
  simp [GroupMap.removeId, GroupMap.keys, List.map_map, Function.comp_def]

theorem GroupMap.lookup_removeId (pubs : Pubs) (id : Int) (k : String) (m : GroupMap) :
    GroupMap.lookup k (GroupMap.removeId pubs id m)
      = (GroupMap.lookup k m).filter (fun r => !(idOf pubs r == some id)) := by
  induction m with
  | nil => simp [GroupMap.removeId, GroupMap.lookup]
  | cons g gs ih =>
    obtain ⟨k', v⟩ := g
    have hcons : GroupMap.removeId pubs id ((k', v) :: gs)
        = (k', v.filter (fun r => !(idOf pubs r == some id))) :: GroupMap.removeId pubs id gs := by
      simp [GroupMap.removeId]
    rw [hcons]
    unfold GroupMap.lookup
    by_cases h : k = k'
    · simp [h]
    · simp [h, ih]

theorem GroupMap.entries_removeId (pubs : Pubs) (id : Int) (m : GroupMap) :
    (GroupMap.removeId pubs id m).entries
      = m.entries.filter (fun r => !(idOf pubs r == some id)) := by
  induction m with
  | nil => simp [GroupMap.removeId, GroupMap.entries]
  | cons g gs ih =>
    obtain ⟨k', v⟩ := g
    have hcons : GroupMap.removeId pubs id ((k', v) :: gs)
        = (k', v.filter (fun r => !(idOf pubs r == some id))) :: GroupMap.removeId pubs id gs := by
      simp [GroupMap.removeId]
    have hent : ∀ (x : String × List Ref) (xs : GroupMap),
        GroupMap.entries (x :: xs) = x.2 ++ GroupMap.entries xs := by
      intro x xs
      simp [GroupMap.entries]
    rw [hcons, hent, hent, ih, List.filter_append]

theorem GroupMap.removeId_eq_self (pubs : Pubs) (id : Int) (m : GroupMap)
    (h : ∀ r ∈ m.entries, idOf pubs r ≠ some id) : GroupMap.removeId pubs id m = m := by
  induction m with
  | nil => rfl
  | cons g gs ih =>
    obtain ⟨k', v⟩ := g
    have hent : GroupMap.entries ((k', v) :: gs) = v ++ GroupMap.entries gs := by
      simp [GroupMap.entries]
    rw [hent] at h
    have hv : v.filter (fun r => !(idOf pubs r == some id)) = v := by
      rw [List.filter_eq_self]
      intro r hr
      simpa using h r (List.mem_append_left _ hr)
    have hgs := ih (fun r hr => h r (List.mem_append_right _ hr))
    have hcons : GroupMap.removeId pubs id ((k', v) :: gs)
        = (k', v.filter (fun r => !(idOf pubs r == some id))) :: GroupMap.removeId pubs id gs := by
      simp [GroupMap.removeId]
    rw [hcons, hv, hgs]

theorem GroupMap.removeId_no_id (pubs : Pubs) (id : Int) (m : GroupMap) :
    ∀ r ∈ (GroupMap.removeId pubs id m).entries, idOf pubs r ≠ some id := by
  intro r hr
  rw [GroupMap.entries_removeId] at hr
  have := (List.mem_filter.mp hr).2
  simpa using this

theorem not_borrowable_of_id_ne (pubs : Pubs) (id : Int) (r : Ref)
    (h : idOf pubs r ≠ some id) : ¬ Borrowable pubs id r := by
  rintro ⟨o, ho, hid, _⟩
  apply h
  simp [idOf, ho, hid]

/-- C15. On a `BookShelf` and on a `MagazineShelf` alike, `removePublication(id)`
    never fails and keeps the keys; afterwards no entry has the id; every group
    is its former self without the entries with the id, the others in the same
    relative order, so that a sorted group stays sorted; when no entry had the id
    the shelf is as before; and a `borrowPublication(id)` that follows fails with
    NotFoundOrUnavailable. -/
theorem removePublication_spec (pubs : Pubs) (id : Int) :
    (∀ s : BookShelf,
      (BookShelf.removePublication pubs s id).error = none ∧
      (BookShelf.removePublication pubs s id).state.books.keys = s.books.keys ∧
      (∀ r ∈ (BookShelf.removePublication pubs s id).state.books.entries,
        idOf pubs r ≠ some id) ∧
      (∀ k, GroupMap.lookup k (BookShelf.removePublication pubs s id).state.books
        = (GroupMap.lookup k s.books).filter (fun r => !(idOf pubs r == some id))) ∧
      (∀ k (R : Ref → Ref → Prop), (GroupMap.lookup k s.books).Pairwise R →
        (GroupMap.lookup k (BookShelf.removePublication pubs s id).state.books).Pairwise R) ∧
      ((∀ r ∈ s.books.entries, idOf pubs r ≠ some id) →
        (BookShelf.removePublication pubs s id).state = s) ∧
      BookShelf.borrowPublication pubs (BookShelf.removePublication pubs s id).state id
        = ((pubs, (BookShelf.removePublication pubs s id).state),
            Except.error Error.notFoundOrUnavailable)) ∧
    (∀ s : MagazineShelf,
      (MagazineShelf.removePublication pubs s id).error = none ∧
      (MagazineShelf.removePublication pubs s id).state.magazines.keys = s.magazines.keys ∧
      (∀ r ∈ (MagazineShelf.removePublication pubs s id).state.magazines.entries,
        idOf pubs r ≠ some id) ∧
      (∀ k, GroupMap.lookup k (MagazineShelf.removePublication pubs s id).state.magazines
        = (GroupMap.lookup k s.magazines).filter (fun r => !(idOf pubs r == some id))) ∧
      (∀ k (R : Ref → Ref → Prop), (GroupMap.lookup k s.magazines).Pairwise R →
        (GroupMap.lookup k
          (MagazineShelf.removePublication pubs s id).state.magazines).Pairwise R) ∧
      ((∀ r ∈ s.magazines.entries, idOf pubs r ≠ some id) →
        (MagazineShelf.removePublication pubs s id).state = s) ∧
      MagazineShelf.borrowPublication pubs (MagazineShelf.removePublication pubs s id).state id
        = ((pubs, (MagazineShelf.removePublication pubs s id).state),
            Except.error Error.notFoundOrUnavailable)) := by
  constructor
  · intro s
    refine ⟨rfl, GroupMap.keys_removeId pubs id s.books, GroupMap.removeId_no_id pubs id s.books,
      fun k => GroupMap.lookup_removeId pubs id k s.books, ?_, ?_, ?_⟩
    · intro k R hR
      show (GroupMap.lookup k (GroupMap.removeId pubs id s.books)).Pairwise R
      rw [GroupMap.lookup_removeId]
      exact List.Pairwise.filter _ hR
    · intro h
      show ({ s with books := GroupMap.removeId pubs id s.books } : BookShelf) = s
      rw [GroupMap.removeId_eq_self pubs id s.books h]
    · unfold BookShelf.borrowPublication
      rw [scanGroups_borrowable_none]
      intro q hq
      exact not_borrowable_of_id_ne pubs id q (GroupMap.removeId_no_id pubs id s.books q hq)
  · intro s
    refine ⟨rfl, GroupMap.keys_removeId pubs id s.magazines,
      GroupMap.removeId_no_id pubs id s.magazines,
      fun k => GroupMap.lookup_removeId pubs id k s.magazines, ?_, ?_, ?_⟩
    · intro k R hR
      show (GroupMap.lookup k (GroupMap.removeId pubs id s.magazines)).Pairwise R
      rw [GroupMap.lookup_removeId]
      exact List.Pairwise.filter _ hR
    · intro h
      show ({ s with magazines := GroupMap.removeId pubs id s.magazines } : MagazineShelf) = s
      rw [GroupMap.removeId_eq_self pubs id s.magazines h]
    · unfold MagazineShelf.borrowPublication
      rw [scanGroups_borrowable_none]
      intro q hq
      exact not_borrowable_of_id_ne pubs id q (GroupMap.removeId_no_id pubs id s.magazines q hq)

end ShelfRemove

/-! ## The copy-count bound under the shelf operations -/

section ShelfCounts

theorem entriesOk_modify (pubs : Pubs) (m : GroupMap) (r : Ref) (g : PubObj → PubObj)
    (h : EntriesOk pubs m)
    (hg : r ∈ m.entries → ∀ o, pubs[r]? = some o → (g o).base.CountsOk) :
    EntriesOk (pubs.modify g r) m := by
  intro q hq o ho
  by_cases hqr : r = q
  · subst hqr
    rw [List.getElem?_modify_eq] at ho
    cases hobj : pubs[r]? with
    | none => simp [hobj] at ho
    | some o' =>
      rw [hobj] at ho
      have ho2 : g o' = o := by simpa using ho
      rw [← ho2]
      exact hg hq o' hobj
  · rw [List.getElem?_modify_ne _ _ hqr] at ho
    exact h q hq o ho

theorem GroupMap.mem_entries_update (key : String) (f : List Ref → List Ref) (p : Ref)
    (hf : ∀ v x, x ∈ f v → x ∈ v ∨ x = p) (m : GroupMap) :
    ∀ x ∈ (GroupMap.update key f m).entries, x ∈ m.entries ∨ x = p := by
  have hent : ∀ (g : String × List Ref) (gs : GroupMap),
      GroupMap.entries (g :: gs) = g.2 ++ GroupMap.entries gs := by
    intro g gs
    simp [GroupMap.entries]
  induction m with
  | nil =>
    intro x hx
    simp only [GroupMap.update, GroupMap.entries, List.map_cons, List.map_nil,
      List.flatten_cons, List.flatten_nil, List.append_nil] at hx
    rcases hf [] x hx with h | h
    · cases h
    · exact Or.inr h
  | cons g gs ih =>
    obtain ⟨k', v⟩ := g
    intro x hx
    unfold GroupMap.update at hx
    rw [hent]
    by_cases h1 : key = k'
    · rw [if_pos h1, hent] at hx
      rcases List.mem_append.mp hx with hx | hx
      · rcases hf v x hx with h | h
        · exact Or.inl (List.mem_append_left _ h)
        · exact Or.inr h
      · exact Or.inl (List.mem_append_right _ hx)
    · rw [if_neg h1] at hx
      by_cases h2 : key < k'
      · rw [if_pos h2, hent, hent] at hx
        rcases List.mem_append.mp hx with hx | hx
        · rcases hf [] x hx with h | h
          · cases h
          · exact Or.inr h
        · exact Or.inl hx
      · rw [if_neg h2, hent] at hx
        rcases List.mem_append.mp hx with hx | hx
        · exact Or.inl (List.mem_append_left _ hx)
        · rcases ih x hx with h | h
          · exact Or.inl (List.mem_append_right _ h)
          · exact Or.inr h

theorem scanGroups_some_mem (pubs : Pubs) (pred : PubObj → Bool) (m : GroupMap) (r : Ref)
    (h : scanGroups pubs pred m = some r) :
    r ∈ m.entries ∧ ∃ o, pubs[r]? = some o ∧ pred o = true := by
  rw [scanGroups_eq_find] at h
  refine ⟨List.mem_of_find?_eq_some h, ?_⟩
  have hp := List.find?_some h
  unfold holds at hp
  cases hobj : pubs[r]? with
  | none => simp [hobj] at hp
  | some o => exact ⟨o, rfl, by simpa [hobj] using hp⟩

theorem scanGroup_some_mem (pubs : Pubs) (pred : PubObj → Bool) (l : List Ref) (r : Ref)
    (h : scanGroup pubs pred l = some r) :
    r ∈ l ∧ ∃ o, pubs[r]? = some o ∧ pred o = true := by
  rw [scanGroup_eq_find] at h
  refine ⟨List.mem_of_find?_eq_some h, ?_⟩
  have hp := List.find?_some h
  unfold holds at hp
  cases hobj : pubs[r]? with
  | none => simp [hobj] at hp
  | some o => exact ⟨o, rfl, by simpa [hobj] using hp⟩

theorem entriesOk_of_subset (pubs : Pubs) (m m' : GroupMap) (p : Ref)
    (h : EntriesOk pubs m) (hp : ∀ o, pubs[p]? = some o → o.base.CountsOk)
    (hsub : ∀ x ∈ m'.entries, x ∈ m.entries ∨ x = p) : EntriesOk pubs m' := by
  intro x hx o ho
  rcases hsub x hx with hmem | rfl
  · exact h x hmem o ho
  · exact hp o ho

theorem entriesOk_borrow (pubs : Pubs) (m : GroupMap) (id : Int) (r : Ref)
    (h : EntriesOk pubs m) (hscan : scanGroups pubs (borrowable id) m = some r) :
    EntriesOk (pubs.modify PubObj.decAvailable r) m := by
  obtain ⟨_, o, ho, hpred⟩ := scanGroups_some_mem pubs _ m r hscan
  apply entriesOk_modify pubs m r _ h
  intro hmem o' ho'
  rw [ho] at ho'
  cases ho'
  have hok := h r hmem o ho
  have hpos : 0 < o.base.availableCopies := by
    simp only [borrowable, Bool.and_eq_true, decide_eq_true_eq] at hpred
    exact hpred.2
  unfold Publication.CountsOk at *
  rw [PubObj.base_decAvailable]
  simp only
  omega

theorem entriesOk_addExemplar (pubs : Pubs) (m : GroupMap) (r : Ref)
    (h : EntriesOk pubs m) :
    EntriesOk (pubs.modify (fun o => o.incTotal.incAvailable) r) m := by
  apply entriesOk_modify pubs m r _ h
  intro hmem o ho
  have hok := h r hmem o ho
  unfold Publication.CountsOk at *
  rw [PubObj.base_addExemplar]
  simp only
  omega

theorem entriesOk_return (pubs : Pubs) (m : GroupMap) (r : Ref)
    (h : EntriesOk pubs m)
    (hroom : ∀ o, pubs[r]? = some o → o.base.availableCopies < o.base.totalCopies) :
    EntriesOk (pubs.modify PubObj.incAvailable r) m := by
  apply entriesOk_modify pubs m r _ h
  intro hmem o ho
  have hok := h r hmem o ho
  have hlt := hroom o ho
  unfold Publication.CountsOk at *
  rw [PubObj.base_incAvailable]
  simp only
  omega

/-- C16 (as stated, false for `returnPublication`).  A book shelf whose single
    entry has `availableCopies = totalCopies = 2`: returning that book succeeds
    and leaves the entry with `availableCopies = 3`, above `totalCopies = 2`. -/
theorem returnPublication_exceeds_total :
    EntriesOk [scenarioBook, scenarioBook2] exampleBookShelf.books ∧
    (BookShelf.returnPublication [scenarioBook, scenarioBook2] exampleBookShelf 0).error
      = none ∧
    availableOf
      (BookShelf.returnPublication [scenarioBook, scenarioBook2] exampleBookShelf 0).state.1 0
      = some 3 ∧
    totalOf
      (BookShelf.returnPublication [scenarioBook, scenarioBook2] exampleBookShelf 0).state.1 0
      = some 2 ∧
    ¬ EntriesOk
      (BookShelf.returnPublication [scenarioBook, scenarioBook2] exampleBookShelf 0).state.1
      (BookShelf.returnPublication [scenarioBook, scenarioBook2] exampleBookShelf 0).state.2.books := by
  refine ⟨?_, by decide, by decide, by decide, ?_⟩
  · intro r hr o ho
    have hr0 : r = 0 := by simpa [exampleBookShelf, GroupMap.entries] using hr
    subst hr0
    have ho' : o = scenarioBook := by
      have : ([scenarioBook, scenarioBook2] : Pubs)[0]? = some scenarioBook := rfl
      rw [this] at ho
      exact (Option.some.inj ho).symm
    subst ho'
    decide
  · intro hok
    have h := hok 0 (by decide) _ rfl
    revert h
    decide

/-- C16 (amended).  For a shelf whose entries all satisfy
    `0 ≤ availableCopies ≤ totalCopies`: after `addPublication` of a publication
    within the bound, after `removePublication`, after `borrowPublication` and
    after `addExemplar`, successful or failing, every entry still satisfies the
    bound; after `returnPublication(p)` every entry still satisfies it provided
    every entry with the id of `p` had `availableCopies < totalCopies` before. -/
theorem shelf_counts_preserved (pubs : Pubs) :
    (∀ s : BookShelf, EntriesOk pubs s.books →
      (∀ p, (∀ o, pubs[p]? = some o → o.base.CountsOk) →
        EntriesOk pubs (BookShelf.addPublication pubs s p).state.books) ∧
      (∀ id, EntriesOk pubs (BookShelf.removePublication pubs s id).state.books) ∧
      (∀ id, EntriesOk (BookShelf.borrowPublication pubs s id).1.1
        (BookShelf.borrowPublication pubs s id).1.2.books) ∧
      (∀ id, EntriesOk (BookShelf.addExemplar pubs s id).state.1
        (BookShelf.addExemplar pubs s id).state.2.books) ∧
      (∀ p, (∀ r ∈ s.books.entries, ∀ o, pubs[r]? = some o → idOf pubs p = some o.base.id →
          o.base.availableCopies < o.base.totalCopies) →
        EntriesOk (BookShelf.returnPublication pubs s p).state.1
          (BookShelf.returnPublication pubs s p).state.2.books)) ∧
    (∀ (stdSort : SortAlgorithm) (s : MagazineShelf), SortsBy stdSort (magazineBefore pubs) →
      EntriesOk pubs s.magazines →
      (∀ p, (∀ o, pubs[p]? = some o → o.base.CountsOk) →
        EntriesOk pubs (MagazineShelf.addPublication stdSort pubs s p).state.magazines) ∧
      (∀ id, EntriesOk pubs (MagazineShelf.removePublication pubs s id).state.magazines) ∧
      (∀ id, EntriesOk (MagazineShelf.borrowPublication pubs s id).1.1
        (MagazineShelf.borrowPublication pubs s id).1.2.magazines) ∧
      (∀ id, EntriesOk (MagazineShelf.addExemplar pubs s id).state.1
        (MagazineShelf.addExemplar pubs s id).state.2.magazines) ∧
      (∀ p, (∀ r ∈ s.magazines.entries, ∀ o, pubs[r]? = some o →
          idOf pubs p = some o.base.id → o.base.availableCopies < o.base.totalCopies) →
        EntriesOk (MagazineShelf.returnPublication pubs s p).state.1
          (MagazineShelf.returnPublication pubs s p).state.2.magazines)) := by
  constructor
  · intro s hok
    refine ⟨?_, ?_, ?_, ?_, ?_⟩
    · intro p hp
      unfold BookShelf.addPublication
      split
      · rename_i book hobj
        apply entriesOk_of_subset pubs s.books _ p hok hp
        apply GroupMap.mem_entries_update
        intro v x hx
        have hx' : x ∈ v ++ [p] := List.mem_mergeSort.mp hx
        simpa using hx'
      · exact hok
    · intro id r hr o ho
      have hr' : r ∈ (GroupMap.removeId pubs id s.books).entries := hr
      rw [GroupMap.entries_removeId] at hr'
      exact hok r (List.mem_filter.mp hr').1 o ho
    · intro id
      unfold BookShelf.borrowPublication
      cases hscan : scanGroups pubs (borrowable id) s.books with
      | none => exact hok
      | some r => exact entriesOk_borrow pubs s.books id r hok hscan
    · intro id
      unfold BookShelf.addExemplar
      cases hscan : scanGroups pubs (fun o => o.base.id == id) s.books with
      | none => exact hok
      | some r => exact entriesOk_addExemplar pubs s.books r hok
    · intro p hroom
      unfold BookShelf.returnPublication
      split
      · rename_i book hobj
        cases hscan : scanGroups pubs (fun o => o.base.id == book.id) s.books with
        | none => exact hok
        | some r =>
          obtain ⟨hmem, o, ho, hpred⟩ := scanGroups_some_mem pubs _ s.books r hscan
          apply entriesOk_return pubs s.books r hok
          intro o' ho'
          rw [ho] at ho'
          cases ho'
          apply hroom r hmem o ho
          have hid : o.base.id = book.id := by simpa using hpred
          have hpid : idOf pubs p = some book.id := by simp [idOf, hobj, PubObj.base]
          rw [hpid, hid]
      · exact hok
  · intro stdSort s hsort hok
    refine ⟨?_, ?_, ?_, ?_, ?_⟩
    · intro p hp
      unfold MagazineShelf.addPublication
      split
      · rename_i magazine hobj
        apply entriesOk_of_subset pubs s.magazines _ p hok hp
        apply GroupMap.mem_entries_update
        intro v x hx
        have hx' : x ∈ v ++ [p] := (hsort (v ++ [p])).1.mem_iff.mp hx
        simpa using hx'
      · exact hok
    · intro id r hr o ho
      have hr' : r ∈ (GroupMap.removeId pubs id s.magazines).entries := hr
      rw [GroupMap.entries_removeId] at hr'
      exact hok r (List.mem_filter.mp hr').1 o ho
    · intro id
      unfold MagazineShelf.borrowPublication
      cases hscan : scanGroups pubs (borrowable id) s.magazines with
      | none => exact hok
      | some r => exact entriesOk_borrow pubs s.magazines id r hok hscan
    · intro id
      unfold MagazineShelf.addExemplar
      cases hscan : scanGroups pubs (fun o => o.base.id == id) s.magazines with
      | none => exact hok
      | some r => exact entriesOk_addExemplar pubs s.magazines r hok
    · intro p hroom
      have hok' : ∀ key, EntriesOk pubs
          (GroupMap.update key (fun titleMagazines => titleMagazines) s.magazines) := by
        intro key r hr o ho
        rw [GroupMap.entries_update_id] at hr
        exact hok r hr o ho
      unfold MagazineShelf.returnPublication
      split
      · rename_i magazine hobj
        simp only
        cases hscan : scanGroup pubs (fun o => o.base.id == magazine.id)
            (GroupMap.lookup magazine.title
              (GroupMap.update magazine.title (fun titleMagazines => titleMagazines)
                s.magazines)) with
        | none => exact hok' magazine.title
        | some r =>
          obtain ⟨hmem, o, ho, hpred⟩ := scanGroup_some_mem pubs _ _ r hscan
          have hmem' : r ∈ s.magazines.entries := by
            have := GroupMap.lookup_subset_entries _ _ r hmem
            rwa [GroupMap.entries_update_id] at this
          apply entriesOk_return pubs _ r (hok' magazine.title)
          intro o' ho'
          rw [ho] at ho'
          cases ho'
          apply hroom r hmem' o ho
          have hid : o.base.id = magazine.id := by simpa using hpred
          have hpid : idOf pubs p = some magazine.id := by simp [idOf, hobj, PubObj.base]
          rw [hpid, hid]
      · exact hok

end ShelfCounts

/-! ## The customer's operations -/

section CustomerOps

/-- C17. `Customer::borrowPublication(p)` fails with DuplicateTitle if and only if
    some entry of `borrowedPublications` has the title of `p`, whatever the id of
    that entry, and then leaves the customer as it was; otherwise it succeeds and
    the new list is the old list with `p` appended at the end. -/
theorem customer_borrowPublication_spec (pubs : Pubs) (c : Customer) (p : Ref) :
    ((Customer.borrowPublication pubs c p).error = some Error.duplicateTitle ↔
      ∃ q ∈ c.borrowedPublications, titleOf pubs q = titleOf pubs p) ∧
    ((∃ q ∈ c.borrowedPublications, titleOf pubs q = titleOf pubs p) →
      Customer.borrowPublication pubs c p = ⟨c, some Error.duplicateTitle⟩) ∧
    ((∀ q ∈ c.borrowedPublications, titleOf pubs q ≠ titleOf pubs p) →
      Customer.borrowPublication pubs c p =
        ⟨{ c with borrowedPublications := c.borrowedPublications ++ [p] }, none⟩) := by
  refine ⟨?_, borrowPublication_duplicate pubs c p, borrowPublication_fresh pubs c p⟩
  constructor
  · intro herr
    by_contra hno
    have hfresh : ∀ q ∈ c.borrowedPublications, titleOf pubs q ≠ titleOf pubs p := by
      intro q hq ht
      exact hno ⟨q, hq, ht⟩
    rw [borrowPublication_fresh pubs c p hfresh] at herr
    cases herr
  · intro hdup
    rw [borrowPublication_duplicate pubs c p hdup]

/-- C18. `Customer::returnPublication(id)` fails with NotFound if and only if no
    entry of `borrowedPublications` has the id, and then leaves the list as it
    was; otherwise it removes exactly the first entry with the id: the list is one
    shorter and the other entries keep their order.  The publication store is only
    read: the method writes through no publication pointer. -/
theorem customer_returnPublication_spec (pubs : Pubs) (c : Customer) (id : Int) :
    ((Customer.returnPublication pubs c id).error = some Error.notFound ↔
      ∀ q ∈ c.borrowedPublications, idOf pubs q ≠ some id) ∧
    ((∀ q ∈ c.borrowedPublications, idOf pubs q ≠ some id) →
      Customer.returnPublication pubs c id = ⟨c, some Error.notFound⟩) ∧
    ((∃ q ∈ c.borrowedPublications, idOf pubs q = some id) →
      ∃ pre r post, c.borrowedPublications = pre ++ r :: post ∧
        (∀ q ∈ pre, idOf pubs q ≠ some id) ∧ idOf pubs r = some id ∧
        Customer.returnPublication pubs c id =
          ⟨{ c with borrowedPublications := pre ++ post }, none⟩ ∧
        (pre ++ post).length + 1 = c.borrowedPublications.length) := by
  refine ⟨?_, returnPublication_missing pubs c id, ?_⟩
  · constructor
    · intro herr
      by_contra hno
      have hex : ∃ q ∈ c.borrowedPublications, idOf pubs q = some id := by
        by_contra hnone
        apply hno
        intro q hq hid
        exact hnone ⟨q, hq, hid⟩
      obtain ⟨pre, r, post, _, _, _, heq⟩ := returnPublication_found pubs c id hex
      rw [heq] at herr
      cases herr
    · intro hnone
      rw [returnPublication_missing pubs c id hnone]
  · intro hex
    obtain ⟨pre, r, post, hl, hpre, hr, heq⟩ := returnPublication_found pubs c id hex
    refine ⟨pre, r, post, hl, hpre, hr, heq, ?_⟩
    rw [hl]
    simp only [List.length_append, List.length_cons]
    omega

end CustomerOps

/-! ## Adding a book and looking things up -/

section AddBook

open Library

theorem find_if_first {α : Type} (p : α → Bool) (pre post : List α) (x : α)
    (hpre : ∀ q ∈ pre, p q = false) (hx : p x = true) :
    (pre ++ x :: post)[find_if p (pre ++ x :: post)]? = some x := by
  induction pre with
  | nil => simp [find_if, hx]
  | cons a as ih =>
    have ha : p a = false := hpre a (List.mem_cons_self _ _)
    have := ih (fun q hq => hpre q (List.mem_cons_of_mem _ hq))
    simpa [find_if, ha] using this

theorem GroupMap.mem_entries_update_self (key : String) (f : List Ref → List Ref) (p : Ref)
    (hf : ∀ v, p ∈ f v) (m : GroupMap) : p ∈ (GroupMap.update key f m).entries := by
  have hent : ∀ (g : String × List Ref) (gs : GroupMap),
      GroupMap.entries (g :: gs) = g.2 ++ GroupMap.entries gs := by
    intro g gs
    simp [GroupMap.entries]
  induction m with
  | nil =>
    simp only [GroupMap.update, GroupMap.entries, List.map_cons, List.map_nil,
      List.flatten_cons, List.flatten_nil, List.append_nil]
    exact hf []
  | cons g gs ih =>
    obtain ⟨k', v⟩ := g
    unfold GroupMap.update
    by_cases h1 : key = k'
    · rw [if_pos h1, hent]
      exact List.mem_append_left _ (hf v)
    · rw [if_neg h1]
      by_cases h2 : key < k'
      · rw [if_pos h2, hent]
        exact List.mem_append_left _ (hf [])
      · rw [if_neg h2, hent]
        exact List.mem_append_right _ ih

theorem BookShelf.addPublication_book (pubs : Pubs) (s : BookShelf) (p : Ref) (b : Book)
    (hp : pubs[p]? = some (PubObj.book b)) :
    (BookShelf.addPublication pubs s p).error = none ∧
      p ∈ (BookShelf.addPublication pubs s p).state.books.entries := by
  unfold BookShelf.addPublication
  simp only [hp, true_and]
  apply GroupMap.mem_entries_update_self
  intro v
  apply List.mem_mergeSort.mpr
  simp

/-- C19. `Library::addBook` of a book never fails and appends the book at the end
    of the master list, leaving publication and customer objects as they were.
    When `sh` is the first shelf of the sequence that is a `BookShelf`, the book is
    registered on that shelf object by `BookShelf::addPublication` and every other
    shelf object is as before; when the library has no `BookShelf` the heap is as
    before.  In both cases `findBook` finds a book with that id afterwards. -/
theorem addBook_spec (w : World) (book : Ref) (b : Book)
    (hb : w.heap.pubs[book]? = some (PubObj.book b)) :
    (addBook w book).error = none ∧
    (addBook w book).state.library = { w.library with books := w.library.books ++ [book] } ∧
    (addBook w book).state.heap.pubs = w.heap.pubs ∧
    (addBook w book).state.heap.customers = w.heap.customers ∧
    (∀ pre sh post bs, w.library.shelves = pre ++ sh :: post →
      (∀ q ∈ pre, isBookShelf w.heap q = false) →
      w.heap.shelves[sh]? = some (ShelfObj.bookShelf bs) →
      (addBook w book).state.heap.shelves = w.heap.shelves.set sh
        (ShelfObj.bookShelf (BookShelf.addPublication w.heap.pubs bs book).state) ∧
      book ∈ (BookShelf.addPublication w.heap.pubs bs book).state.books.entries ∧
      ∀ q : Ref, q ≠ sh → (addBook w book).state.heap.shelves[q]? = w.heap.shelves[q]?) ∧
    ((∀ q ∈ w.library.shelves, isBookShelf w.heap q = false) →
      (addBook w book).state.heap = w.heap) ∧
    (∃ r, findBook (addBook w book).state b.id = some r ∧
      idOf (addBook w book).state.heap.pubs r = some b.id) := by
  have hlib : (addBook w book).state.library
      = { w.library with books := w.library.books ++ [book] } := by
    unfold addBook
    simp only
    split
    · split <;> rfl
    · rfl
  have hpubs := addBook_pubs w book
  have hfirst : ∀ pre sh post bs, w.library.shelves = pre ++ sh :: post →
      (∀ q ∈ pre, isBookShelf w.heap q = false) →
      w.heap.shelves[sh]? = some (ShelfObj.bookShelf bs) →
      addBook w book =
        ⟨⟨⟨w.heap.pubs, w.heap.customers,
            w.heap.shelves.set sh
              (ShelfObj.bookShelf (BookShelf.addPublication w.heap.pubs bs book).state)⟩,
           { w.library with books := w.library.books ++ [book] }⟩,
          (BookShelf.addPublication w.heap.pubs bs book).error⟩ := by
    intro pre sh post bs hsh hpre hobj
    have hx : isBookShelf w.heap sh = true := by simp [isBookShelf, hobj]
    have hget := find_if_first (isBookShelf w.heap) pre post sh hpre hx
    rw [← hsh] at hget
    unfold addBook
    simp only [hget, hobj]
  have hnone : (∀ q ∈ w.library.shelves, isBookShelf w.heap q = false) →
      addBook w book =
        ⟨{ heap := w.heap, library := { w.library with books := w.library.books ++ [book] } },
          none⟩ := by
    intro hall
    have hlen := (find_if_eq_length_iff (isBookShelf w.heap) w.library.shelves).mpr hall
    have hget := find_if_getElem?_none (isBookShelf w.heap) w.library.shelves hlen
    unfold addBook
    simp only [hget]
  refine ⟨?_, hlib, hpubs, ?_, ?_, ?_, ?_⟩
  · by_cases hall : ∀ q ∈ w.library.shelves, isBookShelf w.heap q = false
    · rw [hnone hall]
    · have hex : ∃ q ∈ w.library.shelves, isBookShelf w.heap q = true := by
        by_contra hno
        apply hall
        intro q hq
        by_contra hq'
        exact hno ⟨q, hq, by simpa using hq'⟩
      obtain ⟨pre, sh, post, hsh, hpre, hx⟩ := exists_first _ _ hex
      have hobj : ∃ bs, w.heap.shelves[sh]? = some (ShelfObj.bookShelf bs) := by
        unfold isBookShelf at hx
        split at hx
        · rename_i bs hbs
          exact ⟨bs, hbs⟩
        · cases hx
      obtain ⟨bs, hbs⟩ := hobj
      rw [hfirst pre sh post bs hsh hpre hbs]
      exact (BookShelf.addPublication_book w.heap.pubs bs book b hb).1
  · unfold addBook
    simp only
    split
    · split <;> rfl
    · rfl
  · intro pre sh post bs hsh hpre hobj
    rw [hfirst pre sh post bs hsh hpre hobj]
    refine ⟨rfl, (BookShelf.addPublication_book w.heap.pubs bs book b hb).2, ?_⟩
    intro q hq
    exact List.getElem?_set_ne (Ne.symm hq)
  · intro hall
    rw [hnone hall]
  · have hmem : ∃ x ∈ (addBook w book).state.library.books,
        (fun r => idOf (addBook w book).state.heap.pubs r == some b.id) x = true := by
      refine ⟨book, ?_, ?_⟩
      · rw [hlib]
        simp
      · rw [hpubs]
        simp [idOf, hb, PubObj.base]
    have hlt := (find_if_lt_length_iff _ _).mpr hmem
    have hne : find_if (fun r => idOf (addBook w book).state.heap.pubs r == some b.id)
        (addBook w book).state.library.books ≠ (addBook w book).state.library.books.length := by
      omega
    obtain ⟨pre, x, post, _, _, hx, _, hget, _⟩ := find_if_split _ _ hne
    exact ⟨x, hget, by simpa using hx⟩

theorem addBook_spec_witness :
    exampleShelved.heap.pubs[0]? =
      some (PubObj.book ⟨⟨1, "Go", 2020, 2, 2⟩, ⟨"Rob", "Pike"⟩, 300⟩) ∧
    (addBook exampleShelved 0).error = none ∧
    (addBook exampleShelved 0).state.library.books = [0] :=
  have h := addBook_spec exampleShelved 0 ⟨⟨1, "Go", 2020, 2, 2⟩, ⟨"Rob", "Pike"⟩, 300⟩
    (by decide)
  ⟨by decide, h.1, by rw [h.2.1]; decide⟩

/-- C20. `findCustomer` and `findBook` are total and only read the state.  Each
    returns the null pointer if and only if no element of its sequence has the id,
    and otherwise the first element of the sequence whose id is the argument. -/
theorem find_spec (w : World) (id : Int) :
    (findCustomer w id = none ↔
      ∀ c ∈ w.library.customers, customerIdOf w.heap c ≠ some id) ∧
    (∀ c, findCustomer w id = some c →
      ∃ pre post, w.library.customers = pre ++ c :: post ∧
        (∀ y ∈ pre, customerIdOf w.heap y ≠ some id) ∧ customerIdOf w.heap c = some id) ∧
    (findBook w id = none ↔ ∀ b ∈ w.library.books, idOf w.heap.pubs b ≠ some id) ∧
    (∀ b, findBook w id = some b →
      ∃ pre post, w.library.books = pre ++ b :: post ∧
        (∀ y ∈ pre, idOf w.heap.pubs y ≠ some id) ∧ idOf w.heap.pubs b = some id) := by
  refine ⟨findCustomer_eq_none_iff w id, ?_, findBook_eq_none_iff w id, ?_⟩
  · intro c hc
    obtain ⟨pre, post, cobj, hl, hpre, hobj, hid⟩ := findCustomer_eq_some w id c hc
    exact ⟨pre, post, hl, hpre, by simp [customerIdOf, hobj, hid]⟩
  · intro b hb
    obtain ⟨pre, post, bobj, hl, hpre, hobj, hid⟩ := findBook_eq_some w id b hb
    exact ⟨pre, post, hl, hpre, by simp [idOf, hobj, hid]⟩

end AddBook


/-! ## Instances of the shelf theorems -/

section ShelfInstances

theorem exampleBookShelf_entriesOk :
    EntriesOk [scenarioBook, scenarioBook2] exampleBookShelf.books := by
  intro r hr o ho
  have hr0 : r = 0 := by simpa [exampleBookShelf, GroupMap.entries] using hr
  subst hr0
  have ho' : o = scenarioBook := by
    have : ([scenarioBook, scenarioBook2] : Pubs)[0]? = some scenarioBook := rfl
    rw [this] at ho
    exact (Option.some.inj ho).symm
  subst ho'
  decide

theorem exampleBookShelf_wf : exampleBookShelf.books.WF := by
  simp [GroupMap.WF, GroupMap.keys, exampleBookShelf]

theorem exampleMagazineShelf_wf : exampleMagazineShelf.magazines.WF := by
  simp [GroupMap.WF, GroupMap.keys, exampleMagazineShelf]

theorem returnPublication_spec_witness :
    exampleMagazines[0]? = some (PubObj.magazine ⟨⟨1, "Time", 2020, 1, 1⟩, 5⟩) ∧
    exampleMagazineShelf.magazines.WF ∧
    ((MagazineShelf.returnPublication exampleMagazines exampleMagazineShelf 0).error = none ↔
      ∃ q ∈ GroupMap.lookup "Time" exampleMagazineShelf.magazines,
        idOf exampleMagazines q = some 1) :=
  ⟨by decide, exampleMagazineShelf_wf,
    ((returnPublication_spec exampleMagazines 0).2 exampleMagazineShelf
      ⟨⟨1, "Time", 2020, 1, 1⟩, 5⟩ (by decide) exampleMagazineShelf_wf).1⟩

theorem sortingBookShelf_wf : sortingBookShelf.books.WF := by
  simp [GroupMap.WF, GroupMap.keys, sortingBookShelf]
  decide

theorem sortingMagazineShelf_wf : sortingMagazineShelf.magazines.WF := by
  simp [GroupMap.WF, GroupMap.keys, sortingMagazineShelf]
  decide

/-- Adding "Awk" to the group holding "Go" and "Unix" puts it in front of both;
    the group of the other author stays. -/
theorem sortingBookShelf_add :
    (BookShelf.addPublication sortingBooks sortingBookShelf 3).state.books
      = [("Ken Thompson", [3, 0, 1]), ("Rob Pike", [2])] := by
  have k0 : titleStr sortingBooks 0 = "Go" := by decide
  have k1 : titleStr sortingBooks 1 = "Unix" := by decide
  have k3 : titleStr sortingBooks 3 = "Awk" := by decide
  have h1 : "Awk" < "Go" := by rw [String.lt_iff_toList_lt]; decide
  have h2 : "Go" < "Unix" := by rw [String.lt_iff_toList_lt]; decide
  have h3 : "Awk" < "Unix" := by rw [String.lt_iff_toList_lt]; decide
  have h4 : ¬ "Go" < "Awk" := by rw [String.lt_iff_toList_lt]; decide
  have h5 : ¬ "Unix" < "Go" := by rw [String.lt_iff_toList_lt]; decide
  have h6 : ¬ "Unix" < "Awk" := by rw [String.lt_iff_toList_lt]; decide
  have hp : sortingBooks[3]? = some (PubObj.book ⟨⟨4, "Awk", 1988, 1, 1⟩, ⟨"Ken", "Thompson"⟩, 210⟩) := by
    decide
  have hname : Author.getFullName ⟨"Ken", "Thompson"⟩ = "Ken Thompson" := by decide
  unfold BookShelf.addPublication
  simp only [hp, hname, sortingBookShelf, GroupMap.update, if_true, List.cons_append,
    List.nil_append, List.mergeSort, List.splitInTwo_fst, List.splitInTwo_snd, List.merge,
    k0, k1, k3, h1, h2, h3, h4, h5, h6, List.take, List.drop, List.length, decide_True,
    decide_False, Bool.not_true, Bool.not_false, ite_true, ite_false, Bool.false_eq_true,
    List.mergeSort_singleton, List.mergeSort_nil, Nat.reduceAdd, Nat.reduceDiv,
    List.take_succ_cons, List.take_zero, List.drop_succ_cons, List.drop_zero]

/-- Adding the issue 2021/1 of "Time" to the group holding 2020/7 and 2021/3 puts
    it between them; the group of the other title stays. -/
theorem sortingMagazineShelf_add :
    (MagazineShelf.addPublication mergeSortBy sortingMagazines sortingMagazineShelf 3).state.magazines
      = [("Time", [1, 3, 0]), ("Zeit", [2])] := by
  have hp : sortingMagazines[3]? = some (PubObj.magazine ⟨⟨4, "Time", 2021, 1, 1⟩, 1⟩) := by
    decide
  have b01 : magazineBefore sortingMagazines 0 1 = false := by decide
  have b10 : magazineBefore sortingMagazines 1 0 = true := by decide
  have b03 : magazineBefore sortingMagazines 0 3 = false := by decide
  have b30 : magazineBefore sortingMagazines 3 0 = true := by decide
  have b13 : magazineBefore sortingMagazines 1 3 = true := by decide
  have b31 : magazineBefore sortingMagazines 3 1 = false := by decide
  unfold MagazineShelf.addPublication
  simp only [hp, sortingMagazineShelf, GroupMap.update, if_true, List.cons_append,
    List.nil_append, mergeSortBy, List.mergeSort, List.splitInTwo_fst, List.splitInTwo_snd,
    List.merge, b01, b10, b03, b30, b13, b31, List.take, List.drop, List.length,
    Bool.not_true, Bool.not_false, ite_true, ite_false, Bool.false_eq_true,
    List.mergeSort_singleton, List.mergeSort_nil, Nat.reduceAdd, Nat.reduceDiv,
    List.take_succ_cons, List.take_zero, List.drop_succ_cons, List.drop_zero]

theorem addPublication_sorted_witness :
    sortingBooks[3]?
      = some (PubObj.book ⟨⟨4, "Awk", 1988, 1, 1⟩, ⟨"Ken", "Thompson"⟩, 210⟩) ∧
    sortingBookShelf.books.WF ∧
    GroupMap.lookup "Ken Thompson" sortingBookShelf.books = [0, 1] ∧
    (BookShelf.addPublication sortingBooks sortingBookShelf 3).state.books
      = [("Ken Thompson", [3, 0, 1]), ("Rob Pike", [2])] ∧
    [3, 0, 1].map (titleStr sortingBooks) = ["Awk", "Go", "Unix"] ∧
    ((BookShelf.addPublication sortingBooks sortingBookShelf 3).error = none ∧
      (GroupMap.lookup "Ken Thompson"
        (BookShelf.addPublication sortingBooks sortingBookShelf 3).state.books).Perm
          (GroupMap.lookup "Ken Thompson" sortingBookShelf.books ++ [3]) ∧
      (GroupMap.lookup "Ken Thompson"
        (BookShelf.addPublication sortingBooks sortingBookShelf 3).state.books).Pairwise
          (fun x y => titleStr sortingBooks x ≤ titleStr sortingBooks y) ∧
      GroupMap.lookup "Rob Pike"
          (BookShelf.addPublication sortingBooks sortingBookShelf 3).state.books = [2]) ∧
    sortingMagazines[3]? = some (PubObj.magazine ⟨⟨4, "Time", 2021, 1, 1⟩, 1⟩) ∧
    sortingMagazineShelf.magazines.WF ∧
    SortsBy mergeSortBy (magazineBefore sortingMagazines) ∧
    GroupMap.lookup "Time" sortingMagazineShelf.magazines = [1, 0] ∧
    (MagazineShelf.addPublication mergeSortBy sortingMagazines sortingMagazineShelf 3).state.magazines
      = [("Time", [1, 3, 0]), ("Zeit", [2])] ∧
    [1, 3, 0].map (magazineKey sortingMagazines) = [(2020, 7), (2021, 1), (2021, 3)] ∧
    ((MagazineShelf.addPublication mergeSortBy sortingMagazines sortingMagazineShelf 3).error
        = none ∧
      (GroupMap.lookup "Time"
        (MagazineShelf.addPublication mergeSortBy sortingMagazines
          sortingMagazineShelf 3).state.magazines).Perm
          (GroupMap.lookup "Time" sortingMagazineShelf.magazines ++ [3]) ∧
      (GroupMap.lookup "Time"
        (MagazineShelf.addPublication mergeSortBy sortingMagazines
          sortingMagazineShelf 3).state.magazines).Pairwise
          (fun x y => (magazineKey sortingMagazines x).1 < (magazineKey sortingMagazines y).1 ∨
            ((magazineKey sortingMagazines x).1 = (magazineKey sortingMagazines y).1 ∧
              (magazineKey sortingMagazines x).2 ≤ (magazineKey sortingMagazines y).2)) ∧
      GroupMap.lookup "Zeit"
          (MagazineShelf.addPublication mergeSortBy sortingMagazines
            sortingMagazineShelf 3).state.magazines = [2]) :=
  have hb := (addPublication_sorted sortingBooks 3).1 sortingBookShelf
    ⟨⟨4, "Awk", 1988, 1, 1⟩, ⟨"Ken", "Thompson"⟩, 210⟩ (by decide) sortingBookShelf_wf
  have hm := (addPublication_sorted sortingMagazines 3).2 mergeSortBy sortingMagazineShelf
    ⟨⟨4, "Time", 2021, 1, 1⟩, 1⟩ (by decide) sortingMagazineShelf_wf
    (mergeSortBy_sortsBy sortingMagazines)
  ⟨by decide, sortingBookShelf_wf, by decide, sortingBookShelf_add, by decide,
    ⟨hb.1, hb.2.2.1, hb.2.2.2.1,
      (hb.2.2.2.2.1 "Rob Pike" (by decide)).trans (by decide)⟩,
    by decide, sortingMagazineShelf_wf, mergeSortBy_sortsBy sortingMagazines, by decide,
    sortingMagazineShelf_add, by decide,
    ⟨hm.1, hm.2.2.1, hm.2.2.2.1,
      (hm.2.2.2.2.1 "Zeit" (by decide)).trans (by decide)⟩⟩

theorem shelf_counts_preserved_witness :
    EntriesOk [scenarioBook, scenarioBook2] exampleBookShelf.books ∧
    EntriesOk (BookShelf.borrowPublication [scenarioBook, scenarioBook2] exampleBookShelf 1).1.1
      (BookShelf.borrowPublication [scenarioBook, scenarioBook2] exampleBookShelf 1).1.2.books ∧
    availableOf
      (BookShelf.borrowPublication [scenarioBook, scenarioBook2] exampleBookShelf 1).1.1 0
      = some 1 :=
  ⟨exampleBookShelf_entriesOk,
    ((shelf_counts_preserved [scenarioBook, scenarioBook2]).1 exampleBookShelf
      exampleBookShelf_entriesOk).2.2.1 1,
    by decide⟩

end ShelfInstances


/-! ## The stack -/

section StackLaws

/-- C23. The stack is last-in first-out: after `push(x)` the top is `x`, `pop`
    gives back the stack as it was and the stack is not empty; `top` and `pop`
    fail, with EmptyContainer, if and only if the stack is empty, and a failing
    `pop` leaves the stack as it was. -/
theorem stack_lifo {α : Type} (s : Stack α) (x : α) :
    (s.push x).top = Except.ok x ∧
    (s.push x).pop = ⟨s, none⟩ ∧
    (s.push x).isEmpty = false ∧
    (s.top = Except.error Error.emptyContainer ↔ s.isEmpty = true) ∧
    ((∃ e, s.top = Except.error e) ↔ s.isEmpty = true) ∧
    (s.pop.error = some Error.emptyContainer ↔ s.isEmpty = true) ∧
    (s.pop.error ≠ none ↔ s.isEmpty = true) ∧
    (s.pop.error ≠ none → s.pop.state = s) := by
  refine ⟨Stack.top_push s x, ?_, ?_, ?_, ?_, ?_, ?_, ?_⟩
  · simp [Stack.pop, Stack.push, Stack.isEmpty]
  · simp [Stack.push, Stack.isEmpty]
  · cases hd : s.data with
    | nil => simp [Stack.top, Stack.isEmpty, hd]
    | cons a l =>
      have hlast : ∃ y, (a :: l).getLast? = some y :=
        ⟨(a :: l).getLast (by simp), List.getLast?_eq_getLast _ (by simp)⟩
      obtain ⟨y, hy⟩ := hlast
      simp [Stack.top, Stack.isEmpty, hd, hy]
  · cases hd : s.data with
    | nil => simp [Stack.top, Stack.isEmpty, hd]
    | cons a l =>
      have hlast : ∃ y, (a :: l).getLast? = some y :=
        ⟨(a :: l).getLast (by simp), List.getLast?_eq_getLast _ (by simp)⟩
      obtain ⟨y, hy⟩ := hlast
      simp [Stack.top, Stack.isEmpty, hd, hy]
  · cases hd : s.data with
    | nil => simp [Stack.pop, Stack.isEmpty, hd]
    | cons a l => simp [Stack.pop, Stack.isEmpty, hd]
  · cases hd : s.data with
    | nil => simp [Stack.pop, Stack.isEmpty, hd]
    | cons a l => simp [Stack.pop, Stack.isEmpty, hd]
  · cases hd : s.data with
    | nil => simp [Stack.pop, Stack.isEmpty, hd]
    | cons a l => simp [Stack.pop, Stack.isEmpty, hd]

end StackLaws

/-! ## Borrowing and returning by one customer -/

section RoundTrip

theorem find_if_at {α : Type} (p : α → Bool) (pre post : List α) (x : α)
    (hpre : ∀ q ∈ pre, p q = false) (hx : p x = true) :
    find_if p (pre ++ x :: post) = pre.length := by
  induction pre with
  | nil => simp [find_if, hx]
  | cons a as ih =>
    have ha : p a = false := hpre a (List.mem_cons_self _ _)
    have := ih (fun q hq => hpre q (List.mem_cons_of_mem _ hq))
    simp [find_if, ha, this]

/-- The entry that `Customer::returnPublication` erases is the first with the id. -/
theorem returnPublication_at (pubs : Pubs) (c : Customer) (id : Int)
    (pre post : List Ref) (r : Ref) (hl : c.borrowedPublications = pre ++ r :: post)
    (hpre : ∀ q ∈ pre, idOf pubs q ≠ some id) (hr : idOf pubs r = some id) :
    Customer.returnPublication pubs c id =
      ⟨{ c with borrowedPublications := pre ++ post }, none⟩ := by
  have hidx : find_if (fun p => idOf pubs p == some id) c.borrowedPublications = pre.length := by
    rw [hl]
    apply find_if_at
    · intro q hq
      simpa using hpre q hq
    · simp [hr]
  unfold Customer.returnPublication
  simp only [hidx]
  have hne : pre.length ≠ c.borrowedPublications.length := by
    rw [hl]
    simp
  rw [if_pos hne, hl]
  simp [List.eraseIdx_append_of_length_le]

/-- C26. For a customer holding no entry with the title of the publication `p`:
    when no entry has the id of `p` either, `borrowPublication(p)` followed by
    `returnPublication(p.id)` both succeed and the customer is exactly as before;
    when an earlier entry has the id of `p`, the borrow still succeeds and the
    return removes the first such earlier entry, leaving `p` at the end of the
    list. -/
theorem customer_round_trip (pubs : Pubs) (c : Customer) (p : Ref) (o : PubObj)
    (hp : pubs[p]? = some o)
    (htitle : ∀ q ∈ c.borrowedPublications, titleOf pubs q ≠ some o.base.title) :
    Customer.borrowPublication pubs c p =
      ⟨{ c with borrowedPublications := c.borrowedPublications ++ [p] }, none⟩ ∧
    ((∀ q ∈ c.borrowedPublications, idOf pubs q ≠ some o.base.id) →
      Customer.returnPublication pubs (Customer.borrowPublication pubs c p).state o.base.id
        = ⟨c, none⟩) ∧
    (∀ pre q post, c.borrowedPublications = pre ++ q :: post →
      (∀ x ∈ pre, idOf pubs x ≠ some o.base.id) → idOf pubs q = some o.base.id →
      Customer.returnPublication pubs (Customer.borrowPublication pubs c p).state o.base.id
        = ⟨{ c with borrowedPublications := pre ++ post ++ [p] }, none⟩) := by
  have hpt : titleOf pubs p = some o.base.title := by simp [titleOf, hp]
  have hpid : idOf pubs p = some o.base.id := by simp [idOf, hp]
  have hborrow := borrowPublication_fresh pubs c p (by
    intro q hq
    rw [hpt]
    exact htitle q hq)
  refine ⟨hborrow, ?_, ?_⟩
  · intro hid
    rw [hborrow]
    have h := returnPublication_at pubs
      { c with borrowedPublications := c.borrowedPublications ++ [p] } o.base.id
      c.borrowedPublications [] p rfl hid hpid
    rw [h]
    simp
  · intro pre q post hl hpre hq
    rw [hborrow]
    have h := returnPublication_at pubs
      { c with borrowedPublications := c.borrowedPublications ++ [p] } o.base.id
      pre (post ++ [p]) q (by simp [hl]) hpre hq
    rw [h]
    simp

theorem customer_round_trip_witness :
    ([scenarioBook, scenarioBook2] : Pubs)[0]? = some scenarioBook ∧
    Customer.returnPublication [scenarioBook, scenarioBook2]
      (Customer.borrowPublication [scenarioBook, scenarioBook2]
        (Customer.new 1 "Ann" "Lee") 0).state 1 = ⟨Customer.new 1 "Ann" "Lee", none⟩ :=
  ⟨by decide,
    (customer_round_trip [scenarioBook, scenarioBook2] (Customer.new 1 "Ann" "Lee") 0
      scenarioBook (by decide) (by intro q hq; cases hq)).2.1 (by intro q hq; cases hq)⟩

end RoundTrip

/-! ## Availability under the library workflow -/

section Availability

open Library

theorem NoRecovery.refl (pubs : Pubs) : NoRecovery pubs pubs :=
  fun _ o ho => ⟨o, ho, le_refl _, rfl, rfl⟩

theorem NoRecovery.trans {a b c : Pubs} (hab : NoRecovery a b) (hbc : NoRecovery b c) :
    NoRecovery a c := by
  intro r o ho
  obtain ⟨o1, ho1, h1, h2, h3⟩ := hab r o ho
  obtain ⟨o2, ho2, h4, h5, h6⟩ := hbc r o1 ho1
  exact ⟨o2, ho2, le_trans h4 h1, h5.trans h2, h6.trans h3⟩

theorem idOf_set_decAvailable (pubs : Pubs) (b : Ref) (bobj : PubObj)
    (hb : pubs[b]? = some bobj) (r : Ref) :
    idOf (pubs.set b bobj.decAvailable) r = idOf pubs r := by
  rw [← modify_eq_set_of_getElem? PubObj.decAvailable pubs b bobj hb]
  exact idOf_modify pubs (fun p => { p with availableCopies := p.availableCopies - 1 })
    (fun _ => rfl) b r

end Availability

/-! ## The menu loop: loops and object creation -/

section MenuLoop

open Library

theorem forLoop_of_lt {σ : Type} (i last : Int) (body : Int → σ → σ) (s : σ)
    (h : last < i) : forLoop i last body s = s := by
  rw [forLoop]
  simp [not_le.mpr h]

theorem forLoop_step {σ : Type} (i last : Int) (body : Int → σ → σ) (s : σ)
    (h : i ≤ last) : forLoop i last body s = forLoop (i + 1) last body (body i s) := by
  rw [forLoop]
  simp [h]

/-- A loop from `i` to `i + n - 1` runs its body `n` times, for `i`, `i + 1`, ... -/
theorem forLoop_eq_foldl {σ : Type} (n : Nat) (i : Int) (body : Int → σ → σ) (s : σ) :
    forLoop i (i + n - 1) body s
      = (List.range n).foldl (fun acc k => body (i + (k : Nat)) acc) s := by
  induction n generalizing i s with
  | zero =>
    rw [forLoop_of_lt]
    · rfl
    · simp
  | succ n ih =>
    rw [forLoop_step _ _ _ _ (by push_cast; omega)]
    have hlast : i + ((n + 1 : Nat) : Int) - 1 = (i + 1) + (n : Int) - 1 := by
      push_cast
      omega
    rw [hlast, ih, List.range_succ_eq_map, List.foldl_cons, List.foldl_map]
    simp only [Nat.cast_zero, add_zero]
    congr 1
    funext acc k
    congr 1
    push_cast
    omega

theorem addBook_library (w : World) (book : Ref) :
    (addBook w book).state.library = { w.library with books := w.library.books ++ [book] } := by
  unfold addBook
  simp only
  split
  · split <;> rfl
  · rfl

theorem addBook_customers (w : World) (book : Ref) :
    (addBook w book).state.heap.customers = w.heap.customers := by
  unfold addBook
  simp only
  split
  · split <;> rfl
  · rfl

theorem generateCustomer_eq (i : Int) (w : World) :
    generateCustomer i w =
      ⟨⟨w.heap.pubs,
          w.heap.customers ++
            [Customer.new i ("Customer" ++ toString i) ("LastName" ++ toString i)],
          w.heap.shelves⟩,
        { w.library with customers := w.library.customers ++ [w.heap.customers.length] }⟩ :=
  rfl

/-- What the customer loop of menu choice 9 does in `n` passes. -/
theorem customerLoop_eq (n : Nat) (c : Int) (w : World) :
    (List.range n).foldl (fun acc k => generateCustomer (c + (k : Nat)) acc) w =
      ⟨⟨w.heap.pubs,
          w.heap.customers ++ (List.range n).map (fun k =>
            Customer.new (c + (k : Nat)) ("Customer" ++ toString (c + (k : Nat)))
              ("LastName" ++ toString (c + (k : Nat)))),
          w.heap.shelves⟩,
        { w.library with customers := w.library.customers ++
            (List.range n).map (fun k => w.heap.customers.length + k) }⟩ := by
  induction n with
  | zero => simp
  | succ n ih =>
    rw [List.range_succ, List.foldl_append, ih]
    simp [generateCustomer_eq, List.map_append]

theorem bulkGenerate_of_nonpos (s : Session) (numberOfObject : Int) (h : numberOfObject ≤ 0) :
    bulkGenerate s numberOfObject =
      ⟨ensureBookShelf s.library, s.nextCustomerId + numberOfObject,
        s.nextBookId + numberOfObject⟩ := by
  unfold bulkGenerate
  simp only
  rw [forLoop_of_lt _ _ _ _ (by omega), forLoop_of_lt _ _ _ _ (by omega)]

/-- C21 (the code does not do this).  From the initial state: create a customer,
    generate with the count -1, create a customer; both customers have the id 1.
    The same three choices with books give two books with the id 1. -/
theorem ids_repeat_after_negative_count :
    customerIds (runCreates [CreateAction.customer "Ann" "Lee", CreateAction.bulk (-1),
      CreateAction.customer "Bob" "Ray"]).library = [some 1, some 1] ∧
    bookIds (runCreates [CreateAction.book "Go" "Rob" "Pike" 2020 300 2 2,
      CreateAction.bulk (-1),
      CreateAction.book "C" "Dennis" "Ritchie" 1978 228 1 1]).library = [some 1, some 1] := by
  constructor
  · simp only [runCreates, List.foldl, CreateAction.run,
      bulkGenerate_of_nonpos _ (-1) (by decide)]
    decide
  · simp only [runCreates, List.foldl, CreateAction.run,
      bulkGenerate_of_nonpos _ (-1) (by decide)]
    decide

end MenuLoop

/-! ## Bulk generation -/

section Bulk

open Library

theorem isBookShelf_set (pubs : Pubs) (customers : List Customer) (h : Heap) (sh : Ref)
    (bs bs' : BookShelf) (hobj : h.shelves[sh]? = some (ShelfObj.bookShelf bs)) (q : Ref) :
    isBookShelf ⟨pubs, customers, h.shelves.set sh (ShelfObj.bookShelf bs')⟩ q
      = isBookShelf h q := by
  unfold isBookShelf
  simp only
  by_cases hq : sh = q
  · subst hq
    have hlt : sh < h.shelves.length := by
      by_contra hx
      rw [List.getElem?_eq_none (Nat.le_of_not_lt hx)] at hobj
      cases hobj
    simp [List.getElem?_set, hlt, hobj]
  · rw [List.getElem?_set_ne hq]

theorem GroupMap.mem_entries_update_of_mem (key : String) (f : List Ref → List Ref) (x : Ref)
    (hf : ∀ v, x ∈ v → x ∈ f v) (m : GroupMap) (hx : x ∈ m.entries) :
    x ∈ (GroupMap.update key f m).entries := by
  have hent : ∀ (g : String × List Ref) (gs : GroupMap),
      GroupMap.entries (g :: gs) = g.2 ++ GroupMap.entries gs := by
    intro g gs
    simp [GroupMap.entries]
  induction m with
  | nil => simp [GroupMap.entries] at hx
  | cons g gs ih =>
    obtain ⟨k', v⟩ := g
    rw [hent] at hx
    unfold GroupMap.update
    by_cases h1 : key = k'
    · rw [if_pos h1, hent]
      rcases List.mem_append.mp hx with hx | hx
      · exact List.mem_append_left _ (hf v hx)
      · exact List.mem_append_right _ hx
    · rw [if_neg h1]
      by_cases h2 : key < k'
      · rw [if_pos h2, hent, hent]
        exact List.mem_append_right _ hx
      · rw [if_neg h2, hent]
        rcases List.mem_append.mp hx with hx | hx
        · exact List.mem_append_left _ hx
        · exact List.mem_append_right _ (ih hx)

/-- An entry of a book shelf is still an entry after `addPublication`. -/
theorem BookShelf.addPublication_entries_mono (pubs : Pubs) (s : BookShelf) (p x : Ref)
    (hx : x ∈ s.books.entries) : x ∈ (BookShelf.addPublication pubs s p).state.books.entries := by
  unfold BookShelf.addPublication
  split
  · simp only
    apply GroupMap.mem_entries_update_of_mem _ _ _ _ _ hx
    intro v hv
    apply List.mem_mergeSort.mpr
    exact List.mem_append_left _ hv
  · exact hx

theorem addBook_eq_first (w : World) (book sh : Ref) (bs : BookShelf)
    (hfirst : FirstBookShelf w sh bs) :
    addBook w book =
      ⟨⟨⟨w.heap.pubs, w.heap.customers,
          w.heap.shelves.set sh
            (ShelfObj.bookShelf (BookShelf.addPublication w.heap.pubs bs book).state)⟩,
         { w.library with books := w.library.books ++ [book] }⟩,
        (BookShelf.addPublication w.heap.pubs bs book).error⟩ := by
  obtain ⟨pre, post, hsh, hpre, hobj⟩ := hfirst
  have hx : isBookShelf w.heap sh = true := by simp [isBookShelf, hobj]
  have hget := find_if_first (isBookShelf w.heap) pre post sh hpre hx
  rw [← hsh] at hget
  unfold addBook
  simp only [hget, hobj]

theorem generateBook_step (i : Int) (w : World) (sh : Ref) (bs : BookShelf)
    (hfirst : FirstBookShelf w sh bs) :
    (generateBook i w).heap.pubs = w.heap.pubs ++ [PubObj.book (generatedBook i)] ∧
    (generateBook i w).heap.customers = w.heap.customers ∧
    (generateBook i w).library
      = { w.library with books := w.library.books ++ [w.heap.pubs.length] } ∧
    ∃ bs', FirstBookShelf (generateBook i w) sh bs' ∧
      (∀ x ∈ bs.books.entries, x ∈ bs'.books.entries) ∧
      w.heap.pubs.length ∈ bs'.books.entries := by
  have hmade : (makeBook w i ("Book" ++ toString i) ⟨"Author", toString i⟩
      (2000 + i) (200 + i) 5 5).1
      = ⟨⟨w.heap.pubs ++ [PubObj.book (generatedBook i)], w.heap.customers, w.heap.shelves⟩,
          w.library⟩ := rfl
  have hfirst1 : FirstBookShelf
      ⟨⟨w.heap.pubs ++ [PubObj.book (generatedBook i)], w.heap.customers, w.heap.shelves⟩,
        w.library⟩ sh bs := hfirst
  have hobjAt : (w.heap.pubs ++ [PubObj.book (generatedBook i)])[w.heap.pubs.length]?
      = some (PubObj.book (generatedBook i)) := by
    simp
  have heq : generateBook i w = (addBook
      ⟨⟨w.heap.pubs ++ [PubObj.book (generatedBook i)], w.heap.customers, w.heap.shelves⟩,
        w.library⟩ w.heap.pubs.length).state := rfl
  rw [heq, addBook_eq_first _ _ sh bs hfirst1]
  refine ⟨rfl, rfl, rfl,
    (BookShelf.addPublication (w.heap.pubs ++ [PubObj.book (generatedBook i)]) bs
      w.heap.pubs.length).state, ?_, ?_, ?_⟩
  · obtain ⟨pre, post, hsh, hpre, hobj⟩ := hfirst
    refine ⟨pre, post, hsh, ?_, ?_⟩
    · intro q hq
      have := isBookShelf_set (w.heap.pubs ++ [PubObj.book (generatedBook i)])
        w.heap.customers w.heap sh bs
        (BookShelf.addPublication (w.heap.pubs ++ [PubObj.book (generatedBook i)]) bs
          w.heap.pubs.length).state hobj q
      rw [← hpre q hq, ← this]
    · have hlt : sh < w.heap.shelves.length := by
        by_contra hx
        rw [List.getElem?_eq_none (Nat.le_of_not_lt hx)] at hobj
        cases hobj
      simp [List.getElem?_set, hlt]
  · intro x hx
    exact BookShelf.addPublication_entries_mono _ bs _ x hx
  · exact (BookShelf.addPublication_book _ bs _ (generatedBook i) hobjAt).2

/-- What the book loop of menu choice 9 does in `n` passes. -/
theorem bookLoop_spec (n : Nat) (b : Int) (w : World) (sh : Ref) (bs : BookShelf)
    (hfirst : FirstBookShelf w sh bs) :
    ((List.range n).foldl (fun acc k => generateBook (b + (k : Nat)) acc) w).heap.pubs
      = w.heap.pubs ++ (List.range n).map (fun k => PubObj.book (generatedBook (b + (k : Nat)))) ∧
    ((List.range n).foldl (fun acc k => generateBook (b + (k : Nat)) acc) w).heap.customers
      = w.heap.customers ∧
    ((List.range n).foldl (fun acc k => generateBook (b + (k : Nat)) acc) w).library
      = { w.library with books := w.library.books ++
            (List.range n).map (fun k => w.heap.pubs.length + k) } ∧
    ∃ bs', FirstBookShelf
        ((List.range n).foldl (fun acc k => generateBook (b + (k : Nat)) acc) w) sh bs' ∧
      (∀ x ∈ bs.books.entries, x ∈ bs'.books.entries) ∧
      ∀ k, k < n → w.heap.pubs.length + k ∈ bs'.books.entries := by
  induction n with
  | zero =>
    simp only [List.range_zero, List.foldl_nil, List.map_nil, List.append_nil, true_and]
    exact ⟨bs, hfirst, fun x hx => hx, fun k hk => absurd hk (Nat.not_lt_zero k)⟩
  | succ n ih =>
    obtain ⟨hpubs, hcust, hlib, bs1, hfirst1, hmono1, hreg1⟩ := ih
    rw [List.range_succ, List.foldl_append]
    simp only [List.foldl_cons, List.foldl_nil]
    obtain ⟨hp2, hc2, hl2, bs2, hfirst2, hmono2, hnew2⟩ := generateBook_step (b + (n : Nat))
      ((List.range n).foldl (fun acc k => generateBook (b + (k : Nat)) acc) w) sh bs1 hfirst1
    refine ⟨?_, ?_, ?_, bs2, hfirst2, ?_, ?_⟩
    · rw [hp2, hpubs]
      simp [List.map_append]
    · rw [hc2, hcust]
    · rw [hl2, hlib, hpubs]
      simp [List.map_append]
    · intro x hx
      exact hmono2 x (hmono1 x hx)
    · intro k hk
      rcases Nat.lt_succ_iff_lt_or_eq.mp hk with hlt | heq
      · exact hmono2 _ (hreg1 k hlt)
      · subst heq
        have := hnew2
        rw [hpubs] at this
        simpa using this

theorem ensureBookShelf_spec (w : World) :
    (ensureBookShelf w).heap.pubs = w.heap.pubs ∧
    (ensureBookShelf w).heap.customers = w.heap.customers ∧
    (ensureBookShelf w).library.customers = w.library.customers ∧
    (ensureBookShelf w).library.books = w.library.books ∧
    (ensureBookShelf w).library.returnedPublications = w.library.returnedPublications ∧
    (ensureBookShelf w).library.magazines = w.library.magazines ∧
    ∃ sh bs, FirstBookShelf (ensureBookShelf w) sh bs := by
  unfold ensureBookShelf
  split
  · rename_i hnone
    refine ⟨rfl, rfl, rfl, rfl, rfl, rfl, ?_⟩
    have hex : ∃ q ∈ w.library.shelves ++ [w.heap.shelves.length],
        isBookShelf ⟨w.heap.pubs, w.heap.customers,
          w.heap.shelves ++ [ShelfObj.bookShelf (BookShelf.new 100 1)]⟩ q = true := by
      refine ⟨w.heap.shelves.length, by simp, ?_⟩
      simp [isBookShelf]
    obtain ⟨pre, x, post, hl, hpre, hx⟩ := exists_first _ _ hex
    have hobj : ∃ bs, (w.heap.shelves ++ [ShelfObj.bookShelf (BookShelf.new 100 1)])[x]?
        = some (ShelfObj.bookShelf bs) := by
      unfold isBookShelf at hx
      simp only at hx
      split at hx
      · rename_i bs hbs
        exact ⟨bs, hbs⟩
      · cases hx
    obtain ⟨bs, hbs⟩ := hobj
    exact ⟨x, bs, pre, post, hl, hpre, hbs⟩
  · rename_i hsome
    refine ⟨rfl, rfl, rfl, rfl, rfl, rfl, ?_⟩
    obtain ⟨pre, x, post, hl, hpre, hx, _, _, _⟩ := find_if_split _ _ hsome
    have hobj : ∃ bs, w.heap.shelves[x]? = some (ShelfObj.bookShelf bs) := by
      unfold isBookShelf at hx
      split at hx
      · rename_i bs hbs
        exact ⟨bs, hbs⟩
      · cases hx
    obtain ⟨bs, hbs⟩ := hobj
    exact ⟨x, bs, pre, post, hl, hpre, hbs⟩

end Bulk

section BulkSpec

open Library

/-- Menu choice 9 with a count `n ≥ 0`, field by field. -/
theorem bulkGenerate_eq (s : Session) (n : Nat) :
    (bulkGenerate s n).nextCustomerId = s.nextCustomerId + n ∧
    (bulkGenerate s n).nextBookId = s.nextBookId + n ∧
    (bulkGenerate s n).library.heap.customers = s.library.heap.customers ++
      (List.range n).map (fun k =>
        Customer.new (s.nextCustomerId + (k : Nat))
          ("Customer" ++ toString (s.nextCustomerId + (k : Nat)))
          ("LastName" ++ toString (s.nextCustomerId + (k : Nat)))) ∧
    (bulkGenerate s n).library.library.customers = s.library.library.customers ++
      (List.range n).map (fun k => s.library.heap.customers.length + k) ∧
    (bulkGenerate s n).library.heap.pubs = s.library.heap.pubs ++
      (List.range n).map (fun k => PubObj.book (generatedBook (s.nextBookId + (k : Nat)))) ∧
    (bulkGenerate s n).library.library.books = s.library.library.books ++
      (List.range n).map (fun k => s.library.heap.pubs.length + k) ∧
    (bulkGenerate s n).library.library.returnedPublications
      = s.library.library.returnedPublications ∧
    (bulkGenerate s n).library.library.magazines = s.library.library.magazines ∧
    ∃ sh bs, FirstBookShelf (bulkGenerate s n).library sh bs ∧
      ∀ k, k < n → s.library.heap.pubs.length + k ∈ bs.books.entries := by
  obtain ⟨hp0, hc0, hlc0, hlb0, hlr0, hlm0, sh, bs0, hfirst0⟩ := ensureBookShelf_spec s.library
  have hb1 : (n : Int) + s.nextCustomerId - 1 = s.nextCustomerId + (n : Int) - 1 := by omega
  have hb2 : (n : Int) + s.nextBookId - 1 = s.nextBookId + (n : Int) - 1 := by omega
  have hrun : (bulkGenerate s n).library =
      (List.range n).foldl (fun acc k => generateBook (s.nextBookId + (k : Nat)) acc)
        ((List.range n).foldl (fun acc k => generateCustomer (s.nextCustomerId + (k : Nat)) acc)
          (ensureBookShelf s.library)) := by
    unfold bulkGenerate
    simp only
    rw [hb1, hb2, forLoop_eq_foldl, forLoop_eq_foldl]
  have hfirst1 : FirstBookShelf
      ((List.range n).foldl (fun acc k => generateCustomer (s.nextCustomerId + (k : Nat)) acc)
        (ensureBookShelf s.library)) sh bs0 := by
    rw [customerLoop_eq]
    exact hfirst0
  obtain ⟨hpubs, hcust, hlib, bs', hfirst', _, hreg⟩ :=
    bookLoop_spec n s.nextBookId _ sh bs0 hfirst1
  rw [customerLoop_eq] at hpubs hcust hlib hrun
  simp only at hpubs hcust hlib
  refine ⟨rfl, rfl, ?_, ?_, ?_, ?_, ?_, ?_, sh, bs', ?_, ?_⟩
  · rw [hrun, hcust, hc0]
  · rw [hrun, hlib]
    simp only
    rw [hlc0, hc0]
  · rw [hrun, hpubs, hp0]
  · rw [hrun, hlib]
    simp only
    rw [hlb0, hp0]
  · rw [hrun, hlib]
    exact hlr0
  · rw [hrun, hlib]
    exact hlm0
  · rw [hrun, ← customerLoop_eq]
    exact hfirst'
  · intro k hk
    have := hreg k hk
    rw [customerLoop_eq] at this
    simp only at this
    rw [hp0] at this
    exact this

/-- C22. For every state of `main` and every count `n ≥ 0`, menu choice 9 creates
    exactly `n` customers, with the ids `c, ..., c + n - 1`, and exactly `n` books,
    with the ids `b, ..., b + n - 1`, and appends them in that order to the master
    lists; the book with id `i` has `yearOfPublication = 2000 + i`,
    `pageCount = 200 + i` and `totalCopies = availableCopies = 5`; both counters
    advance by `n`; and afterwards the first shelf that is a `BookShelf` exists and
    every generated book is an entry of it. -/
theorem bulkGenerate_spec (s : Session) (n : Nat) :
    (bulkGenerate s n).nextCustomerId = s.nextCustomerId + n ∧
    (bulkGenerate s n).nextBookId = s.nextBookId + n ∧
    (bulkGenerate s n).library.heap.customers = s.library.heap.customers ++
      (List.range n).map (fun k =>
        Customer.new (s.nextCustomerId + (k : Nat))
          ("Customer" ++ toString (s.nextCustomerId + (k : Nat)))
          ("LastName" ++ toString (s.nextCustomerId + (k : Nat)))) ∧
    (bulkGenerate s n).library.library.customers = s.library.library.customers ++
      (List.range n).map (fun k => s.library.heap.customers.length + k) ∧
    (bulkGenerate s n).library.heap.pubs = s.library.heap.pubs ++
      (List.range n).map (fun k => PubObj.book (generatedBook (s.nextBookId + (k : Nat)))) ∧
    (bulkGenerate s n).library.library.books = s.library.library.books ++
      (List.range n).map (fun k => s.library.heap.pubs.length + k) ∧
    (∀ i : Int, (generatedBook i).id = i ∧ (generatedBook i).yearOfPublication = 2000 + i ∧
      (generatedBook i).pageCount = 200 + i ∧ (generatedBook i).totalCopies = 5 ∧
      (generatedBook i).availableCopies = 5) ∧
    (∀ (i : Int) (first last : String), (Customer.new i first last).id = i) ∧
    (bulkGenerate s n).library.library.returnedPublications
      = s.library.library.returnedPublications ∧
    (bulkGenerate s n).library.library.magazines = s.library.library.magazines ∧
    ∃ sh bs, FirstBookShelf (bulkGenerate s n).library sh bs ∧
      ∀ k, k < n → s.library.heap.pubs.length + k ∈ bs.books.entries := by
  obtain ⟨h1, h2, h3, h4, h5, h6, h7, h8, h9⟩ := bulkGenerate_eq s n
  exact ⟨h1, h2, h3, h4, h5, h6, fun i => ⟨rfl, rfl, rfl, rfl, rfl⟩, fun _ _ _ => rfl,
    h7, h8, h9⟩

end BulkSpec

/-! ## Identifiers when every count is non-negative -/

section Identifiers

open Library

theorem map_deref_append {α β : Type} (old extra : List α) (f : α → β) (l : List Ref)
    (hvalid : ∀ r ∈ l, (old[r]?).map f ≠ none) :
    l.map (fun r => ((old ++ extra)[r]?).map f) = l.map (fun r => (old[r]?).map f) := by
  apply List.map_congr_left
  intro r hr
  have hlt : r < old.length := by
    by_contra hx
    apply hvalid r hr
    rw [List.getElem?_eq_none (Nat.le_of_not_lt hx)]
    rfl
  rw [List.getElem?_append_left hlt]

theorem map_deref_new {α β : Type} (old extra : List α) (f : α → β) :
    ((List.range extra.length).map (fun k => old.length + k)).map
        (fun r => ((old ++ extra)[r]?).map f)
      = extra.map (fun a => some (f a)) := by
  apply List.ext_getElem?
  intro i
  by_cases hi : i < extra.length
  · have hr : (old ++ extra)[old.length + i]? = some extra[i] := by
      rw [List.getElem?_append_right (Nat.le_add_right _ _), Nat.add_sub_cancel_left,
        List.getElem?_eq_getElem hi]
    simp [List.getElem?_map, List.getElem?_range hi, hr, List.getElem?_eq_getElem hi]
  · have hle : extra.length ≤ i := Nat.le_of_not_lt hi
    rw [List.getElem?_eq_none (by simpa using hle), List.getElem?_eq_none (by simpa using hle)]

theorem customerIds_append (w w' : World) (extra : List Customer)
    (hheap : w'.heap.customers = w.heap.customers ++ extra)
    (hlib : w'.library.customers = w.library.customers ++
      (List.range extra.length).map (fun k => w.heap.customers.length + k))
    (hvalid : ∀ x ∈ customerIds w, x ≠ none) :
    customerIds w' = customerIds w ++ extra.map (fun c => some c.id) := by
  unfold customerIds customerIdOf at *
  rw [hlib, hheap, List.map_append, map_deref_new,
    map_deref_append w.heap.customers extra (fun o => o.id) w.library.customers]
  intro r hr
  exact hvalid _ (List.mem_map.mpr ⟨r, hr, rfl⟩)

theorem bookIds_append (w w' : World) (extra : List PubObj)
    (hheap : w'.heap.pubs = w.heap.pubs ++ extra)
    (hlib : w'.library.books = w.library.books ++
      (List.range extra.length).map (fun k => w.heap.pubs.length + k))
    (hvalid : ∀ x ∈ bookIds w, x ≠ none) :
    bookIds w' = bookIds w ++ extra.map (fun o => some o.base.id) := by
  unfold bookIds idOf at *
  rw [hlib, hheap, List.map_append, map_deref_new,
    map_deref_append w.heap.pubs extra (fun o => o.base.id) w.library.books]
  intro r hr
  exact hvalid _ (List.mem_map.mpr ⟨r, hr, rfl⟩)

theorem customerIds_congr (w w' : World) (hheap : w'.heap.customers = w.heap.customers)
    (hlib : w'.library.customers = w.library.customers) : customerIds w' = customerIds w := by
  unfold customerIds customerIdOf
  rw [hheap, hlib]

theorem bookIds_congr (w w' : World) (hheap : w'.heap.pubs = w.heap.pubs)
    (hlib : w'.library.books = w.library.books) : bookIds w' = bookIds w := by
  unfold bookIds
  rw [hheap, hlib]

theorem IdsBelow.ids_ne_none {ids : List (Option Int)} {next : Int} (h : IdsBelow ids next) :
    ∀ x ∈ ids, x ≠ none := by
  intro x hx hnone
  obtain ⟨i, hi, _⟩ := h.2 x hx
  rw [hnone] at hi
  cases hi

theorem IdsBelow.append_range {ids : List (Option Int)} {next : Int} (h : IdsBelow ids next)
    (n : Nat) :
    IdsBelow (ids ++ (List.range n).map (fun k => some (next + (k : Nat)))) (next + n) := by
  constructor
  · apply List.Nodup.append h.1
    · apply List.Nodup.map _ (List.nodup_range n)
      intro a b hab
      simp only [Option.some.injEq] at hab
      omega
    · intro x hx1 hx2
      obtain ⟨i, hi, hlt⟩ := h.2 x hx1
      obtain ⟨k, _, hk⟩ := List.mem_map.mp hx2
      rw [hi] at hk
      simp only [Option.some.injEq] at hk
      omega
  · intro x hx
    rcases List.mem_append.mp hx with hx | hx
    · obtain ⟨i, hi, hlt⟩ := h.2 x hx
      exact ⟨i, hi, by omega⟩
    · obtain ⟨k, hk, hxk⟩ := List.mem_map.mp hx
      have hkn : k < n := List.mem_range.mp hk
      exact ⟨next + (k : Nat), hxk.symm, by omega⟩

theorem IdsBelow.append_one {ids : List (Option Int)} {next : Int} (h : IdsBelow ids next) :
    IdsBelow (ids ++ [some next]) (next + 1) := by
  have := h.append_range 1
  simpa [List.range_succ] using this

theorem IdsBelow.mono {ids : List (Option Int)} {next next' : Int} (h : IdsBelow ids next)
    (hle : next ≤ next') : IdsBelow ids next' :=
  ⟨h.1, fun x hx => by
    obtain ⟨i, hi, hlt⟩ := h.2 x hx
    exact ⟨i, hi, by omega⟩⟩

theorem createCustomer_ids (s : Session) (first last : String)
    (hc : IdsBelow (customerIds s.library) s.nextCustomerId)
    (hb : IdsBelow (bookIds s.library) s.nextBookId) :
    IdsBelow (customerIds (createCustomer s first last).library)
        (createCustomer s first last).nextCustomerId ∧
      IdsBelow (bookIds (createCustomer s first last).library)
        (createCustomer s first last).nextBookId := by
  constructor
  · have hids := customerIds_append s.library (createCustomer s first last).library
      [Customer.new s.nextCustomerId first last] rfl (by
        simp [createCustomer, makeCustomer, addCustomer, List.range_succ]) hc.ids_ne_none
    rw [hids]
    exact hc.append_one
  · have hids : bookIds (createCustomer s first last).library = bookIds s.library :=
      bookIds_congr _ _ rfl rfl
    rw [hids]
    exact hb

theorem createBook_ids (s : Session) (title af al : String) (year pages total available : Int)
    (hc : IdsBelow (customerIds s.library) s.nextCustomerId)
    (hb : IdsBelow (bookIds s.library) s.nextBookId) :
    IdsBelow (customerIds (createBook s title af al year pages total available).library)
        (createBook s title af al year pages total available).nextCustomerId ∧
      IdsBelow (bookIds (createBook s title af al year pages total available).library)
        (createBook s title af al year pages total available).nextBookId := by
  have hlib := addBook_library
    (makeBook s.library s.nextBookId title ⟨af, al⟩ year pages total available).1
    (makeBook s.library s.nextBookId title ⟨af, al⟩ year pages total available).2
  have hpubs := addBook_pubs
    (makeBook s.library s.nextBookId title ⟨af, al⟩ year pages total available).1
    (makeBook s.library s.nextBookId title ⟨af, al⟩ year pages total available).2
  have hcust := addBook_customers
    (makeBook s.library s.nextBookId title ⟨af, al⟩ year pages total available).1
    (makeBook s.library s.nextBookId title ⟨af, al⟩ year pages total available).2
  constructor
  · have hids : customerIds (createBook s title af al year pages total available).library
        = customerIds s.library := by
      apply customerIds_congr
      · exact hcust
      · show (addBook _ _).state.library.customers = _
        rw [hlib]
        rfl
    rw [hids]
    exact hc
  · have hids := bookIds_append s.library
      (createBook s title af al year pages total available).library
      [PubObj.book ⟨⟨s.nextBookId, title, year, total, available⟩, ⟨af, al⟩, pages⟩]
      hpubs (by
        show (addBook _ _).state.library.books = _
        rw [hlib]
        simp [makeBook, List.range_succ]) hb.ids_ne_none
    rw [hids]
    exact hb.append_one

theorem bulkGenerate_ids (s : Session) (n : Nat)
    (hc : IdsBelow (customerIds s.library) s.nextCustomerId)
    (hb : IdsBelow (bookIds s.library) s.nextBookId) :
    IdsBelow (customerIds (bulkGenerate s n).library) (bulkGenerate s n).nextCustomerId ∧
      IdsBelow (bookIds (bulkGenerate s n).library) (bulkGenerate s n).nextBookId := by
  obtain ⟨h1, h2, h3, h4, h5, h6, _, _, _⟩ := bulkGenerate_eq s n
  constructor
  · have hids := customerIds_append s.library (bulkGenerate s n).library _ h3
      (by rw [h4]; simp) hc.ids_ne_none
    rw [hids, h1]
    have := hc.append_range n
    simpa [List.map_map, Function.comp_def, Customer.new] using this
  · have hids := bookIds_append s.library (bulkGenerate s n).library _ h5
      (by rw [h6]; simp) hb.ids_ne_none
    rw [hids, h2]
    have := hb.append_range n
    simpa [List.map_map, Function.comp_def, generatedBook, PubObj.base] using this

/-- The ids stay pairwise distinct as long as every count given to menu choice 9
    is non-negative. -/
theorem ids_distinct_of_nonneg_counts (actions : List CreateAction)
    (hnonneg : ∀ n, CreateAction.bulk n ∈ actions → 0 ≤ n) :
    (customerIds (runCreates actions).library).Nodup ∧
      (bookIds (runCreates actions).library).Nodup := by
  have hgen : ∀ (acts : List CreateAction) (s : Session),
      (∀ n, CreateAction.bulk n ∈ acts → 0 ≤ n) →
      IdsBelow (customerIds s.library) s.nextCustomerId →
      IdsBelow (bookIds s.library) s.nextBookId →
      IdsBelow (customerIds (acts.foldl CreateAction.run s).library)
          (acts.foldl CreateAction.run s).nextCustomerId ∧
        IdsBelow (bookIds (acts.foldl CreateAction.run s).library)
          (acts.foldl CreateAction.run s).nextBookId := by
    intro acts
    induction acts with
    | nil => intro s _ hc hb; exact ⟨hc, hb⟩
    | cons a as ih =>
      intro s hn hc hb
      have hn' : ∀ n, CreateAction.bulk n ∈ as → 0 ≤ n :=
        fun n hmem => hn n (List.mem_cons_of_mem _ hmem)
      simp only [List.foldl_cons]
      cases a with
      | customer f l =>
        obtain ⟨h1, h2⟩ := createCustomer_ids s f l hc hb
        exact ih _ hn' h1 h2
      | book t af al y p tot av =>
        obtain ⟨h1, h2⟩ := createBook_ids s t af al y p tot av hc hb
        exact ih _ hn' h1 h2
      | bulk n =>
        have h0 : 0 ≤ n := hn n (List.mem_cons_self _ _)
        have hcast : ((n.toNat : Nat) : Int) = n := Int.toNat_of_nonneg h0
        obtain ⟨h1, h2⟩ := bulkGenerate_ids s n.toNat hc hb
        rw [hcast] at h1 h2
        exact ih _ hn' h1 h2
  have hinit : IdsBelow (customerIds Session.initial.library) Session.initial.nextCustomerId ∧
      IdsBelow (bookIds Session.initial.library) Session.initial.nextBookId := by
    constructor <;>
    · constructor
      · exact List.nodup_nil
      · intro x hx
        cases hx
  obtain ⟨h1, h2⟩ := hgen actions Session.initial hnonneg hinit.1 hinit.2
  exact ⟨h1.1, h2.1⟩

end Identifiers

/-! ## Copy accounting -/

section Accounting

open Library

theorem sum_map_set {α : Type} (f : α → Nat) (l : List α) (i : Nat) (a b : α)
    (h : l[i]? = some a) : ((l.set i b).map f).sum + f a = (l.map f).sum + f b := by
  induction l generalizing i with
  | nil => simp at h
  | cons x xs ih =>
    cases i with
    | zero =>
      simp only [List.getElem?_cons_zero, Option.some.injEq] at h
      subst h
      simp only [List.set_cons_zero, List.map_cons, List.sum_cons]
      omega
    | succ j =>
      simp only [List.getElem?_cons_succ] at h
      have := ih j h
      simp only [List.set_cons_succ, List.map_cons, List.sum_cons]
      omega

theorem borrowedWithId_congr (pubs pubs' : Pubs) (id : Int) (c : Customer)
    (h : ∀ p ∈ c.borrowedPublications, idOf pubs' p = idOf pubs p) :
    Customer.borrowedWithId pubs' id c = Customer.borrowedWithId pubs id c := by
  unfold Customer.borrowedWithId
  apply List.countP_congr
  intro p hp
  rw [h p hp]

theorem borrowedCount_congr (pubs pubs' : Pubs) (customers : List Customer)
    (sh sh' : List ShelfObj) (id : Int)
    (h : ∀ c ∈ customers, ∀ p ∈ c.borrowedPublications, idOf pubs' p = idOf pubs p) :
    borrowedCount ⟨pubs', customers, sh'⟩ id = borrowedCount ⟨pubs, customers, sh⟩ id := by
  unfold borrowedCount
  congr 1
  apply List.map_congr_left
  intro c hc
  exact borrowedWithId_congr pubs pubs' id c (h c hc)

theorem borrowedCount_set (pubs : Pubs) (customers : List Customer) (sh : List ShelfObj)
    (id : Int) (c : Ref) (cobj cnew : Customer) (hc : customers[c]? = some cobj) :
    borrowedCount ⟨pubs, customers.set c cnew, sh⟩ id + Customer.borrowedWithId pubs id cobj
      = borrowedCount ⟨pubs, customers, sh⟩ id + Customer.borrowedWithId pubs id cnew :=
  sum_map_set (Customer.borrowedWithId pubs id) customers c cobj cnew hc

theorem borrowedCount_eq_zero (h : Heap) (id : Int)
    (hno : ∀ c ∈ h.customers, ∀ p ∈ c.borrowedPublications, idOf h.pubs p ≠ some id) :
    borrowedCount h id = 0 := by
  unfold borrowedCount
  apply List.sum_eq_zero
  intro n hn
  obtain ⟨c, hc, rfl⟩ := List.mem_map.mp hn
  unfold Customer.borrowedWithId
  rw [List.countP_eq_zero]
  intro p hp
  simpa using hno c hc p hp

theorem addBook_of_noShelves (w : World) (book : Ref) (h : w.library.shelves = []) :
    addBook w book =
      ⟨{ w with library := { w.library with books := w.library.books ++ [book] } }, none⟩ := by
  unfold addBook
  simp [h, find_if]

/-- The outcomes of `borrowBook`: nothing changes and the error is not the
    duplicate-title error, or the book found has lost one available copy and either
    the customer has the new entry or the call ended with the duplicate-title error. -/
theorem borrowBook_cases (w : World) (customerId bookId : Int) :
    ((borrowBook w customerId bookId).state = w ∧
        (borrowBook w customerId bookId).error ≠ some Error.duplicateTitle) ∨
      ∃ c cobj b bobj, w.heap.customers[c]? = some cobj ∧ findBook w bookId = some b ∧
        w.heap.pubs[b]? = some bobj ∧ bobj.base.id = bookId ∧
        (borrowBook w customerId bookId =
            ⟨⟨⟨w.heap.pubs.set b bobj.decAvailable,
                w.heap.customers.set c
                  { cobj with borrowedPublications := cobj.borrowedPublications ++ [b] },
                w.heap.shelves⟩, w.library⟩, none⟩ ∨
          borrowBook w customerId bookId =
            ⟨⟨⟨w.heap.pubs.set b bobj.decAvailable, w.heap.customers, w.heap.shelves⟩,
                w.library⟩, some Error.duplicateTitle⟩) := by
  cases hc : findCustomer w customerId with
  | none =>
    left
    rw [borrowBook_eq_noCustomer w customerId bookId hc]
    exact ⟨rfl, by simp⟩
  | some c =>
    obtain ⟨_, _, cobj, _, _, hcobj, _⟩ := findCustomer_eq_some w customerId c hc
    cases hb : findBook w bookId with
    | none =>
      left
      rw [borrowBook_eq_noBook w customerId bookId c hc hb]
      exact ⟨rfl, by simp⟩
    | some b =>
      obtain ⟨_, _, bobj, _, _, hbobj, hid⟩ := findBook_eq_some w bookId b hb
      by_cases h0 : bobj.base.availableCopies = 0
      · left
        rw [borrowBook_eq_noCopies w customerId bookId c b hc hb (by simp [availableOf, hbobj, h0])]
        exact ⟨rfl, by simp⟩
      · right
        refine ⟨c, cobj, b, bobj, hcobj, rfl, hbobj, hid, ?_⟩
        by_cases ht : ∃ p ∈ cobj.borrowedPublications,
            titleOf w.heap.pubs p = some bobj.base.title
        · right
          exact borrowBook_eq_duplicate w customerId bookId c b cobj bobj hc hcobj hb hbobj h0 ht
        · left
          exact borrowBook_eq_success w customerId bookId c b cobj bobj hc hcobj hb hbobj h0
            (fun p hp heq => ht ⟨p, hp, heq⟩)

/-- The outcomes of `returnBook`: nothing changes, or the first entry with the id
    has left the customer's list and the book found is on top of the history. -/
theorem returnBook_cases (w : World) (customerId bookId : Int) :
    (returnBook w customerId bookId).state = w ∨
      ∃ c cobj b bobj pre p post, w.heap.customers[c]? = some cobj ∧
        findBook w bookId = some b ∧ w.heap.pubs[b]? = some bobj ∧ bobj.base.id = bookId ∧
        cobj.borrowedPublications = pre ++ p :: post ∧ idOf w.heap.pubs p = some bookId ∧
        returnBook w customerId bookId =
          ⟨⟨⟨w.heap.pubs,
              w.heap.customers.set c { cobj with borrowedPublications := pre ++ post },
              w.heap.shelves⟩,
            { w.library with
              returnedPublications := w.library.returnedPublications.push b }⟩, none⟩ := by
  cases hc : findCustomer w customerId with
  | none =>
    left
    rw [returnBook_eq_noCustomer w customerId bookId hc]
  | some c =>
    obtain ⟨_, _, cobj, _, _, hcobj, _⟩ := findCustomer_eq_some w customerId c hc
    cases hb : findBook w bookId with
    | none =>
      left
      rw [returnBook_eq_noBook w customerId bookId c hc hb]
    | some b =>
      obtain ⟨_, _, bobj, _, _, hbobj, hid⟩ := findBook_eq_some w bookId b hb
      by_cases hp : ∃ p ∈ cobj.borrowedPublications, idOf w.heap.pubs p = some bookId
      · right
        obtain ⟨pre, p, post, hl, _, hpid, hret⟩ :=
          returnBook_eq_success w customerId bookId c b cobj hc hcobj hb hp
        exact ⟨c, cobj, b, bobj, pre, p, post, hcobj, rfl, hbobj, hid, hl, hpid, hret⟩
      · left
        rw [returnBook_eq_notBorrowed w customerId bookId c b cobj hc hcobj hb
          (fun p hp2 heq => hp ⟨p, hp2, heq⟩)]

theorem lt_length_of_getElem? {α : Type} (l : List α) (i : Nat) (a : α) (h : l[i]? = some a) :
    i < l.length := by
  by_contra hx
  rw [List.getElem?_eq_none (Nat.le_of_not_lt hx)] at h
  cases h

theorem mem_of_getElem? {α : Type} (l : List α) (i : Nat) (a : α) (h : l[i]? = some a) :
    a ∈ l := by
  obtain ⟨hlt, heq⟩ := List.getElem?_eq_some.mp h
  rw [← heq]
  exact List.getElem_mem hlt

theorem idOf_append_left (pubs extra : Pubs) (r : Ref) (hr : r < pubs.length) :
    idOf (pubs ++ extra) r = idOf pubs r := by
  unfold idOf
  rw [List.getElem?_append_left hr]

theorem Ledger.afterBorrow_of_ne (L : Ledger) (w : World) (customerId bookId : Int)
    (h : (borrowBook w customerId bookId).error ≠ some Error.duplicateTitle) :
    L.afterBorrow w customerId bookId = L := by
  unfold Ledger.afterBorrow
  rw [if_neg h]

theorem Ledger.afterBorrow_of_duplicate (L : Ledger) (w : World) (customerId bookId : Int)
    (b : Ref) (h : (borrowBook w customerId bookId).error = some Error.duplicateTitle)
    (hb : findBook w bookId = some b) :
    L.afterBorrow w customerId bookId
      = ⟨L.added, Function.update L.rejected b (L.rejected b + 1)⟩ := by
  unfold Ledger.afterBorrow
  rw [if_pos h, hb]

theorem Balanced.books_lt {w : World} {L : Ledger} (hB : Balanced w L) :
    ∀ b ∈ w.library.books, b < w.heap.pubs.length := by
  intro b hb
  obtain ⟨o, ho, _⟩ := hB.balance b hb
  exact lt_length_of_getElem? _ _ _ ho

theorem Balanced.ids_ne {w : World} {L : Ledger} (hB : Balanced w L) (r b : Ref)
    (hr : r ∈ w.library.books) (hb : b ∈ w.library.books) (hne : r ≠ b) :
    idOf w.heap.pubs r ≠ idOf w.heap.pubs b :=
  fun heq => hne (List.inj_on_of_nodup_map hB.idsNodup hr hb heq)

theorem Balanced.init : Balanced World.empty Ledger.empty where
  noShelves := rfl
  idsNodup := List.nodup_nil
  counts := fun o ho => by cases ho
  borrowedIn := fun c hc => by cases hc
  historyIn := fun p hp => by cases hp
  rejectedIn := fun r hr => absurd rfl hr
  balance := fun b hb => by cases hb

theorem Balanced.afterMakeCustomer {w : World} {L : Ledger} (hB : Balanced w L)
    (id : Int) (first last : String) : Balanced (makeCustomer w id first last).1 L where
  noShelves := hB.noShelves
  idsNodup := hB.idsNodup
  counts := hB.counts
  borrowedIn := by
    intro c hc p hp
    rcases List.mem_append.mp hc with hc | hc
    · exact hB.borrowedIn c hc p hp
    · rw [List.mem_singleton] at hc
      subst hc
      cases hp
  historyIn := hB.historyIn
  rejectedIn := hB.rejectedIn
  balance := by
    intro b hb
    obtain ⟨o, ho, hsum, htot⟩ := hB.balance b hb
    refine ⟨o, ho, ?_, htot⟩
    have hcnt : borrowedCount (makeCustomer w id first last).1.heap o.base.id
        = borrowedCount w.heap o.base.id := by
      simp [borrowedCount, makeCustomer, Customer.borrowedWithId, Customer.new]
    have hhist : historyCount (makeCustomer w id first last).1 b = historyCount w b := rfl
    rw [hcnt, hhist]
    exact hsum

theorem Balanced.afterMakeBook {w : World} {L : Ledger} (hB : Balanced w L)
    (id : Int) (title : String) (author : Author) (year pages total available : Int)
    (hle : available ≤ total) :
    Balanced (makeBook w id title author year pages total available).1 L := by
  have hid : ∀ r ∈ w.library.books,
      idOf (makeBook w id title author year pages total available).1.heap.pubs r
        = idOf w.heap.pubs r :=
    fun r hr => idOf_append_left _ _ r (hB.books_lt r hr)
  exact {
    noShelves := hB.noShelves
    idsNodup := by
      have hmap : (makeBook w id title author year pages total available).1.library.books.map
          (idOf (makeBook w id title author year pages total available).1.heap.pubs)
          = w.library.books.map (idOf w.heap.pubs) := List.map_congr_left hid
      rw [hmap]
      exact hB.idsNodup
    counts := by
      intro o ho
      rcases List.mem_append.mp ho with ho | ho
      · exact hB.counts o ho
      · rw [List.mem_singleton] at ho
        subst ho
        exact hle
    borrowedIn := hB.borrowedIn
    historyIn := hB.historyIn
    rejectedIn := hB.rejectedIn
    balance := by
      intro b hb
      obtain ⟨o, ho, hsum, htot⟩ := hB.balance b hb
      have ho2 : (makeBook w id title author year pages total available).1.heap.pubs[b]?
          = some o := by
        show (w.heap.pubs ++ _)[b]? = some o
        rw [List.getElem?_append_left (hB.books_lt b hb)]
        exact ho
      refine ⟨o, ho2, ?_, htot⟩
      have hcnt : borrowedCount (makeBook w id title author year pages total available).1.heap
          o.base.id = borrowedCount w.heap o.base.id :=
        borrowedCount_congr _ _ _ _ _ _
          (fun c hc p hp => hid p (hB.borrowedIn c hc p hp))
      have hhist : historyCount (makeBook w id title author year pages total available).1 b
          = historyCount w b := rfl
      rw [hcnt, hhist]
      exact hsum }

theorem Balanced.afterAddCustomer {w : World} {L : Ledger} (hB : Balanced w L)
    (customer : Ref) : Balanced (addCustomer w customer).state L where
  noShelves := hB.noShelves
  idsNodup := hB.idsNodup
  counts := hB.counts
  borrowedIn := hB.borrowedIn
  historyIn := hB.historyIn
  rejectedIn := hB.rejectedIn
  balance := hB.balance

theorem Balanced.afterAddBook {w : World} {L : Ledger} (hB : Balanced w L)
    (book : Ref) (b : Book) (hobj : w.heap.pubs[book]? = some (PubObj.book b))
    (hfresh : ∀ r ∈ w.library.books, idOf w.heap.pubs r ≠ some b.id) :
    Balanced (addBook w book).state (L.afterAdd book b.availableCopies) := by
  rw [addBook_of_noShelves w book hB.noShelves]
  have hidb : idOf w.heap.pubs book = some b.id := by simp [idOf, hobj, PubObj.base]
  have hnot : book ∉ w.library.books := fun hmem => hfresh book hmem hidb
  exact {
    noShelves := hB.noShelves
    idsNodup := by
      show ((w.library.books ++ [book]).map (idOf w.heap.pubs)).Nodup
      rw [List.map_append]
      apply List.Nodup.append hB.idsNodup (by simp)
      intro x hx1 hx2
      obtain ⟨r, hr, hrx⟩ := List.mem_map.mp hx1
      simp only [List.map_cons, List.map_nil, List.mem_singleton] at hx2
      rw [hx2, hidb] at hrx
      exact hfresh r hr hrx
    counts := hB.counts
    borrowedIn := fun c hc p hp => List.mem_append_left _ (hB.borrowedIn c hc p hp)
    historyIn := fun p hp => List.mem_append_left _ (hB.historyIn p hp)
    rejectedIn := fun r hr => List.mem_append_left _ (hB.rejectedIn r hr)
    balance := by
      intro r hr
      rcases List.mem_append.mp hr with hr | hr
      · obtain ⟨o, ho, hsum, htot⟩ := hB.balance r hr
        have hne : r ≠ book := fun heq => hnot (heq ▸ hr)
        refine ⟨o, ho, ?_, ?_⟩
        · show _ = Function.update L.added book b.availableCopies r
          rw [Function.update_noteq hne]
          exact hsum
        · show Function.update L.added book b.availableCopies r ≤ _
          rw [Function.update_noteq hne]
          exact htot
      · rw [List.mem_singleton] at hr
        subst hr
        refine ⟨PubObj.book b, hobj, ?_, ?_⟩
        · have hcnt : borrowedCount w.heap (PubObj.book b).base.id = 0 :=
            borrowedCount_eq_zero w.heap _
              (fun c hc p hp => hfresh p (hB.borrowedIn c hc p hp))
          have hhist : historyCount w r = 0 :=
            List.count_eq_zero.mpr (fun hmem => hnot (hB.historyIn r hmem))
          have hrej : L.rejected r = 0 := by
            by_contra hx
            exact hnot (hB.rejectedIn r hx)
          show _ + ((borrowedCount w.heap (PubObj.book b).base.id : Nat) : Int)
              + ((historyCount w r : Nat) : Int) + ((L.rejected r : Nat) : Int)
            = Function.update L.added r b.availableCopies r
          rw [hcnt, hhist, hrej, Function.update_same]
          simp [PubObj.base]
        · show Function.update L.added r b.availableCopies r ≤ _
          rw [Function.update_same]
          exact hB.counts _ (mem_of_getElem? _ _ _ hobj) }

/-- One available copy of the book `b` is taken, and either one entry for `b` is
    added to a borrowed list or one rejection is recorded for `b`. -/
theorem Balanced.decrement {w : World} {L : Ledger} (hB : Balanced w L) (b : Ref)
    (bobj : PubObj) (hbmem : b ∈ w.library.books) (hbobj : w.heap.pubs[b]? = some bobj)
    (customers : List Customer) (L2 : Ledger)
    (hin : ∀ c ∈ customers, ∀ p ∈ c.borrowedPublications, p ∈ w.library.books)
    (hadded : L2.added = L.added)
    (hrejOther : ∀ r, r ≠ b → L2.rejected r = L.rejected r)
    (hcntOther : ∀ id, id ≠ bobj.base.id →
      borrowedCount ⟨w.heap.pubs, customers, w.heap.shelves⟩ id = borrowedCount w.heap id)
    (hself : borrowedCount ⟨w.heap.pubs, customers, w.heap.shelves⟩ bobj.base.id
        + L2.rejected b = borrowedCount w.heap bobj.base.id + L.rejected b + 1) :
    Balanced ⟨⟨w.heap.pubs.set b bobj.decAvailable, customers, w.heap.shelves⟩, w.library⟩
      L2 := by
  have hid : ∀ r, idOf (w.heap.pubs.set b bobj.decAvailable) r = idOf w.heap.pubs r :=
    idOf_set_decAvailable w.heap.pubs b bobj hbobj
  have hcnt : ∀ id, borrowedCount
      ⟨w.heap.pubs.set b bobj.decAvailable, customers, w.heap.shelves⟩ id
        = borrowedCount ⟨w.heap.pubs, customers, w.heap.shelves⟩ id :=
    fun id => borrowedCount_congr _ _ _ _ _ _ (fun c _ p _ => hid p)
  have hblt : b < w.heap.pubs.length := lt_length_of_getElem? _ _ _ hbobj
  exact {
    noShelves := hB.noShelves
    idsNodup := by
      have hmap : w.library.books.map (idOf (w.heap.pubs.set b bobj.decAvailable))
          = w.library.books.map (idOf w.heap.pubs) := List.map_congr_left (fun r _ => hid r)
      show (w.library.books.map (idOf (w.heap.pubs.set b bobj.decAvailable))).Nodup
      rw [hmap]
      exact hB.idsNodup
    counts := by
      intro o ho
      rcases List.mem_or_eq_of_mem_set ho with ho | ho
      · exact hB.counts o ho
      · have := hB.counts bobj (mem_of_getElem? _ _ _ hbobj)
        have h1 : bobj.decAvailable.base.availableCopies = bobj.base.availableCopies - 1 := by
          rw [PubObj.base_decAvailable]
        have h3 : bobj.decAvailable.base.totalCopies = bobj.base.totalCopies := by
          rw [PubObj.base_decAvailable]
        rw [ho, h1, h3]
        omega
    borrowedIn := hin
    historyIn := hB.historyIn
    rejectedIn := by
      intro r hr
      by_cases hrb : r = b
      · rw [hrb]
        exact hbmem
      · rw [hrejOther r hrb] at hr
        exact hB.rejectedIn r hr
    balance := by
      intro r hr
      obtain ⟨o, ho, hsum, htot⟩ := hB.balance r hr
      have hhist : historyCount
          ⟨⟨w.heap.pubs.set b bobj.decAvailable, customers, w.heap.shelves⟩, w.library⟩ r
            = historyCount w r := rfl
      by_cases hrb : r = b
      · subst hrb
        have hoeq : o = bobj := Option.some.inj (ho.symm.trans hbobj)
        subst hoeq
        have h1 : o.decAvailable.base.availableCopies = o.base.availableCopies - 1 := by
          rw [PubObj.base_decAvailable]
        have h2 : o.decAvailable.base.id = o.base.id := by rw [PubObj.base_decAvailable]
        have h3 : o.decAvailable.base.totalCopies = o.base.totalCopies := by
          rw [PubObj.base_decAvailable]
        refine ⟨o.decAvailable, ?_, ?_, ?_⟩
        · show (w.heap.pubs.set r o.decAvailable)[r]? = some o.decAvailable
          rw [List.getElem?_set_self hblt]
        · rw [h1, h2, hhist, hcnt, hadded]
          omega
        · rw [hadded, h3]
          exact htot
      · have hne : idOf w.heap.pubs r ≠ idOf w.heap.pubs b := hB.ids_ne r b hr hbmem hrb
        have hidne : o.base.id ≠ bobj.base.id := by
          intro heq
          apply hne
          simp [idOf, ho, hbobj, heq]
        refine ⟨o, ?_, ?_, ?_⟩
        · show (w.heap.pubs.set b bobj.decAvailable)[r]? = some o
          rw [List.getElem?_set_ne (fun h => hrb h.symm)]
          exact ho
        · rw [hhist, hcnt, hcntOther _ hidne, hrejOther r hrb, hadded]
          exact hsum
        · rw [hadded]
          exact htot }

theorem borrowedWithId_append (pubs : Pubs) (id : Int) (cobj : Customer) (b : Ref) :
    Customer.borrowedWithId pubs id
        { cobj with borrowedPublications := cobj.borrowedPublications ++ [b] }
      = Customer.borrowedWithId pubs id cobj + (if idOf pubs b = some id then 1 else 0) := by
  unfold Customer.borrowedWithId
  by_cases h : idOf pubs b = some id <;> simp [List.countP_append, List.countP_cons, h]

theorem borrowedWithId_remove (pubs : Pubs) (id : Int) (cobj : Customer)
    (pre post : List Ref) (p : Ref) (hl : cobj.borrowedPublications = pre ++ p :: post) :
    Customer.borrowedWithId pubs id cobj
      = Customer.borrowedWithId pubs id { cobj with borrowedPublications := pre ++ post }
        + (if idOf pubs p = some id then 1 else 0) := by
  unfold Customer.borrowedWithId
  rw [hl]
  by_cases h : idOf pubs p = some id
  · simp [List.countP_append, List.countP_cons, h]
    omega
  · simp [List.countP_append, List.countP_cons, h]

theorem Balanced.afterBorrowBook {w : World} {L : Ledger} (hB : Balanced w L)
    (customerId bookId : Int) :
    Balanced (borrowBook w customerId bookId).state (L.afterBorrow w customerId bookId) := by
  rcases borrowBook_cases w customerId bookId with
    ⟨hst, herr⟩ | ⟨c, cobj, b, bobj, hcobj, hb, hbobj, hid, hsucc | hdup⟩
  · rw [hst, Ledger.afterBorrow_of_ne L w customerId bookId herr]
    exact hB
  · have hbmem : b ∈ w.library.books := by
      obtain ⟨pre, post, _, hl, _⟩ := findBook_eq_some w bookId b hb
      rw [hl]
      simp
    have hidb : idOf w.heap.pubs b = some bobj.base.id := by simp [idOf, hbobj]
    have hset := fun id => borrowedCount_set w.heap.pubs w.heap.customers w.heap.shelves id c
      cobj { cobj with borrowedPublications := cobj.borrowedPublications ++ [b] } hcobj
    rw [Ledger.afterBorrow_of_ne L w customerId bookId (by rw [hsucc]; simp), hsucc]
    apply hB.decrement b bobj hbmem hbobj _ L _ rfl (fun _ _ => rfl)
    · intro id hne
      have h := hset id
      rw [borrowedWithId_append, hidb, if_neg (fun heq => hne (Option.some.inj heq).symm)] at h
      show borrowedCount ⟨w.heap.pubs, _, w.heap.shelves⟩ id
        = borrowedCount ⟨w.heap.pubs, w.heap.customers, w.heap.shelves⟩ id
      omega
    · have h := hset bobj.base.id
      rw [borrowedWithId_append, hidb, if_pos rfl] at h
      show borrowedCount ⟨w.heap.pubs, _, w.heap.shelves⟩ bobj.base.id + _
        = borrowedCount ⟨w.heap.pubs, w.heap.customers, w.heap.shelves⟩ bobj.base.id + _ + 1
      omega
    · intro c2 hc2 p hp
      rcases List.mem_or_eq_of_mem_set hc2 with hc2 | hc2
      · exact hB.borrowedIn c2 hc2 p hp
      · rw [hc2] at hp
        rcases List.mem_append.mp hp with hp | hp
        · exact hB.borrowedIn cobj (mem_of_getElem? _ _ _ hcobj) p hp
        · rw [List.mem_singleton] at hp
          rw [hp]
          exact hbmem
  · have hbmem : b ∈ w.library.books := by
      obtain ⟨pre, post, _, hl, _⟩ := findBook_eq_some w bookId b hb
      rw [hl]
      simp
    rw [Ledger.afterBorrow_of_duplicate L w customerId bookId b (by rw [hdup]) hb, hdup]
    apply hB.decrement b bobj hbmem hbobj w.heap.customers
      ⟨L.added, Function.update L.rejected b (L.rejected b + 1)⟩ hB.borrowedIn rfl
    · intro r hr
      show Function.update L.rejected b (L.rejected b + 1) r = L.rejected r
      rw [Function.update_noteq hr]
    · intro id _
      rfl
    · show borrowedCount w.heap bobj.base.id + Function.update L.rejected b (L.rejected b + 1) b
        = borrowedCount w.heap bobj.base.id + L.rejected b + 1
      rw [Function.update_same]
      omega

theorem Balanced.afterReturnBook {w : World} {L : Ledger} (hB : Balanced w L)
    (customerId bookId : Int) : Balanced (returnBook w customerId bookId).state L := by
  rcases returnBook_cases w customerId bookId with
    hst | ⟨c, cobj, b, bobj, pre, p, post, hcobj, hb, hbobj, hid, hl, hpid, hret⟩
  · rw [hst]
    exact hB
  have hbmem : b ∈ w.library.books := by
    obtain ⟨pre2, post2, _, hl2, _⟩ := findBook_eq_some w bookId b hb
    rw [hl2]
    simp
  have hset := fun id => borrowedCount_set w.heap.pubs w.heap.customers w.heap.shelves id c
    cobj { cobj with borrowedPublications := pre ++ post } hcobj
  rw [hret]
  exact {
    noShelves := hB.noShelves
    idsNodup := hB.idsNodup
    counts := hB.counts
    borrowedIn := by
      intro c2 hc2 q hq
      rcases List.mem_or_eq_of_mem_set hc2 with hc2 | hc2
      · exact hB.borrowedIn c2 hc2 q hq
      · rw [hc2] at hq
        apply hB.borrowedIn cobj (mem_of_getElem? _ _ _ hcobj) q
        rw [hl]
        rcases List.mem_append.mp hq with hq | hq
        · exact List.mem_append_left _ hq
        · exact List.mem_append_right _ (List.mem_cons_of_mem _ hq)
    historyIn := by
      intro q hq
      rcases List.mem_append.mp hq with hq | hq
      · exact hB.historyIn q hq
      · rw [List.mem_singleton] at hq
        rw [hq]
        exact hbmem
    rejectedIn := hB.rejectedIn
    balance := by
      intro r hr
      obtain ⟨o, ho, hsum, htot⟩ := hB.balance r hr
      refine ⟨o, ho, ?_, htot⟩
      have h := hset o.base.id
      rw [borrowedWithId_remove w.heap.pubs o.base.id cobj pre post p hl, hpid] at h
      show o.base.availableCopies
          + ((borrowedCount ⟨w.heap.pubs, w.heap.customers.set c
              { cobj with borrowedPublications := pre ++ post }, w.heap.shelves⟩ o.base.id : Nat)
            : Int)
          + (((w.library.returnedPublications.data ++ [b]).count r : Nat) : Int)
          + L.rejected r = L.added r
      have hsum2 : o.base.availableCopies
          + ((borrowedCount ⟨w.heap.pubs, w.heap.customers, w.heap.shelves⟩ o.base.id : Nat)
            : Int)
          + ((w.library.returnedPublications.data.count r : Nat) : Int)
          + L.rejected r = L.added r := hsum
      rw [List.count_append]
      by_cases hrb : r = b
      · subst hrb
        have hoeq : o = bobj := Option.some.inj (ho.symm.trans hbobj)
        rw [hoeq, hid, if_pos rfl] at h
        rw [hoeq] at hsum2 ⊢
        rw [hid] at hsum2 ⊢
        have hone : [r].count r = 1 := by simp
        rw [hone]
        omega
      · have hne : idOf w.heap.pubs r ≠ idOf w.heap.pubs b := hB.ids_ne r b hr hbmem hrb
        have hidne : ¬ some bookId = some o.base.id := by
          intro heq
          apply hne
          simp only [idOf, ho, hbobj, Option.map_some', Option.some.injEq]
          rw [hid]
          exact (Option.some.inj heq).symm
        rw [if_neg hidne] at h
        have hzero : [b].count r = 0 := by
          rw [List.count_eq_zero]
          simpa using hrb
        rw [hzero]
        omega }

/-- Every audited state satisfies the accounting invariant. -/
theorem audited_balanced {w : World} {L : Ledger} (h : Audited w L) : Balanced w L := by
  induction h with
  | empty => exact Balanced.init
  | makeCustomer id first last _ ih => exact ih.afterMakeCustomer id first last
  | makeBook id title author year pages total available _ hle _ ih =>
    exact ih.afterMakeBook id title author year pages total available hle
  | addCustomer customer _ _ ih => exact ih.afterAddCustomer customer
  | addBook book b hobj hfresh _ ih => exact ih.afterAddBook book b hobj hfresh
  | borrowBook customerId bookId _ ih => exact ih.afterBorrowBook customerId bookId
  | returnBook customerId bookId _ ih => exact ih.afterReturnBook customerId bookId

/-- In the example state one copy of "Go" is available no more, none is borrowed, one
    is in the return history and one was lost to the rejected borrow: the sum of the
    first three is 1, below the 2 copies the book was added with. -/
theorem auditedWorld_counts :
    availableOf auditedWorld.heap.pubs 0 = some 0 ∧ totalOf auditedWorld.heap.pubs 0 = some 2 ∧
      borrowedCount auditedWorld.heap 1 = 0 ∧ historyCount auditedWorld 0 = 1 ∧
      auditedLedger.rejected 0 = 1 ∧ auditedLedger.added 0 = 2 := by
  decide

/-- C25. In every state reachable from the empty library by creating customers and
    books (with `0 ≤ available ≤ total`) and calling `addCustomer`, `addBook` (of a book
    whose id is not yet in the master list), `borrowBook` and `returnBook`, every book
    `b` of the master list satisfies: available copies + entries with its id across
    the borrowed lists of all customers (each customer object once) + occurrences of
    `b` in the return history is at most its total copies; together with the number of
    `borrowBook` calls on `b` rejected with the duplicate-title error the sum is exactly
    the available copies `b` was added with, so without such a rejection the sum of the
    three equals that number. -/
theorem copy_accounting (w : World) (L : Ledger) (h : Audited w L) (b : Ref)
    (hb : b ∈ w.library.books) :
    ∃ o, w.heap.pubs[b]? = some o ∧
      o.base.availableCopies + borrowedCount w.heap o.base.id + historyCount w b
        ≤ o.base.totalCopies ∧
      o.base.availableCopies + borrowedCount w.heap o.base.id + historyCount w b
        + L.rejected b = L.added b ∧
      (L.rejected b = 0 →
        o.base.availableCopies + borrowedCount w.heap o.base.id + historyCount w b
          = L.added b) := by
  obtain ⟨o, ho, hsum, htot⟩ := (audited_balanced h).balance b hb
  refine ⟨o, ho, ?_, hsum, ?_⟩
  · omega
  · intro h0
    rw [h0] at hsum
    simpa using hsum

theorem copy_accounting_witness :
    Audited auditedWorld auditedLedger ∧ 0 ∈ auditedWorld.library.books ∧
    ∃ o : PubObj, auditedWorld.heap.pubs[0]? = some o ∧
      o.base.availableCopies + (borrowedCount auditedWorld.heap o.base.id : Int)
          + (historyCount auditedWorld 0 : Int) ≤ o.base.totalCopies ∧
      o.base.availableCopies + borrowedCount auditedWorld.heap o.base.id
          + historyCount auditedWorld 0 + auditedLedger.rejected 0 = auditedLedger.added 0 ∧
      (auditedLedger.rejected 0 = 0 →
        o.base.availableCopies + borrowedCount auditedWorld.heap o.base.id
          + historyCount auditedWorld 0 = auditedLedger.added 0) :=
  have h1 := Audited.makeCustomer 1 "Ann" "Lee" Audited.empty
  have h2 := Audited.addCustomer 0 (by decide) h1
  have h3 := Audited.makeCustomer 2 "Bob" "Ray" h2
  have h4 := Audited.addCustomer 1 (by decide) h3
  have h5 := Audited.makeBook 1 "Go" ⟨"Rob", "Pike"⟩ 2020 300 2 2 (by decide) (by decide) h4
  have h6 := Audited.addBook 0 ⟨⟨1, "Go", 2020, 2, 2⟩, ⟨"Rob", "Pike"⟩, 300⟩ (by decide)
    (by decide) h5
  have h7 := Audited.borrowBook 1 1 h6
  have h8 := Audited.borrowBook 1 1 h7
  have h9 : Audited auditedWorld auditedLedger := Audited.returnBook 1 1 h8
  ⟨h9, by decide, copy_accounting auditedWorld auditedLedger h9 0 (by decide)⟩

end Accounting


/-! ## Two books with the same id -/

section RepeatedId

open Library

/-- C1 (as stated, false when two books have the same id).  In the state the menu
    reaches by: create a customer, create "Go" with no copy available, generate with the count -1,
    create "C" with one copy available, both books have the id 1.  The customer 1
    exists and holds nothing, and a book with the id 1 and `availableCopies > 0`
    ("C") is in the master list; yet `borrowBook(1, 1)` fails with
    NoCopiesAvailable and changes nothing, because the first book with the id
    ("Go") has no copy. -/
theorem borrowBook_later_copy_not_lent :
    customerIds repeatedIdFirstSoldOut = [some 1] ∧
    repeatedIdFirstSoldOut.heap.customers[0]? = some ⟨1, "Ann", "Lee", []⟩ ∧
    repeatedIdFirstSoldOut.library.books = [0, 1] ∧
    repeatedIdFirstSoldOut.heap.pubs =
      [PubObj.book ⟨⟨1, "Go", 2020, 1, 0⟩, ⟨"Rob", "Pike"⟩, 300⟩,
       PubObj.book ⟨⟨1, "C", 1978, 1, 1⟩, ⟨"Dennis", "Ritchie"⟩, 228⟩] ∧
    (∃ b ∈ repeatedIdFirstSoldOut.library.books, ∃ o,
      repeatedIdFirstSoldOut.heap.pubs[b]? = some o ∧ o.base.id = 1 ∧
        0 < o.base.availableCopies) ∧
    borrowBook repeatedIdFirstSoldOut 1 1
      = ⟨repeatedIdFirstSoldOut, some Error.noCopiesAvailable⟩ := by
  simp only [repeatedIdFirstSoldOut, runCreates, List.foldl, CreateAction.run,
    bulkGenerate_of_nonpos _ (-1) (by decide)]
  refine ⟨by decide, by decide, by decide, by decide, ⟨1, by decide, _, rfl, by decide⟩, ?_⟩
  exact borrowBook_eq_noCopies _ 1 1 0 0 (by decide) (by decide) (by decide)

/-- C3 (as stated, false when two books have the same id).  In the state the menu
    reaches by: create a customer, create "Go" with one copy available, generate with the count -1,
    create "C" with no copy available, both books have the id 1.  The customer 1
    exists and a book with the id 1 and `availableCopies = 0` ("C") is in the master
    list; yet `borrowBook(1, 1)` succeeds, takes the copy of the first book with
    the id ("Go") and appends it to the customer's list. -/
theorem borrowBook_later_soldOut_ignored :
    customerIds repeatedIdSecondSoldOut = [some 1] ∧
    repeatedIdSecondSoldOut.library.books = [0, 1] ∧
    repeatedIdSecondSoldOut.heap.pubs =
      [PubObj.book ⟨⟨1, "Go", 2020, 1, 1⟩, ⟨"Rob", "Pike"⟩, 300⟩,
       PubObj.book ⟨⟨1, "C", 1978, 1, 0⟩, ⟨"Dennis", "Ritchie"⟩, 228⟩] ∧
    (∃ b ∈ repeatedIdSecondSoldOut.library.books, ∃ o,
      repeatedIdSecondSoldOut.heap.pubs[b]? = some o ∧ o.base.id = 1 ∧
        o.base.availableCopies = 0) ∧
    (borrowBook repeatedIdSecondSoldOut 1 1).error = none ∧
    (borrowBook repeatedIdSecondSoldOut 1 1).state.heap.pubs =
      [PubObj.book ⟨⟨1, "Go", 2020, 1, 0⟩, ⟨"Rob", "Pike"⟩, 300⟩,
       PubObj.book ⟨⟨1, "C", 1978, 1, 0⟩, ⟨"Dennis", "Ritchie"⟩, 228⟩] ∧
    (borrowBook repeatedIdSecondSoldOut 1 1).state.heap.customers
      = [⟨1, "Ann", "Lee", [0]⟩] := by
  simp only [repeatedIdSecondSoldOut, runCreates, List.foldl, CreateAction.run,
    bulkGenerate_of_nonpos _ (-1) (by decide)]
  exact ⟨by decide, by decide, by decide, ⟨1, by decide, _, rfl, by decide⟩, by decide,
    by decide, by decide⟩

end RepeatedId

end Ueb03
